import Mathlib

/-!
Journal metadata (`src/journal/JournalMetadata.h`, `src/journal/JournalMetadata.cc`).

A shallow embedding of the in-memory bookkeeping of `journal::JournalMetadata`:
the object-set window, the per-tag tid counters, the commit-tid map with the
folding of committed entries into an `ObjectSetPosition`, and the coalesced
commit-position write.

Conventions of the embedding:

* `uint64_t` values are natural numbers; every increment is taken modulo `2 ^ 64`.
* A `Context *` is the identity (a number) of a one-shot callback object; `NULL` is `none`.
  Completing a callback appends `(callback, result)` to the `completed` log.
* An asynchronous header write handed to `m_ioctx.aio_operate` is appended to `aio_writes`
  together with the `on_safe` callback of its `C_NotifyUpdate` completion.
* The mutexes are not modelled: every member function runs atomically under `m_lock`.
-/

namespace journal

/-- Number of values of a `uint64_t`. -/
def UINT64_MOD : Nat := 2 ^ 64

/-- Value of the errno constant `ESTALE` (Linux). -/
def ESTALE : Int := 116

/-- Value of the errno constant `ENOENT`. -/
def ENOENT : Int := 2

/-- Value of the errno constant `EDOM`. -/
def EDOM : Int := 33

/-- Value of the errno constant `EINVAL`. -/
def EINVAL : Int := 22

/-- Identity of a one-shot callback object (`Context *`, never `NULL`). -/
abbrev Context := Nat

/-- The record `cls::journal::EntryPosition`. -/
structure EntryPosition where
  tag : String
  tid : Nat
deriving DecidableEq, Repr

/-- The record `cls::journal::ObjectSetPosition`; the default constructor gives object 0
and no entry positions. -/
structure ObjectSetPosition where
  object_number : Nat
  entry_positions : List EntryPosition
deriving DecidableEq, Repr

/-- The record `cls::journal::Client`. -/
structure Client where
  id : String
  description : String
  commit_position : ObjectSetPosition
deriving DecidableEq, Repr

/-- The record `JournalMetadata::CommitEntry`. -/
structure CommitEntry where
  object_num : Nat
  tag : String
  tid : Nat
  committed : Bool
deriving DecidableEq, Repr

/-- The header operations that `JournalMetadata` encodes into an `ObjectWriteOperation`. -/
inductive WriteOp where
  | set_minimum_set (object_set : Nat)
  | set_active_set (object_set : Nat)
  | client_commit (client_id : String) (commit_position : ObjectSetPosition)
deriving DecidableEq, Repr

/-- One call of `m_ioctx.aio_operate`: the operation and the `on_safe` callback held by the
`C_NotifyUpdate` that completes it (`NULL` when constructed with one argument). -/
structure AioWrite where
  op : WriteOp
  on_safe : Option Context
deriving DecidableEq, Repr

/-- State of a `JournalMetadata` object (the `m_` fields the operations below touch) and of
the collaborators it drives: the `SafeTimer` schedule, the writes submitted to the store,
the notifications sent, the listeners whose `handle_update` was called (`handled_updates`)
and the callbacks completed. A listener (`Listener *`) is named by a number. -/
structure JournalMetadata where
  m_client_id : String
  m_commit_tid : Nat
  m_pending_commit_tids : List (Nat × CommitEntry)
  m_minimum_set : Nat
  m_active_set : Nat
  m_registered_clients : List Client
  m_client : Client
  m_allocated_tids : List (String × Nat)
  m_listeners : List Nat
  m_update_notifications : Nat
  m_commit_position : ObjectSetPosition
  m_commit_position_ctx : Option Context
  m_commit_position_task_ctx : Option Nat
  timer_events : List Nat
  next_task : Nat
  aio_writes : List AioWrite
  aio_notifies : Nat
  handled_updates : List Nat
  completed : List (Context × Int)
deriving DecidableEq, Repr

/-- State built by the constructor `JournalMetadata::JournalMetadata`. -/
def JournalMetadata.init (client_id : String) : JournalMetadata :=
  { m_client_id := client_id
    m_commit_tid := 0
    m_pending_commit_tids := []
    m_minimum_set := 0
    m_active_set := 0
    m_registered_clients := []
    m_client := ⟨"", "", ⟨0, []⟩⟩
    m_allocated_tids := []
    m_listeners := []
    m_update_notifications := 0
    m_commit_position := ⟨0, []⟩
    m_commit_position_ctx := none
    m_commit_position_task_ctx := none
    timer_events := []
    next_task := 0
    aio_writes := []
    aio_notifies := 0
    handled_updates := []
    completed := [] }

/-- Call of `Context::complete(r)` on the callback `ctx`. -/
def complete (s : JournalMetadata) (ctx : Context) (r : Int) : JournalMetadata :=
  { s with completed := s.completed ++ [(ctx, r)] }

/-- Member function `JournalMetadata::async_notify_update`: one more header-update
notification sent. -/
def async_notify_update (s : JournalMetadata) : JournalMetadata :=
  { s with aio_notifies := s.aio_notifies + 1 }

/-- Body of `C_NotifyUpdate::finish(r)` for a submitted write `w`: notify when the write succeeded,
then complete the `on_safe` callback if there is one. -/
def C_NotifyUpdate_finish (s : JournalMetadata) (w : AioWrite) (r : Int) : JournalMetadata :=
  let s1 := if r = 0 then async_notify_update s else s
  match w.on_safe with
  | some on_safe => complete s1 on_safe r
  | none => s1

/-- Member function `JournalMetadata::set_minimum_set`. -/
def set_minimum_set (s : JournalMetadata) (object_set : Nat) : JournalMetadata :=
  if s.m_minimum_set ≥ object_set then s
  else
    { s with
      aio_writes := s.aio_writes ++ [⟨WriteOp.set_minimum_set object_set, none⟩]
      m_minimum_set := object_set }

/-- Member function `JournalMetadata::set_active_set`. -/
def set_active_set (s : JournalMetadata) (object_set : Nat) : JournalMetadata :=
  if s.m_active_set ≥ object_set then s
  else
    { s with
      aio_writes := s.aio_writes ++ [⟨WriteOp.set_active_set object_set, none⟩]
      m_active_set := object_set }

/-- Modelled from the spec: `operator<=` of `cls::journal::ObjectSetPosition`, declared in
cls/journal/cls_journal_types.h, which is not among the sources. Section 3 (c) of the
specification: a position P1 is at most P2 iff `P1.object_number < P2.object_number`, or the
object numbers are equal, P2 contains every tag of P1 and `P1.tid ≤ P2.tid` for every shared
tag. -/
def ObjectSetPosition.le (p1 p2 : ObjectSetPosition) : Bool :=
  decide (p1.object_number < p2.object_number) ||
    (decide (p1.object_number = p2.object_number) &&
      p1.entry_positions.all (fun e1 =>
        p2.entry_positions.any (fun e2 => decide (e2.tag = e1.tag)) &&
          p2.entry_positions.all (fun e2 =>
            !decide (e2.tag = e1.tag) || decide (e1.tid ≤ e2.tid))))

/-- Modelled from the spec: `SafeTimer::add_event_after` (common/Timer.h is not among the
sources). The timer thread "runs scheduled callbacks"; `timer_events` lists the scheduled
events that have neither fired nor been cancelled. The delay itself is not modelled. -/
def add_event_after (s : JournalMetadata) (task : Nat) : JournalMetadata :=
  { s with timer_events := s.timer_events ++ [task] }

/-- Modelled from the spec: `SafeTimer::cancel_event` (common/Timer.h is not among the
sources): the commit-position task is "cancelled on flush_commit_position"; cancelling an
event that is not scheduled changes nothing. -/
def cancel_event (s : JournalMetadata) (task : Nat) : JournalMetadata :=
  { s with timer_events := s.timer_events.erase task }

/-- Member function `JournalMetadata::schedule_commit_task`; `next_task` names the object
built by `new C_CommitPositionTask(this)`. -/
def schedule_commit_task (s : JournalMetadata) : JournalMetadata :=
  match s.m_commit_position_task_ctx with
  | none =>
    add_event_after
      { s with m_commit_position_task_ctx := some s.next_task, next_task := s.next_task + 1 }
      s.next_task
  | some _ => s

/-- Member function `JournalMetadata::handle_commit_position_task`. -/
def handle_commit_position_task (s : JournalMetadata) : JournalMetadata :=
  { s with
    aio_writes := s.aio_writes ++
      [⟨WriteOp.client_commit s.m_client_id s.m_commit_position, s.m_commit_position_ctx⟩]
    m_commit_position_ctx := none }

/-- Modelled from the spec: the timer thread firing the scheduled event `task` (common/Timer.h
is not among the sources): the event leaves the schedule and its callback runs, here
`C_CommitPositionTask::finish`, which calls `handle_commit_position_task`. `none` when the
event is not scheduled. -/
def timer_fire (s : JournalMetadata) (task : Nat) : Option JournalMetadata :=
  if task ∈ s.timer_events then
    some (handle_commit_position_task { s with timer_events := s.timer_events.erase task })
  else none

/-- Member function `JournalMetadata::flush_commit_position`. -/
def flush_commit_position (s : JournalMetadata) : JournalMetadata :=
  match s.m_commit_position_task_ctx with
  | none => s
  | some task =>
    handle_commit_position_task
      { cancel_event s task with m_commit_position_task_ctx := none }

/-- Member function `JournalMetadata::set_commit_position`; `on_safe` is not `NULL` by its
type. -/
def set_commit_position (s : JournalMetadata) (commit_position : ObjectSetPosition)
    (on_safe : Context) : JournalMetadata :=
  if commit_position.le s.m_client.commit_position ||
      commit_position.le s.m_commit_position then
    complete s on_safe (-ESTALE)
  else
    let s1 := schedule_commit_task
      { s with
        m_client := { s.m_client with commit_position := commit_position }
        m_commit_position := commit_position
        m_commit_position_ctx := some on_safe }
    match s.m_commit_position_ctx with
    | some stale_ctx => complete s1 stale_ctx (-ESTALE)
    | none => s1

/-- Lookup in the map `m_allocated_tids` (`std::map<std::string, uint64_t>::find`). -/
def allocated_tids_find : List (String × Nat) → String → Option Nat
  | [], _ => none
  | (k, v) :: rest, tag => if k = tag then some v else allocated_tids_find rest tag

/-- Assignment through `m_allocated_tids[tag]`: overwrite the entry of `tag` or add one. -/
def allocated_tids_set : List (String × Nat) → String → Nat → List (String × Nat)
  | [], tag, v => [(tag, v)]
  | (k, x) :: rest, tag, v =>
    if k = tag then (k, v) :: rest else (k, x) :: allocated_tids_set rest tag v

/-- Member function `JournalMetadata::allocate_tid`: `return m_allocated_tids[tag]++`, a
missing entry being created with 0; returns the old counter. -/
def allocate_tid (s : JournalMetadata) (tag : String) : Nat × JournalMetadata :=
  let allocated_tid := (allocated_tids_find s.m_allocated_tids tag).getD 0
  (allocated_tid,
    { s with
      m_allocated_tids :=
        allocated_tids_set s.m_allocated_tids tag ((allocated_tid + 1) % UINT64_MOD) })

/-- Member function `JournalMetadata::reserve_tid`. -/
def reserve_tid (s : JournalMetadata) (tag : String) (tid : Nat) : JournalMetadata :=
  let allocated_tid := (allocated_tids_find s.m_allocated_tids tag).getD 0
  { s with
    m_allocated_tids :=
      allocated_tids_set s.m_allocated_tids tag
        (if allocated_tid ≤ tid then (tid + 1) % UINT64_MOD else allocated_tid) }

/-- Member function `JournalMetadata::get_last_allocated_tid`: `some none` when it returns
false, `some (some tid)` when it returns true and stores `tid`, and `none` when
`assert(it->second > 0)` fails. -/
def get_last_allocated_tid (s : JournalMetadata) (tag : String) : Option (Option Nat) :=
  match allocated_tids_find s.m_allocated_tids tag with
  | none => some none
  | some allocated_tid =>
    if allocated_tid > 0 then some (some (allocated_tid - 1)) else none

/-- Lookup in the map `m_pending_commit_tids` (`std::map<uint64_t, CommitEntry>::find`). -/
def commit_tids_find : List (Nat × CommitEntry) → Nat → Option CommitEntry
  | [], _ => none
  | (k, e) :: rest, commit_tid =>
    if k = commit_tid then some e else commit_tids_find rest commit_tid

/-- Assignment through `m_pending_commit_tids[commit_tid]`; the map is kept in key order,
the order in which `begin()` and iteration see it. -/
def commit_tids_insert :
    List (Nat × CommitEntry) → Nat → CommitEntry → List (Nat × CommitEntry)
  | [], commit_tid, e => [(commit_tid, e)]
  | (k, x) :: rest, commit_tid, e =>
    if commit_tid < k then (commit_tid, e) :: (k, x) :: rest
    else if commit_tid = k then (commit_tid, e) :: rest
    else (k, x) :: commit_tids_insert rest commit_tid e

/-- Member function `JournalMetadata::allocate_commit_tid`. -/
def allocate_commit_tid (s : JournalMetadata) (object_num : Nat) (tag : String) (tid : Nat) :
    Nat × JournalMetadata :=
  let commit_tid := (s.m_commit_tid + 1) % UINT64_MOD
  (commit_tid,
    { s with
      m_commit_tid := commit_tid
      m_pending_commit_tids :=
        commit_tids_insert s.m_pending_commit_tids commit_tid ⟨object_num, tag, tid, false⟩ })

/-- First block of `JournalMetadata::committed`: find the entry of `commit_tid` and set its
`committed` flag; `none` when the entry is missing (the `assert` fails). -/
def mark_committed : List (Nat × CommitEntry) → Nat → Option (List (Nat × CommitEntry))
  | [], _ => none
  | (k, e) :: rest, commit_tid =>
    if k = commit_tid then some ((k, { e with committed := true }) :: rest)
    else (mark_committed rest commit_tid).map (fun rest1 => (k, e) :: rest1)

/-- Position `JournalMetadata::committed` starts folding from: `m_commit_position` unless its
entry positions are empty, else the client's commit position. -/
def committed_base (s : JournalMetadata) : ObjectSetPosition :=
  if !s.m_commit_position.entry_positions.isEmpty then s.m_commit_position
  else s.m_client.commit_position

/-- Body of the `while` loop of `JournalMetadata::committed` for one popped entry. -/
def fold_entry (pos : ObjectSetPosition) (e : CommitEntry) : ObjectSetPosition :=
  { object_number := e.object_num
    entry_positions :=
      match pos.entry_positions with
      | front :: rest =>
        if front.tag = e.tag then ⟨e.tag, e.tid⟩ :: rest
        else ⟨e.tag, e.tid⟩ :: front :: rest
      | [] => [⟨e.tag, e.tid⟩] }

/-- The `while` loop of `JournalMetadata::committed`: pop committed entries from the front of
the map; returns the remaining map, the folded position and `update_commit_position`. -/
def pop_committed :
    List (Nat × CommitEntry) → ObjectSetPosition → Bool →
      List (Nat × CommitEntry) × ObjectSetPosition × Bool
  | [], pos, update => ([], pos, update)
  | (k, e) :: rest, pos, update =>
    if !e.committed then ((k, e) :: rest, pos, update)
    else pop_committed rest (fold_entry pos e) true

/-- The pruning loop of `JournalMetadata::committed`; `in_use_tags` is the `std::set` of the
tags already seen. -/
def prune_tags : List String → List EntryPosition → List EntryPosition
  | _, [] => []
  | in_use_tags, e :: rest =>
    if e.tag ∈ in_use_tags then prune_tags in_use_tags rest
    else e :: prune_tags (e.tag :: in_use_tags) rest

/-- Member function `JournalMetadata::committed`: returns the result, `*object_set_position`
and the new state; `none` when the `assert` on `commit_tid` fails. -/
def committed (s : JournalMetadata) (commit_tid : Nat) :
    Option (Bool × ObjectSetPosition × JournalMetadata) :=
  match mark_committed s.m_pending_commit_tids commit_tid with
  | none => none
  | some pending =>
    let r := pop_committed pending (committed_base s) false
    let object_set_position :=
      if r.2.2 then { r.2.1 with entry_positions := prune_tags [] r.2.1.entry_positions }
      else r.2.1
    some (r.2.2, object_set_position, { s with m_pending_commit_tids := r.1 })

/-- The record `JournalMetadata::C_Refresh`: the result of a mutable-metadata read and the
callback of the caller of `refresh` (`NULL` for the refreshes started by the watch). -/
structure C_Refresh where
  minimum_set : Nat
  active_set : Nat
  registered_clients : List Client
  on_finish : Option Context
deriving DecidableEq, Repr

/-- The lookup `refresh->registered_clients.find(Client(m_client_id, ""))`; the set of clients
is keyed by the client id (`Client::operator<` is declared in cls/journal/cls_journal_types.h,
which is not among the sources; the specification calls it a "set keyed by id"). -/
def registered_clients_find (clients : List Client) (client_id : String) : Option Client :=
  clients.find? (fun c => decide (c.id = client_id))

/-- Member function `JournalMetadata::handle_refresh_complete`. -/
def handle_refresh_complete (s : JournalMetadata) (refresh : C_Refresh) (r : Int) :
    JournalMetadata :=
  let res : JournalMetadata × Int :=
    if r = 0 then
      match registered_clients_find refresh.registered_clients s.m_client_id with
      | some client =>
        let s1 :=
          { s with
            m_minimum_set := refresh.minimum_set
            m_active_set := refresh.active_set
            m_registered_clients := refresh.registered_clients
            m_client := client
            m_update_notifications := s.m_update_notifications + 1 }
        let s2 := { s1 with handled_updates := s1.handled_updates ++ s1.m_listeners }
        ({ s2 with m_update_notifications := s2.m_update_notifications - 1 }, r)
      | none => (s, -ENOENT)
    else (s, r)
  match refresh.on_finish with
  | some on_finish => complete res.1 on_finish res.2
  | none => res.1

/-- The request `client::create(m_header_ioctx, m_header_oid, order, splay_width, pool_id)`
sent to the store. -/
structure CreateRequest where
  order : Nat
  splay_width : Nat
  pool_id : Int
deriving DecidableEq, Repr

/-- Member function `Journaler::create`; `order` and `splay_width` are `uint8_t` values.
Returns the result and the create requests sent to the store; `store_result` is what
`client::create` returns when it is called. -/
def Journaler.create (store_result : Int) (order splay_width : Nat) (pool_id : Int) :
    Int × List CreateRequest :=
  if order > 64 ∨ order < 12 then (-EDOM, [])
  else if splay_width = 0 then (-EINVAL, [])
  else if store_result < 0 then (store_result, [⟨order, splay_width, pool_id⟩])
  else (0, [⟨order, splay_width, pool_id⟩])

/-! ### Call sequences -/

/-- A call of `allocate_tid` or of `reserve_tid`. -/
inductive TidCall where
  | allocate (tag : String)
  | reserve (tag : String) (tid : Nat)
deriving DecidableEq, Repr

/-- The tag a call is made on. -/
def TidCall.tag : TidCall → String
  | TidCall.allocate tag => tag
  | TidCall.reserve tag _ => tag

/-- What a call exchanges with its caller: the tag, and either the value returned by
`allocate_tid` (`allocated = true`) or the tid passed to `reserve_tid`. -/
structure TidEvent where
  tag : String
  value : Nat
  allocated : Bool
deriving DecidableEq, Repr

/-- Run a sequence of `allocate_tid` / `reserve_tid` calls, recording one event per call. -/
def run_tid_calls : JournalMetadata → List TidCall → List TidEvent × JournalMetadata
  | s, [] => ([], s)
  | s, TidCall.allocate tag :: rest =>
    ((⟨tag, (allocate_tid s tag).1, true⟩ : TidEvent) ::
        (run_tid_calls (allocate_tid s tag).2 rest).1,
      (run_tid_calls (allocate_tid s tag).2 rest).2)
  | s, TidCall.reserve tag tid :: rest =>
    ((⟨tag, tid, false⟩ : TidEvent) :: (run_tid_calls (reserve_tid s tag tid) rest).1,
      (run_tid_calls (reserve_tid s tag tid) rest).2)

/-- No counter wraps during the run: every `allocate_tid` finds a counter below `2 ^ 64 - 1`
and every `reserve_tid` is passed a tid below `2 ^ 64 - 1`. -/
def tid_calls_no_wrap : JournalMetadata → List TidCall → Bool
  | _, [] => true
  | s, TidCall.allocate tag :: rest =>
    decide ((allocated_tids_find s.m_allocated_tids tag).getD 0 + 1 < UINT64_MOD) &&
      tid_calls_no_wrap (allocate_tid s tag).2 rest
  | s, TidCall.reserve tag tid :: rest =>
    decide (tid + 1 < UINT64_MOD) && tid_calls_no_wrap (reserve_tid s tag tid) rest

/-- Run a sequence of `allocate_commit_tid` calls, collecting the returned commit tids. -/
def run_allocate_commit_tids :
    JournalMetadata → List (Nat × String × Nat) → List Nat × JournalMetadata
  | s, [] => ([], s)
  | s, (object_num, tag, tid) :: rest =>
    ((allocate_commit_tid s object_num tag tid).1 ::
        (run_allocate_commit_tids (allocate_commit_tid s object_num tag tid).2 rest).1,
      (run_allocate_commit_tids (allocate_commit_tid s object_num tag tid).2 rest).2)

/-- One round of use of a commit tid: allocate it, then report it committed. -/
def allocate_then_commit (s : JournalMetadata) : JournalMetadata :=
  match committed (allocate_commit_tid s 0 "" 0).2 (allocate_commit_tid s 0 "" 0).1 with
  | some r => r.2.2
  | none => (allocate_commit_tid s 0 "" 0).2

/-- The run of entries that the loop of `committed` pops from a map: the committed entries at
its front, in commit-tid order. -/
def popped_entries (pending : List (Nat × CommitEntry)) : List CommitEntry :=
  (pending.takeWhile (fun p => p.2.committed)).map Prod.snd

/-- The state `committed` leaves (the state itself when the `assert` fails). -/
def committed_state (s : JournalMetadata) (commit_tid : Nat) : JournalMetadata :=
  match committed s commit_tid with
  | some r => r.2.2
  | none => s

/-- The pruning as the specification words it ("deduplicate by tag keeping the first
occurrence"): entry number `i` is kept iff no earlier entry of the list carries its tag. -/
def keep_first_occurrences (l : List EntryPosition) : List EntryPosition :=
  (l.enum.filter (fun ie =>
    (l.take ie.1).all (fun e => !decide (e.tag = ie.2.tag)))).map Prod.snd

/-- A call of `allocate_commit_tid` or of `committed`. -/
inductive CommitCall where
  | allocate (object_num : Nat) (tag : String) (tid : Nat)
  | committed (commit_tid : Nat)
deriving DecidableEq, Repr

/-- Run a sequence of `allocate_commit_tid` / `committed` calls; `none` when a `committed`
call trips its assertion. -/
def run_commit_calls : JournalMetadata → List CommitCall → Option JournalMetadata
  | s, [] => some s
  | s, CommitCall.allocate object_num tag tid :: rest =>
    run_commit_calls (allocate_commit_tid s object_num tag tid).2 rest
  | s, CommitCall.committed commit_tid :: rest =>
    (committed s commit_tid).bind (fun r => run_commit_calls r.2.2 rest)

/-- The pending map with the `committed` flag of `commit_tid` set and nothing else
changed. -/
def set_committed_flag (pending : List (Nat × CommitEntry)) (commit_tid : Nat) :
    List (Nat × CommitEntry) :=
  pending.map (fun p => if p.1 = commit_tid then (p.1, { p.2 with committed := true }) else p)

/-- The keys of the pending map increase strictly and its front entry is not marked
committed. -/
def pending_front_open (pending : List (Nat × CommitEntry)) : Prop :=
  (pending.map Prod.fst).Pairwise (fun a b => a < b) ∧
    ∀ p, pending.head? = some p → p.2.committed = false

end journal

/-! ### Futures (`journal::FutureImpl`) -/

namespace journal

/-- Value of the errno constant `EIO`. -/
def EIO : Int := 5

/-- Value of the errno constant `EEXIST`. -/
def EEXIST : Int := 17

/-- Modelled from the spec: the state of a `journal::FutureImpl`. journal/FutureImpl.cc is
not among the sources (only test/journal/test_FutureImpl.cc is). Section 4.F: a future is
marked safe with an error by `safe(err)`, may hold a reference to its immediate predecessor,
and keeps the callbacks passed to `wait`; `m_consistent` records that there is no
predecessor or that the predecessor is complete ("F.safe fires only after the entry and all
its predecessors ... are durably written"); `completed` logs the callbacks fired. -/
structure FutureImpl where
  m_safe : Bool
  m_consistent : Bool
  m_return_value : Int
  m_contexts : List Context
  completed : List (Context × Int)
deriving DecidableEq, Repr

/-- Modelled from the spec: a fresh future as `create_future` of the tests builds it, with or
without a predecessor (`init(prev)`); journal/FutureImpl.cc is not among the sources. A
future without predecessor has nothing to wait for. -/
def FutureImpl.init (has_prev : Bool) : FutureImpl :=
  { m_safe := false, m_consistent := !has_prev, m_return_value := 0, m_contexts := [],
    completed := [] }

/-- Modelled from the spec: `FutureImpl::is_complete` (journal/FutureImpl.cc is not among the
sources): the entry is safe and so are all its predecessors. -/
def FutureImpl.is_complete (f : FutureImpl) : Bool :=
  f.m_safe && f.m_consistent

/-- Modelled from the spec: `FutureImpl::get_return_value` (journal/FutureImpl.cc is not
among the sources): the stored result. -/
def FutureImpl.get_return_value (f : FutureImpl) : Int :=
  f.m_return_value

/-- Modelled from the spec: completion of a future (journal/FutureImpl.cc is not among the
sources): the callbacks passed to `wait` are invoked with the stored result, once. -/
def FutureImpl.finish (f : FutureImpl) : FutureImpl :=
  { f with
    m_contexts := []
    completed := f.completed ++ f.m_contexts.map (fun ctx => (ctx, f.m_return_value)) }

/-- Modelled from the spec: `FutureImpl::wait` (journal/FutureImpl.cc is not among the
sources): "invoke `cb(err)` when the entry is safe ...; if already safe, cb is scheduled ...
with the stored result". -/
def FutureImpl.wait (f : FutureImpl) (on_safe : Context) : FutureImpl :=
  if f.is_complete then { f with completed := f.completed ++ [(on_safe, f.m_return_value)] }
  else { f with m_contexts := f.m_contexts ++ [on_safe] }

/-- Modelled from the spec: `FutureImpl::safe` (journal/FutureImpl.cc is not among the
sources): "marks this future safe with `err`"; by the error preservation rule an error
already stored is not overwritten; the future completes if its predecessors are complete. -/
def FutureImpl.safe (f : FutureImpl) (r : Int) : FutureImpl :=
  let f1 :=
    { f with
      m_safe := true
      m_return_value := if f.m_return_value = 0 then r else f.m_return_value }
  if f1.m_consistent then f1.finish else f1

/-- Modelled from the spec: the notification a future gets when its predecessor completes
with result `r` (journal/FutureImpl.cc is not among the sources; the test
`ConsistentPreservesError` names it): the predecessor's error is stored unless an error is
already stored ("later errors do not overwrite it"), and the future completes if it is
safe. -/
def FutureImpl.consistent (f : FutureImpl) (r : Int) : FutureImpl :=
  let f1 :=
    { f with
      m_consistent := true
      m_return_value := if f.m_return_value = 0 then r else f.m_return_value }
  if f1.m_safe then f1.finish else f1

/-- Modelled from the spec: a chain `f1 -> f2 -> ... -> fn` of fresh futures, each initialised
with the one before it as predecessor (journal/FutureImpl.cc is not among the sources); the
list holds `f1` first. -/
def chain_create : Nat → List FutureImpl
  | 0 => []
  | n + 1 => FutureImpl.init false :: List.replicate n (FutureImpl.init true)

/-- Modelled from the spec: a predecessor that completed with result `r` notifies the first
future of the list, which, if that completes it, notifies the next one, and so on
(journal/FutureImpl.cc is not among the sources). -/
def chain_consistent : Int → List FutureImpl → List FutureImpl
  | _, [] => []
  | r, f :: rest =>
    if (f.consistent r).is_complete then
      f.consistent r :: chain_consistent (f.consistent r).m_return_value rest
    else f.consistent r :: rest

/-- Modelled from the spec: `safe(r)` on future number `k` of a chain (0 for `f1`), with the
notification of its successors if that completes it (journal/FutureImpl.cc is not among the
sources). -/
def chain_safe : Nat → Int → List FutureImpl → List FutureImpl
  | _, _, [] => []
  | 0, r, f :: rest =>
    if (f.safe r).is_complete then
      f.safe r :: chain_consistent (f.safe r).m_return_value rest
    else f.safe r :: rest
  | k + 1, r, f :: rest => f :: chain_safe k r rest

/-- A sequence of `safe` calls `(k, r)` on the futures of a chain, in order. -/
def chain_run : List FutureImpl → List (Nat × Int) → List FutureImpl
  | fs, [] => fs
  | fs, (k, r) :: rest => chain_run (chain_safe k r fs) rest

/-- Register a `wait` callback on the last future of a chain. -/
def chain_wait_last : List FutureImpl → Context → List FutureImpl
  | [], _ => []
  | [f], on_safe => [f.wait on_safe]
  | f :: g :: rest, on_safe => f :: chain_wait_last (g :: rest) on_safe

/-- The `wait` callback `cb` registered on a fresh future is still waiting while the future
is not complete and has fired, once, when it is complete. -/
def FutureImpl.wait_ok (cb : Context) (f : FutureImpl) : Prop :=
  (f.is_complete = false → f.m_contexts = [cb] ∧ f.completed = []) ∧
    (f.is_complete = true → f.m_contexts = [] ∧ f.completed.map Prod.fst = [cb])

/-- Invariant of a chain: the first future is consistent iff `prev_complete` (true for the
chain head, which has no predecessor), and every other future is consistent iff the one
before it is complete. -/
def chain_ok : Bool → List FutureImpl → Prop
  | _, [] => True
  | prev_complete, f :: rest => f.m_consistent = prev_complete ∧ chain_ok f.is_complete rest

end journal

/-! ### The image journal state machine (`src/librbd/Journal.cc`) -/

namespace librbd

/-- Identity of a one-shot callback object (`Context *`). -/
abbrev Context := Nat

/-- The states `Journal<I>::State`. -/
inductive State where
  | STATE_UNINITIALIZED
  | STATE_INITIALIZING
  | STATE_REPLAYING
  | STATE_FLUSHING_RESTART
  | STATE_RESTARTING_REPLAY
  | STATE_FLUSHING_REPLAY
  | STATE_READY
  | STATE_STOPPING
  | STATE_CLOSING
  | STATE_CLOSED
deriving DecidableEq, Repr

/-- The member functions of `Journal<I>` that the journal hands to its collaborators as
one-shot callbacks (`create_context_callback<Journal<I>, &Journal<I>::handle_...>`). -/
inductive Callback where
  | handle_initialized
  | handle_flushing_restart
  | handle_flushing_replay
  | handle_recording_stopped
  | handle_journal_destroyed
deriving DecidableEq, Repr

/-- The record `Journal<I>::Event`. The future, the `AioCompletion` and the object requests
are named by numbers; `pending_extents` (an `interval_set<uint64_t>`) is the list of the
offsets it contains. -/
structure Event where
  future : Nat
  aio_comp : Nat
  aio_object_requests : List Nat
  on_safe_contexts : List Context
  pending_extents : List Nat
  committed_io : Bool
  safe : Bool
  ret_val : Int
deriving DecidableEq, Repr

/-- State of a `Journal<I>` object and of what it has handed to its collaborators:
`m_journaler` and `m_journal_replay` record whether the pointer is non-`NULL`; `m_events` is
the map of the events by tid; `callbacks` lists the callbacks handed out (to
`Journaler::init`, `Replay::flush`, `Journaler::stop_append` and the work queue) that have
not run yet; `committed_entries` lists the replay entries and `committed_futures` the futures
passed to `m_journaler->committed`; `failed_aio_comps` lists the completions failed by
`aio_comp->fail`, `sent_object_requests` the object requests sent; `completed` logs the
contexts completed, with their result. -/
structure Journal where
  m_state : State
  m_error_result : Int
  m_close_pending : Bool
  m_wait_for_state_contexts : List Context
  m_journaler : Bool
  m_journal_replay : Bool
  m_events : List (Nat × Event)
  callbacks : List Callback
  committed_entries : List Nat
  committed_futures : List Nat
  failed_aio_comps : List (Nat × Int)
  sent_object_requests : List Nat
  completed : List (Context × Int)
deriving DecidableEq, Repr

/-- State built by the constructor `Journal<I>::Journal`. -/
def Journal.init : Journal :=
  { m_state := State.STATE_UNINITIALIZED
    m_error_result := 0
    m_close_pending := false
    m_wait_for_state_contexts := []
    m_journaler := false
    m_journal_replay := false
    m_events := []
    callbacks := []
    committed_entries := []
    committed_futures := []
    failed_aio_comps := []
    sent_object_requests := []
    completed := [] }

/-- Member function `Journal<I>::is_steady_state`. -/
def Journal.is_steady_state (s : Journal) : Bool :=
  match s.m_state with
  | State.STATE_READY => true
  | State.STATE_CLOSED => true
  | _ => false

/-- Member function `Journal<I>::transition_state`. -/
def Journal.transition_state (s : Journal) (state : State) (r : Int) : Journal :=
  let s1 := { s with m_state := state }
  let s2 := if s1.m_error_result = 0 ∧ r < 0 then { s1 with m_error_result := r } else s1
  if s2.is_steady_state then
    { s2 with
      m_wait_for_state_contexts := []
      completed := s2.completed ++
        s2.m_wait_for_state_contexts.map (fun ctx => (ctx, s2.m_error_result)) }
  else s2

/-- Member function `Journal<I>::wait_for_steady_state`; `none` when
`assert(!is_steady_state())` fails. -/
def Journal.wait_for_steady_state (s : Journal) (on_state : Context) : Option Journal :=
  if s.is_steady_state then none
  else some { s with m_wait_for_state_contexts := s.m_wait_for_state_contexts ++ [on_state] }

/-- Member function `Journal<I>::create_journaler`; `none` when one of its assertions
fails. -/
def Journal.create_journaler (s : Journal) : Option Journal :=
  if ¬ (s.m_state = State.STATE_UNINITIALIZED ∨ s.m_state = State.STATE_RESTARTING_REPLAY) then
    none
  else if s.m_journaler then none
  else
    let s1 := s.transition_state State.STATE_INITIALIZING 0
    some { s1 with m_journaler := true, callbacks := s1.callbacks ++ [Callback.handle_initialized] }

/-- Member function `Journal<I>::destroy_journaler`. -/
def Journal.destroy_journaler (s : Journal) (r : Int) : Journal :=
  let s1 := { s with m_journal_replay := false }
  let s2 := s1.transition_state State.STATE_CLOSING r
  { s2 with callbacks := s2.callbacks ++ [Callback.handle_journal_destroyed] }

/-- Member function `Journal<I>::recreate_journaler`; `none` when its assertion on the state
fails. -/
def Journal.recreate_journaler (s : Journal) (r : Int) : Option Journal :=
  if ¬ (s.m_state = State.STATE_FLUSHING_RESTART ∨ s.m_state = State.STATE_FLUSHING_REPLAY) then
    none
  else
    let s1 := { s with m_journal_replay := false }
    let s2 := s1.transition_state State.STATE_RESTARTING_REPLAY r
    some { s2 with callbacks := s2.callbacks ++ [Callback.handle_journal_destroyed] }

/-- Member function `Journal<I>::stop_recording`; `none` when one of its assertions fails. -/
def Journal.stop_recording (s : Journal) : Option Journal :=
  if ¬ s.m_journaler then none
  else if s.m_state ≠ State.STATE_READY then none
  else
    let s1 := s.transition_state State.STATE_STOPPING 0
    some { s1 with callbacks := s1.callbacks ++ [Callback.handle_recording_stopped] }

/-- Member function `Journal<I>::open`; `none` when an assertion fails. -/
def Journal.open (s : Journal) (on_finish : Context) : Option Journal :=
  if s.m_state ≠ State.STATE_UNINITIALIZED then none
  else (s.wait_for_steady_state on_finish).bind Journal.create_journaler

/-- Member function `Journal<I>::close`; `none` when an assertion fails. -/
def Journal.close (s : Journal) (on_finish : Context) : Option Journal :=
  if s.m_state = State.STATE_UNINITIALIZED then none
  else if s.m_state = State.STATE_CLOSED then
    some { s with completed := s.completed ++ [(on_finish, s.m_error_result)] }
  else
    (if s.m_state = State.STATE_READY then s.stop_recording else some s).bind
      (fun s1 => Journal.wait_for_steady_state { s1 with m_close_pending := true } on_finish)

/-- Member function `Journal<I>::wait_for_journal_ready`; `none` when the assertion of
`wait_for_steady_state` fails. -/
def Journal.wait_for_journal_ready (s : Journal) (on_ready : Context) : Option Journal :=
  if s.m_state = State.STATE_READY then
    some { s with completed := s.completed ++ [(on_ready, s.m_error_result)] }
  else s.wait_for_steady_state on_ready

/-- Member function `Journal<I>::handle_initialized`. -/
def Journal.handle_initialized (s : Journal) (r : Int) : Journal :=
  if r < 0 then s.destroy_journaler r
  else { s.transition_state State.STATE_REPLAYING 0 with m_journal_replay := true }

/-- Member function `Journal<I>::handle_replay_complete`. -/
def Journal.handle_replay_complete (s : Journal) (r : Int) : Journal :=
  if s.m_state ≠ State.STATE_REPLAYING then s
  else if r < 0 then
    let s1 := s.transition_state State.STATE_FLUSHING_RESTART r
    { s1 with callbacks := s1.callbacks ++ [Callback.handle_flushing_restart] }
  else
    let s1 := s.transition_state State.STATE_FLUSHING_REPLAY 0
    { s1 with callbacks := s1.callbacks ++ [Callback.handle_flushing_replay] }

/-- Member function `Journal<I>::handle_replay_process_safe`; the replay entry is named by a
number. -/
def Journal.handle_replay_process_safe (s : Journal) (replay_entry : Nat) (r : Int) :
    Journal :=
  if r < 0 then
    if s.m_state = State.STATE_REPLAYING then
      let s1 := s.transition_state State.STATE_FLUSHING_RESTART r
      { s1 with callbacks := s1.callbacks ++ [Callback.handle_flushing_restart] }
    else if s.m_state = State.STATE_FLUSHING_REPLAY then
      s.transition_state State.STATE_FLUSHING_RESTART r
    else s
  else { s with committed_entries := s.committed_entries ++ [replay_entry] }

/-- Member function `Journal<I>::handle_flushing_restart`; `none` when an assertion fails. -/
def Journal.handle_flushing_restart (s : Journal) (r : Int) : Option Journal :=
  if r ≠ 0 then none
  else if s.m_state ≠ State.STATE_FLUSHING_RESTART then none
  else if s.m_close_pending then some (s.destroy_journaler r)
  else s.recreate_journaler r

/-- Member function `Journal<I>::handle_flushing_replay`; `none` when an assertion fails. -/
def Journal.handle_flushing_replay (s : Journal) (r : Int) : Option Journal :=
  if r ≠ 0 then none
  else if ¬ (s.m_state = State.STATE_FLUSHING_REPLAY ∨
      s.m_state = State.STATE_FLUSHING_RESTART) then none
  else if s.m_close_pending then some (s.destroy_journaler r)
  else if s.m_state = State.STATE_FLUSHING_RESTART then s.recreate_journaler 0
  else
    some (Journal.transition_state { s with m_journal_replay := false, m_error_result := 0 }
      State.STATE_READY 0)

/-- Member function `Journal<I>::handle_recording_stopped`; `none` when its assertion
fails. -/
def Journal.handle_recording_stopped (s : Journal) (r : Int) : Option Journal :=
  if s.m_state ≠ State.STATE_STOPPING then none
  else some (s.destroy_journaler r)

/-- Member function `Journal<I>::handle_journal_destroyed`; `none` when an assertion
fails. -/
def Journal.handle_journal_destroyed (s : Journal) (r : Int) : Option Journal :=
  let s1 := { s with m_journaler := false }
  if ¬ (s1.m_state = State.STATE_CLOSING ∨ s1.m_state = State.STATE_RESTARTING_REPLAY) then
    none
  else if s1.m_state = State.STATE_RESTARTING_REPLAY then s1.create_journaler
  else some (s1.transition_state State.STATE_CLOSED r)

/-- Lookup in the map `m_events` (`Events::find`). -/
def events_find : List (Nat × Event) → Nat → Option Event
  | [], _ => none
  | (k, e) :: rest, tid => if k = tid then some e else events_find rest tid

/-- Update through a reference into the map `m_events` (`Event &event = it->second`). -/
def events_set : List (Nat × Event) → Nat → Event → List (Nat × Event)
  | [], _, _ => []
  | (k, x) :: rest, tid, e =>
    if k = tid then (k, e) :: rest else (k, x) :: events_set rest tid e

/-- Removal from the map `m_events` (`m_events.erase(it)`). -/
def events_erase (m : List (Nat × Event)) (tid : Nat) : List (Nat × Event) :=
  m.filter (fun p => !decide (p.1 = tid))

/-- Member function `Journal<I>::handle_io_event_safe`; `none` when an assertion fails. -/
def Journal.handle_io_event_safe (s : Journal) (r : Int) (tid : Nat) : Option Journal :=
  if ¬ (s.m_state = State.STATE_READY ∨ s.m_state = State.STATE_STOPPING) then none
  else
    match events_find s.m_events tid with
    | none => none
    | some event =>
      let event1 := { event with aio_object_requests := [], on_safe_contexts := [] }
      let s1 :=
        if r < 0 ∨ event1.committed_io then
          { s with committed_futures := s.committed_futures ++ [event1.future] }
        else s
      let event2 := if r < 0 ∨ event1.committed_io then { event1 with ret_val := r } else event1
      let s2 :=
        if event2.committed_io then { s1 with m_events := events_erase s1.m_events tid }
        else { s1 with m_events := events_set s1.m_events tid { event2 with safe := true } }
      let s3 :=
        if r < 0 then { s2 with failed_aio_comps := s2.failed_aio_comps ++ [(event.aio_comp, r)] }
        else
          { s2 with
            sent_object_requests := s2.sent_object_requests ++ event.aio_object_requests }
      some
        { s3 with
          completed := s3.completed ++ event.on_safe_contexts.map (fun ctx => (ctx, r)) }

/-- A call into the journal: a public member function called by the image, a callback run by
the collaborator it was handed to, or an event of the replay (`handle_replay_complete` from
the replay handler, `handle_replay_process_safe` from `C_ReplayProcessSafe`). -/
inductive Call where
  | open (on_finish : Context)
  | close (on_finish : Context)
  | handle_initialized (r : Int)
  | handle_replay_complete (r : Int)
  | handle_replay_process_safe (replay_entry : Nat) (r : Int)
  | handle_flushing_restart (r : Int)
  | handle_flushing_replay (r : Int)
  | handle_recording_stopped (r : Int)
  | handle_journal_destroyed (r : Int)
deriving DecidableEq, Repr

/-- A one-shot callback runs only if it has been handed out and has not run yet; it is then
removed from `callbacks`. -/
def Journal.take_callback (s : Journal) (cb : Callback) : Option Journal :=
  if cb ∈ s.callbacks then some { s with callbacks := s.callbacks.erase cb } else none

/-- One call into the journal; `none` when the call cannot happen (its callback is not
outstanding) or trips an assertion. -/
def Journal.step (s : Journal) : Call → Option Journal
  | Call.open on_finish => s.open on_finish
  | Call.close on_finish => s.close on_finish
  | Call.handle_initialized r =>
    (s.take_callback Callback.handle_initialized).map (fun s1 => s1.handle_initialized r)
  | Call.handle_replay_complete r => some (s.handle_replay_complete r)
  | Call.handle_replay_process_safe replay_entry r =>
    some (s.handle_replay_process_safe replay_entry r)
  | Call.handle_flushing_restart r =>
    (s.take_callback Callback.handle_flushing_restart).bind
      (fun s1 => s1.handle_flushing_restart r)
  | Call.handle_flushing_replay r =>
    (s.take_callback Callback.handle_flushing_replay).bind
      (fun s1 => s1.handle_flushing_replay r)
  | Call.handle_recording_stopped r =>
    (s.take_callback Callback.handle_recording_stopped).bind
      (fun s1 => s1.handle_recording_stopped r)
  | Call.handle_journal_destroyed r =>
    (s.take_callback Callback.handle_journal_destroyed).bind
      (fun s1 => s1.handle_journal_destroyed r)

/-- A sequence of calls into the journal, in order. -/
def Journal.run : Journal → List Call → Option Journal
  | s, [] => some s
  | s, c :: rest => (s.step c).bind (fun s1 => Journal.run s1 rest)

/-- The callback handed to `Journaler::init` is outstanding exactly while the journal is in
state `Initializing` (an invariant of the reachable states). -/
def Journal.init_callback_consistent (s : Journal) : Prop :=
  s.callbacks.count Callback.handle_initialized =
    if s.m_state = State.STATE_INITIALIZING then 1 else 0

/-- The transitions of the state table of the specification (section 4.S). -/
def table_edge : State → State → Bool
  | State.STATE_UNINITIALIZED, State.STATE_INITIALIZING => true
  | State.STATE_INITIALIZING, State.STATE_REPLAYING => true
  | State.STATE_INITIALIZING, State.STATE_CLOSING => true
  | State.STATE_REPLAYING, State.STATE_FLUSHING_REPLAY => true
  | State.STATE_REPLAYING, State.STATE_FLUSHING_RESTART => true
  | State.STATE_FLUSHING_REPLAY, State.STATE_READY => true
  | State.STATE_FLUSHING_REPLAY, State.STATE_FLUSHING_RESTART => true
  | State.STATE_FLUSHING_RESTART, State.STATE_RESTARTING_REPLAY => true
  | State.STATE_RESTARTING_REPLAY, State.STATE_INITIALIZING => true
  | State.STATE_READY, State.STATE_STOPPING => true
  | State.STATE_STOPPING, State.STATE_CLOSING => true
  | State.STATE_CLOSING, State.STATE_CLOSED => true
  | _, _ => false

/-- The two transitions the code makes besides those of the table: the end of either replay
flush goes to `Closing` when a close is pending. -/
def close_pending_edge : State → State → Bool
  | State.STATE_FLUSHING_REPLAY, State.STATE_CLOSING => true
  | State.STATE_FLUSHING_RESTART, State.STATE_CLOSING => true
  | _, _ => false

end librbd

/-! ### The image-request work queue (`src/librbd/AioImageRequestWQ.cc`) -/

namespace librbd

/-- Value of the errno constant `ESHUTDOWN` (Linux). -/
def ESHUTDOWN : Int := 108

/-- Value of the errno constant `EBADMSG` (Linux). -/
def EBADMSG : Int := 74

/-- Value of the errno constant `EOPNOTSUPP` (Linux). -/
def EOPNOTSUPP : Int := 95

/-- The lock types `ClsLockType`. -/
inductive ClsLockType where
  | LOCK_NONE
  | LOCK_EXCLUSIVE
  | LOCK_SHARED
deriving DecidableEq, Repr

/-- What the reply buffer yields when `get_mutable_metadata_finish` decodes it: for each part
whether its `::decode` calls succeed (`false`: one of them throws `buffer::error`), and for
the lock info what `rados::cls::lock::get_lock_info_finish` does (it is defined in
cls/lock/cls_lock_client.cc, which is not among the sources): `none` when it throws, else
the result it returns and the lock type it leaves in `lock_type`. -/
structure MutableMetadataReply where
  get_size : Bool
  get_features : Bool
  get_snapcontext : Bool
  get_parent : Bool
  get_lock_info : Option (Int × ClsLockType)
deriving DecidableEq, Repr

/-- The function `librbd::cls_client::get_mutable_metadata_finish`: the result and the value
assigned to `*exclusive_lock` (`none` when it is not assigned). -/
def cls_client.get_mutable_metadata_finish (reply : MutableMetadataReply) :
    Int × Option Bool :=
  if !reply.get_size then (-EBADMSG, none)
  else if !reply.get_features then (-EBADMSG, none)
  else if !reply.get_snapcontext then (-EBADMSG, none)
  else if !reply.get_parent then (-EBADMSG, none)
  else
    match reply.get_lock_info with
    | none => (-EBADMSG, none)
    | some (r0, lock_type) =>
      let r := if r0 = -EOPNOTSUPP then 0 else r0
      (0, if r = 0 then some (decide (lock_type = ClsLockType.LOCK_EXCLUSIVE)) else none)

/-- The request classes built by the queue: `AioImageRead`, `AioImageWrite`,
`AioImageDiscard`, `AioImageFlush`. -/
inductive RequestKind where
  | read
  | write
  | discard
  | flush
deriving DecidableEq, Repr

/-- An `AioImageRequest<>`: its class and its `AioCompletion` (named by a number). -/
structure AioImageRequest where
  kind : RequestKind
  aio_comp : Nat
deriving DecidableEq, Repr

/-- What the queue reads from `m_image_ctx`: `non_blocking_aio`; whether `journal` is not
`NULL`; `exclusive_lock` (`none` for `NULL`, else whether this client owns the lock); whether
`state->is_refresh_required()`; and what `AioImageFlush::is_write_op()` answers
(librbd/AioImageRequest.h is not among the sources, so it is left open). -/
structure ImageCtx where
  non_blocking_aio : Bool
  journal : Bool
  exclusive_lock : Option Bool
  refresh_required : Bool
  flush_is_write_op : Bool
deriving DecidableEq, Repr

/-- A callback handed to `m_image_ctx.flush`: a caller's context, or a `C_BlockedWrites`,
which runs `handle_blocked_writes`. -/
inductive FlushCallback where
  | context (ctx : Context)
  | C_BlockedWrites
deriving DecidableEq, Repr

/-- State of an `AioImageRequestWQ` and of what it has done to its collaborators. The atomic
counters and `m_write_blockers` are natural numbers (their types are declared in headers that
are not among the sources). `items` is the queue of the base class `PointerWQ`; `flushes`
lists the callbacks handed to `m_image_ctx.flush`, `failed` the completions failed with their
error, `issued` the requests issued inline through `AioImageRequest<>::aio_...`, `sent` the
requests sent by `process`, `refreshes` the requests parked in a `C_RefreshFinish`,
`lock_requests` and `signals` count the calls of `request_lock` and `signal`, `completed`
logs the contexts completed. -/
structure AioImageRequestWQ where
  m_image_ctx : ImageCtx
  m_write_blockers : Nat
  m_in_progress_writes : Nat
  m_queued_writes : Nat
  m_in_flight_ops : Nat
  m_refresh_in_progress : Bool
  m_shutdown : Bool
  m_on_shutdown : Option Context
  m_write_blocker_contexts : List Context
  items : List AioImageRequest
  flushes : List FlushCallback
  failed : List (Nat × Int)
  issued : List AioImageRequest
  sent : List AioImageRequest
  refreshes : List AioImageRequest
  lock_requests : Nat
  signals : Nat
  completed : List (Context × Int)
deriving DecidableEq, Repr

/-- State built by the constructor `AioImageRequestWQ::AioImageRequestWQ`. -/
def AioImageRequestWQ.init (image_ctx : ImageCtx) : AioImageRequestWQ :=
  { m_image_ctx := image_ctx
    m_write_blockers := 0
    m_in_progress_writes := 0
    m_queued_writes := 0
    m_in_flight_ops := 0
    m_refresh_in_progress := false
    m_shutdown := false
    m_on_shutdown := none
    m_write_blocker_contexts := []
    items := []
    flushes := []
    failed := []
    issued := []
    sent := []
    refreshes := []
    lock_requests := 0
    signals := 0
    completed := [] }

/-- The virtual `AioImageRequest<>::is_write_op`: false for a read, true for a write and a
discard (the requests the specification calls write-class), and for a flush the answer
recorded in the image context. -/
def AioImageRequestWQ.is_write_op (s : AioImageRequestWQ) (req : AioImageRequest) : Bool :=
  match req.kind with
  | RequestKind.read => false
  | RequestKind.write => true
  | RequestKind.discard => true
  | RequestKind.flush => s.m_image_ctx.flush_is_write_op

/-- Modelled from the spec: `AioImageRequestWQ::writes_blocked`, defined in
librbd/AioImageRequestWQ.h, which is not among the sources; "writes are blocked" while the
write-block counter is positive. -/
def AioImageRequestWQ.writes_blocked (s : AioImageRequestWQ) : Bool :=
  decide (s.m_write_blockers > 0)

/-- Modelled from the spec: `AioImageRequestWQ::writes_empty`, defined in
librbd/AioImageRequestWQ.h, which is not among the sources; "no prior writes are queued" when
the count of queued writes is 0. -/
def AioImageRequestWQ.writes_empty (s : AioImageRequestWQ) : Bool :=
  decide (s.m_queued_writes = 0)

/-- Member function `AioImageRequestWQ::is_journal_required`. -/
def AioImageRequestWQ.is_journal_required (s : AioImageRequestWQ) : Bool :=
  s.m_image_ctx.journal

/-- Member function `AioImageRequestWQ::is_lock_required`. -/
def AioImageRequestWQ.is_lock_required (s : AioImageRequestWQ) : Bool :=
  match s.m_image_ctx.exclusive_lock with
  | none => false
  | some is_lock_owner => !is_lock_owner

/-- Member function `AioImageRequestWQ::start_in_flight_op`: the result and the new state. -/
def AioImageRequestWQ.start_in_flight_op (s : AioImageRequestWQ) (c : Nat) :
    Bool × AioImageRequestWQ :=
  if s.m_shutdown then (false, { s with failed := s.failed ++ [(c, -ESHUTDOWN)] })
  else (true, { s with m_in_flight_ops := s.m_in_flight_ops + 1 })

/-- Member function `AioImageRequestWQ::finish_in_flight_op`; `none` when the counter is
already 0 (the decrement would wrap it) or when `assert(m_on_shutdown != nullptr)` fails. -/
def AioImageRequestWQ.finish_in_flight_op (s : AioImageRequestWQ) :
    Option AioImageRequestWQ :=
  if s.m_in_flight_ops = 0 then none
  else
    let s1 := { s with m_in_flight_ops := s.m_in_flight_ops - 1 }
    if s1.m_in_flight_ops > 0 ∨ ¬ s1.m_shutdown then some s1
    else
      match s1.m_on_shutdown with
      | none => none
      | some on_shutdown =>
        some { s1 with flushes := s1.flushes ++ [FlushCallback.context on_shutdown] }

/-- Member function `AioImageRequestWQ::queue`. -/
def AioImageRequestWQ.queue (s : AioImageRequestWQ) (req : AioImageRequest) :
    AioImageRequestWQ :=
  let write_op := s.is_write_op req
  let s1 := if write_op then { s with m_queued_writes := s.m_queued_writes + 1 } else s
  let s2 := { s1 with items := s1.items ++ [req] }
  if write_op && s2.is_lock_required then { s2 with lock_requests := s2.lock_requests + 1 }
  else s2

/-- Inline issue of a request through the static `AioImageRequest<>::aio_read`,
`aio_write`, `aio_discard` or `aio_flush`. -/
def AioImageRequestWQ.issue_inline (s : AioImageRequestWQ) (req : AioImageRequest) :
    AioImageRequestWQ :=
  { s with issued := s.issued ++ [req] }

/-- Member function `AioImageRequestWQ::aio_read` (the extent and the buffers are left
out). -/
def AioImageRequestWQ.aio_read (s : AioImageRequestWQ) (c : Nat) :
    Option AioImageRequestWQ :=
  let r := s.start_in_flight_op c
  if !r.1 then some r.2
  else if r.2.m_image_ctx.non_blocking_aio || r.2.writes_blocked || !r.2.writes_empty then
    some (r.2.queue ⟨RequestKind.read, c⟩)
  else (r.2.issue_inline ⟨RequestKind.read, c⟩).finish_in_flight_op

/-- Member function `AioImageRequestWQ::aio_write` (the extent and the buffer are left
out). -/
def AioImageRequestWQ.aio_write (s : AioImageRequestWQ) (c : Nat) :
    Option AioImageRequestWQ :=
  let r := s.start_in_flight_op c
  if !r.1 then some r.2
  else if r.2.m_image_ctx.non_blocking_aio || r.2.is_journal_required ||
      r.2.writes_blocked then
    some (r.2.queue ⟨RequestKind.write, c⟩)
  else (r.2.issue_inline ⟨RequestKind.write, c⟩).finish_in_flight_op

/-- Member function `AioImageRequestWQ::aio_discard` (the extent is left out). -/
def AioImageRequestWQ.aio_discard (s : AioImageRequestWQ) (c : Nat) :
    Option AioImageRequestWQ :=
  let r := s.start_in_flight_op c
  if !r.1 then some r.2
  else if r.2.m_image_ctx.non_blocking_aio || r.2.is_journal_required ||
      r.2.writes_blocked then
    some (r.2.queue ⟨RequestKind.discard, c⟩)
  else (r.2.issue_inline ⟨RequestKind.discard, c⟩).finish_in_flight_op

/-- Member function `AioImageRequestWQ::aio_flush`. -/
def AioImageRequestWQ.aio_flush (s : AioImageRequestWQ) (c : Nat) :
    Option AioImageRequestWQ :=
  let r := s.start_in_flight_op c
  if !r.1 then some r.2
  else if r.2.m_image_ctx.non_blocking_aio || r.2.is_journal_required ||
      r.2.writes_blocked || !r.2.writes_empty then
    some (r.2.queue ⟨RequestKind.flush, c⟩)
  else (r.2.issue_inline ⟨RequestKind.flush, c⟩).finish_in_flight_op

/-- Member function `AioImageRequestWQ::shut_down`; `none` when `assert(!m_shutdown)`
fails. -/
def AioImageRequestWQ.shut_down (s : AioImageRequestWQ) (on_shutdown : Context) :
    Option AioImageRequestWQ :=
  if s.m_shutdown then none
  else
    let s1 := { s with m_shutdown := true }
    if s1.m_in_flight_ops > 0 then some { s1 with m_on_shutdown := some on_shutdown }
    else some { s1 with flushes := s1.flushes ++ [FlushCallback.context on_shutdown] }

/-- Member function `AioImageRequestWQ::block_writes(Context *on_blocked)`. -/
def AioImageRequestWQ.block_writes (s : AioImageRequestWQ) (on_blocked : Context) :
    AioImageRequestWQ :=
  let s1 := { s with m_write_blockers := s.m_write_blockers + 1 }
  if !s1.m_write_blocker_contexts.isEmpty || decide (s1.m_in_progress_writes > 0) then
    { s1 with m_write_blocker_contexts := s1.m_write_blocker_contexts ++ [on_blocked] }
  else { s1 with flushes := s1.flushes ++ [FlushCallback.context on_blocked] }

/-- Member function `AioImageRequestWQ::unblock_writes`; `none` when
`assert(m_write_blockers > 0)` fails. -/
def AioImageRequestWQ.unblock_writes (s : AioImageRequestWQ) : Option AioImageRequestWQ :=
  if s.m_write_blockers = 0 then none
  else
    let s1 := { s with m_write_blockers := s.m_write_blockers - 1 }
    if s1.m_write_blockers = 0 then some { s1 with signals := s1.signals + 1 } else some s1

/-- Member function `AioImageRequestWQ::_void_dequeue`: the item handed to the worker
(`none` for `NULL`) and the new state. -/
def AioImageRequestWQ._void_dequeue (s : AioImageRequestWQ) :
    Option AioImageRequest × AioImageRequestWQ :=
  match s.items with
  | [] => (none, s)
  | peek_item :: rest =>
    if s.m_refresh_in_progress then (none, s)
    else if s.is_write_op peek_item && decide (s.m_write_blockers > 0) then (none, s)
    else
      let s1 :=
        if s.is_write_op peek_item then
          { s with m_in_progress_writes := s.m_in_progress_writes + 1 }
        else s
      let s2 := { s1 with items := rest }
      if s2.m_image_ctx.refresh_required then
        (none, { s2 with m_refresh_in_progress := true, refreshes := s2.refreshes ++ [peek_item] })
      else (some peek_item, s2)

/-- Member function `AioImageRequestWQ::process`; `none` when an assertion fails (or
`finish_in_flight_op` does). -/
def AioImageRequestWQ.process (s : AioImageRequestWQ) (req : AioImageRequest) :
    Option AioImageRequestWQ :=
  let s1 := { s with sent := s.sent ++ [req] }
  if s1.is_write_op req then
    if s1.m_queued_writes = 0 then none
    else if s1.m_in_progress_writes = 0 then none
    else
      let s2 :=
        { s1 with
          m_queued_writes := s1.m_queued_writes - 1
          m_in_progress_writes := s1.m_in_progress_writes - 1 }
      if s2.m_in_progress_writes = 0 ∧ ¬ s2.m_write_blocker_contexts.isEmpty then
        AioImageRequestWQ.finish_in_flight_op
          { s2 with flushes := s2.flushes ++ [FlushCallback.C_BlockedWrites] }
      else s2.finish_in_flight_op
  else s1.finish_in_flight_op

/-- Member function `AioImageRequestWQ::handle_refreshed`; `process_finish` of the base class
is not modelled. -/
def AioImageRequestWQ.handle_refreshed (s : AioImageRequestWQ) (r : Int)
    (req : AioImageRequest) : Option AioImageRequestWQ :=
  if r < 0 then some { s with failed := s.failed ++ [(req.aio_comp, r)] }
  else
    (s.process req).map
      (fun s1 => { s1 with m_refresh_in_progress := false, signals := s1.signals + 1 })

/-- Member function `AioImageRequestWQ::handle_blocked_writes`. -/
def AioImageRequestWQ.handle_blocked_writes (s : AioImageRequestWQ) (_r : Int) :
    AioImageRequestWQ :=
  { s with
    m_write_blocker_contexts := []
    completed := s.completed ++ s.m_write_blocker_contexts.map (fun ctx => (ctx, (0 : Int))) }

/-- Number of `C_BlockedWrites` callbacks handed to `m_image_ctx.flush` so far. -/
def AioImageRequestWQ.blocked_writes_flushes (s : AioImageRequestWQ) : Nat :=
  s.flushes.count FlushCallback.C_BlockedWrites

/-- Between `s` and `s1` no context was completed, the list of blocker callbacks did not
change and no `C_BlockedWrites` was handed to the image flush. -/
def AioImageRequestWQ.same_blocked_writes (s s1 : AioImageRequestWQ) : Prop :=
  s1.completed = s.completed ∧
    s1.m_write_blocker_contexts = s.m_write_blocker_contexts ∧
    s1.blocked_writes_flushes = s.blocked_writes_flushes

/-- A call of the in-flight accounting: `start_in_flight_op(c)`, `finish_in_flight_op()` or
`shut_down(on_shutdown)`. -/
inductive InFlightCall where
  | start (c : Nat)
  | finish
  | shut_down (on_shutdown : Context)
deriving DecidableEq, Repr

/-- Whether a call is a `shut_down`. -/
def InFlightCall.is_shut_down : InFlightCall → Bool
  | InFlightCall.shut_down _ => true
  | _ => false

/-- Run a sequence of in-flight accounting calls; `none` when one of them fails. -/
def AioImageRequestWQ.run_in_flight :
    AioImageRequestWQ → List InFlightCall → Option AioImageRequestWQ
  | s, [] => some s
  | s, InFlightCall.start c :: rest =>
    AioImageRequestWQ.run_in_flight (s.start_in_flight_op c).2 rest
  | s, InFlightCall.finish :: rest =>
    s.finish_in_flight_op.bind (fun s1 => AioImageRequestWQ.run_in_flight s1 rest)
  | s, InFlightCall.shut_down on_shutdown :: rest =>
    (s.shut_down on_shutdown).bind (fun s1 => AioImageRequestWQ.run_in_flight s1 rest)

/-- Every `finish_in_flight_op` of the sequence matches an earlier successful
`start_in_flight_op`: `outstanding` counts the successful starts not finished yet. (When a
call fails the rest of the sequence is not looked at.) -/
def AioImageRequestWQ.finishes_matched :
    Nat → AioImageRequestWQ → List InFlightCall → Bool
  | _, _, [] => true
  | outstanding, s, InFlightCall.start c :: rest =>
    AioImageRequestWQ.finishes_matched
      (if (s.start_in_flight_op c).1 then outstanding + 1 else outstanding)
      (s.start_in_flight_op c).2 rest
  | outstanding, s, InFlightCall.finish :: rest =>
    decide (0 < outstanding) &&
      (match s.finish_in_flight_op with
        | some s1 => AioImageRequestWQ.finishes_matched (outstanding - 1) s1 rest
        | none => true)
  | outstanding, s, InFlightCall.shut_down on_shutdown :: rest =>
    match s.shut_down on_shutdown with
    | some s1 => AioImageRequestWQ.finishes_matched outstanding s1 rest
    | none => true

/-- The work queue together with the requests that have left the queue and are not finished:
`dequeued` are the requests `_void_dequeue` handed to a worker thread that have not been
passed to `process` yet, `parked` the requests held by a `C_RefreshFinish` whose refresh has
not completed yet. -/
structure WorkerPool where
  wq : AioImageRequestWQ
  dequeued : List AioImageRequest
  parked : List AioImageRequest
deriving DecidableEq, Repr

/-- A new work queue: nothing is with a worker or parked. -/
def WorkerPool.init (image_ctx : ImageCtx) : WorkerPool :=
  { wq := AioImageRequestWQ.init image_ctx, dequeued := [], parked := [] }

/-- What can happen to the work queue: a call of its public interface, the completion of a
`C_BlockedWrites` flush, a change of `state->is_refresh_required()`, a worker thread
dequeuing, a worker thread processing a request it has dequeued, and the completion of the
refresh a request is parked in. -/
inductive WorkerCall where
  | aio_read (c : Nat)
  | aio_write (c : Nat)
  | aio_discard (c : Nat)
  | aio_flush (c : Nat)
  | shut_down (on_shutdown : Context)
  | block_writes (on_blocked : Context)
  | unblock_writes
  | handle_blocked_writes (r : Int)
  | set_refresh_required (required : Bool)
  | dequeue
  | process (req : AioImageRequest)
  | handle_refreshed (r : Int) (req : AioImageRequest)
deriving DecidableEq, Repr

/-- One step of the work queue; `none` when an assertion fails, or when the step cannot
happen (`process` of a request no worker holds, `handle_refreshed` of a request that is not
parked). -/
def WorkerPool.step (st : WorkerPool) : WorkerCall → Option WorkerPool
  | WorkerCall.aio_read c => (st.wq.aio_read c).map (fun wq => { st with wq := wq })
  | WorkerCall.aio_write c => (st.wq.aio_write c).map (fun wq => { st with wq := wq })
  | WorkerCall.aio_discard c => (st.wq.aio_discard c).map (fun wq => { st with wq := wq })
  | WorkerCall.aio_flush c => (st.wq.aio_flush c).map (fun wq => { st with wq := wq })
  | WorkerCall.shut_down on_shutdown =>
    (st.wq.shut_down on_shutdown).map (fun wq => { st with wq := wq })
  | WorkerCall.block_writes on_blocked => some { st with wq := st.wq.block_writes on_blocked }
  | WorkerCall.unblock_writes => st.wq.unblock_writes.map (fun wq => { st with wq := wq })
  | WorkerCall.handle_blocked_writes r => some { st with wq := st.wq.handle_blocked_writes r }
  | WorkerCall.set_refresh_required required =>
    some
      { st with
        wq :=
          { st.wq with m_image_ctx := { st.wq.m_image_ctx with refresh_required := required } } }
  | WorkerCall.dequeue =>
    match st.wq._void_dequeue with
    | (some item, wq) => some { st with wq := wq, dequeued := st.dequeued ++ [item] }
    | (none, wq) =>
      some
        { st with
          wq := wq, parked := st.parked ++ wq.refreshes.drop st.wq.refreshes.length }
  | WorkerCall.process req =>
    if req ∈ st.dequeued then
      (st.wq.process req).map (fun wq => { st with wq := wq, dequeued := st.dequeued.erase req })
    else none
  | WorkerCall.handle_refreshed r req =>
    if req ∈ st.parked then
      (st.wq.handle_refreshed r req).map
        (fun wq => { st with wq := wq, parked := st.parked.erase req })
    else none

/-- A sequence of steps of the work queue, in order. -/
def WorkerPool.run : WorkerPool → List WorkerCall → Option WorkerPool
  | st, [] => some st
  | st, c :: rest => (st.step c).bind (fun st1 => WorkerPool.run st1 rest)

/-- The accounting invariant of the work queue: every write-class request with a worker or
parked is counted in `m_in_progress_writes`; every write-class request in the queue or in
progress is counted in `m_queued_writes`; every request in the queue, with a worker or parked
holds an in-flight count; and a shut-down queue with requests in flight has its shutdown
callback. -/
def WorkerPool.consistent (st : WorkerPool) : Prop :=
  st.dequeued.countP st.wq.is_write_op + st.parked.countP st.wq.is_write_op ≤
      st.wq.m_in_progress_writes ∧
    st.wq.items.countP st.wq.is_write_op + st.wq.m_in_progress_writes ≤
      st.wq.m_queued_writes ∧
    st.wq.items.length + st.dequeued.length + st.parked.length ≤ st.wq.m_in_flight_ops ∧
    (st.wq.m_shutdown = true → 0 < st.wq.m_in_flight_ops → st.wq.m_on_shutdown.isSome = true)

/-- Between `s` and `s1` the queue, the write counters, the shutdown state and the answer of
`is_write_op` did not change. -/
def AioImageRequestWQ.same_counts (s s1 : AioImageRequestWQ) : Prop :=
  s1.is_write_op = s.is_write_op ∧ s1.items = s.items ∧
    s1.m_in_progress_writes = s.m_in_progress_writes ∧
    s1.m_queued_writes = s.m_queued_writes ∧
    s1.m_shutdown = s.m_shutdown ∧ s1.m_on_shutdown = s.m_on_shutdown

/-- The worker pool together with the bookkeeping of the blocker callbacks: `handled` counts
the `C_BlockedWrites` callbacks the image flush has run (each runs
`handle_blocked_writes`); `queued` lists the callbacks `block_writes` appended to the blocker
list, in order; `drained` counts the executions of `process` in which a write-class request
brought the in-progress-writes count to 0 while blocker callbacks were queued. -/
structure BlockerPool where
  pool : WorkerPool
  handled : Nat
  queued : List Context
  drained : Nat
deriving DecidableEq, Repr

/-- A new work queue: no `C_BlockedWrites` has run, nothing was queued or drained. -/
def BlockerPool.init (image_ctx : ImageCtx) : BlockerPool :=
  { pool := WorkerPool.init image_ctx, handled := 0, queued := [], drained := 0 }

/-- Whether a step runs `process` on a write-class request that brings the
in-progress-writes count to 0 while blocker callbacks are queued; `wq` is the queue before
the step and `wq1` the queue after it. -/
def WorkerCall.drains (wq wq1 : AioImageRequestWQ) : WorkerCall → Bool
  | WorkerCall.process req =>
    wq.is_write_op req && decide (wq1.m_in_progress_writes = 0) &&
      !wq.m_write_blocker_contexts.isEmpty
  | WorkerCall.handle_refreshed r req =>
    decide (0 ≤ r) && wq.is_write_op req && decide (wq1.m_in_progress_writes = 0) &&
      !wq.m_write_blocker_contexts.isEmpty
  | _ => false

/-- One step of the work queue in which `handle_blocked_writes` runs only as the completion
of a `C_BlockedWrites` that was handed to the image flush and has not run yet; every other
step is the one of `WorkerPool.step`. `none` when the step cannot happen or an assertion
fails. -/
def BlockerPool.step (st : BlockerPool) (call : WorkerCall) : Option BlockerPool :=
  match call with
  | WorkerCall.handle_blocked_writes r =>
    if st.handled < st.pool.wq.blocked_writes_flushes then
      some
        { st with
          pool := { st.pool with wq := st.pool.wq.handle_blocked_writes r },
          handled := st.handled + 1 }
    else none
  | _ =>
    (st.pool.step call).map
      (fun pool1 =>
        { pool := pool1,
          handled := st.handled,
          queued :=
            st.queued ++
              pool1.wq.m_write_blocker_contexts.drop st.pool.wq.m_write_blocker_contexts.length,
          drained := st.drained + (if call.drains st.pool.wq pool1.wq then 1 else 0) })

/-- A sequence of such steps, in order. -/
def BlockerPool.run : BlockerPool → List WorkerCall → Option BlockerPool
  | st, [] => some st
  | st, call :: rest => (st.step call).bind (fun st1 => BlockerPool.run st1 rest)

/-- The callers keep writes blocked until their callbacks have run: no `unblock_writes` of
the sequence brings `m_write_blockers` to 0 while a blocker callback is queued or a
`C_BlockedWrites` has not run yet. (When a step fails the rest of the sequence is not looked
at.) -/
def BlockerPool.unblocks_after_drain : BlockerPool → List WorkerCall → Bool
  | _, [] => true
  | st, call :: rest =>
    (match call with
      | WorkerCall.unblock_writes =>
        decide (1 < st.pool.wq.m_write_blockers ∨
          (st.pool.wq.m_write_blocker_contexts = [] ∧
            st.handled = st.pool.wq.blocked_writes_flushes))
      | _ => true) &&
      (match st.step call with
        | some st1 => BlockerPool.unblocks_after_drain st1 rest
        | none => true)

/-- The bookkeeping invariant of the blocker callbacks: the callbacks completed, followed by
the ones still queued, are the callbacks `block_writes` queued, each with result 0; every
`C_BlockedWrites` handed to the image flush comes from one draining `process`; and no more
`C_BlockedWrites` have run than were handed out. -/
def BlockerPool.consistent (st : BlockerPool) : Prop :=
  st.pool.wq.completed ++ st.pool.wq.m_write_blocker_contexts.map (fun ctx => (ctx, (0 : Int))) =
      st.queued.map (fun ctx => (ctx, (0 : Int))) ∧
    st.pool.wq.blocked_writes_flushes = st.drained ∧
    st.handled ≤ st.drained ∧
    (st.handled = 0 → st.pool.wq.completed = [])

/-- While a blocker callback is queued or a `C_BlockedWrites` has not run yet, writes are
blocked; and while a `C_BlockedWrites` has not run yet, no write is in progress. -/
def BlockerPool.drained_while_blocked (st : BlockerPool) : Prop :=
  ((st.pool.wq.m_write_blocker_contexts ≠ [] ∨
      st.handled < st.pool.wq.blocked_writes_flushes) → 0 < st.pool.wq.m_write_blockers) ∧
    (st.handled < st.pool.wq.blocked_writes_flushes → st.pool.wq.m_in_progress_writes = 0)

/-- Between `s` and `s1` nothing changed for the blocker callbacks: no context was completed,
the blocker list and the `C_BlockedWrites` handed out are the same, and so are
`m_write_blockers` and the in-progress-writes count. -/
def AioImageRequestWQ.same_blockers (s s1 : AioImageRequestWQ) : Prop :=
  s.same_blocked_writes s1 ∧ s1.m_write_blockers = s.m_write_blockers ∧
    s1.m_in_progress_writes = s.m_in_progress_writes

end librbd

/-! ## The object-set window -/

namespace journal

/-- C7 (as stated, refuted): from the constructed state, where `minimum_set ≤ active_set`
holds, `set_minimum_set 1` leaves `minimum_set = 1 > 0 = active_set`. -/
theorem minimum_le_active_counterexample :
    (JournalMetadata.init "c").m_minimum_set ≤ (JournalMetadata.init "c").m_active_set ∧
      ¬ ((set_minimum_set (JournalMetadata.init "c") 1).m_minimum_set ≤
          (set_minimum_set (JournalMetadata.init "c") 1).m_active_set) := by
  decide

/-- C7 (amended): `minimum_set ≤ active_set` holds in the constructed state, is preserved by
every `set_active_set n`, and is preserved by `set_minimum_set n` when `n ≤ active_set`. -/
theorem minimum_le_active_preserved (client_id : String) (s : JournalMetadata) (n : Nat)
    (h : s.m_minimum_set ≤ s.m_active_set) :
    (JournalMetadata.init client_id).m_minimum_set ≤
        (JournalMetadata.init client_id).m_active_set ∧
      (set_active_set s n).m_minimum_set ≤ (set_active_set s n).m_active_set ∧
      (n ≤ s.m_active_set →
        (set_minimum_set s n).m_minimum_set ≤ (set_minimum_set s n).m_active_set) := by
  refine ⟨Nat.le_refl _, ?_, ?_⟩
  · unfold set_active_set
    split
    · exact h
    · simp only; omega
  · intro hn
    unfold set_minimum_set
    split
    · exact h
    · simpa using hn

/-- Witness of `minimum_le_active_preserved`: from the state with `active_set = 5` and
`minimum_set = 0`, `set_minimum_set 3` advances `minimum_set` to 3 (3 ≤ 5), and from there
`set_active_set 7` advances `active_set` to 7; the invariant holds after each call. -/
theorem minimum_le_active_preserved_witness :
    (set_active_set (JournalMetadata.init "c") 5).m_minimum_set = 0 ∧
    (set_active_set (JournalMetadata.init "c") 5).m_active_set = 5 ∧
    (set_minimum_set (set_active_set (JournalMetadata.init "c") 5) 3).m_minimum_set = 3 ∧
    (set_minimum_set (set_active_set (JournalMetadata.init "c") 5) 3).m_minimum_set ≤
      (set_minimum_set (set_active_set (JournalMetadata.init "c") 5) 3).m_active_set ∧
    (set_active_set (set_minimum_set (set_active_set (JournalMetadata.init "c") 5) 3)
      7).m_active_set = 7 ∧
    (set_active_set (set_minimum_set (set_active_set (JournalMetadata.init "c") 5) 3)
        7).m_minimum_set ≤
      (set_active_set (set_minimum_set (set_active_set (JournalMetadata.init "c") 5) 3)
        7).m_active_set :=
  ⟨by decide, by decide, by decide,
    (minimum_le_active_preserved "c" (set_active_set (JournalMetadata.init "c") 5) 3
      (by decide)).2.2 (by decide),
    by decide,
    (minimum_le_active_preserved "c"
      (set_minimum_set (set_active_set (JournalMetadata.init "c") 5) 3) 7 (by decide)).2.1⟩

/-- C10: `set_active_set n` leaves `active_set = max old n` and `minimum_set` untouched; with
`n ≤ old` the whole state (submitted writes and notifications included) is unchanged, and
otherwise exactly one `set_active_set` header write is submitted. Symmetrically for
`set_minimum_set`. -/
theorem set_sets_monotonic (s : JournalMetadata) (n : Nat) :
    ((set_active_set s n).m_active_set = max s.m_active_set n ∧
      (set_active_set s n).m_minimum_set = s.m_minimum_set ∧
      (n ≤ s.m_active_set → set_active_set s n = s) ∧
      (s.m_active_set < n →
        (set_active_set s n).aio_writes =
          s.aio_writes ++ [⟨WriteOp.set_active_set n, none⟩])) ∧
    ((set_minimum_set s n).m_minimum_set = max s.m_minimum_set n ∧
      (set_minimum_set s n).m_active_set = s.m_active_set ∧
      (n ≤ s.m_minimum_set → set_minimum_set s n = s) ∧
      (s.m_minimum_set < n →
        (set_minimum_set s n).aio_writes =
          s.aio_writes ++ [⟨WriteOp.set_minimum_set n, none⟩])) := by
  refine ⟨⟨?_, ?_, ?_, ?_⟩, ?_, ?_, ?_, ?_⟩
  · unfold set_active_set
    split
    · rename_i h; exact (Nat.max_eq_left h).symm
    · rename_i h; exact (Nat.max_eq_right (Nat.le_of_lt (Nat.lt_of_not_ge h))).symm
  · unfold set_active_set
    split <;> rfl
  · intro h
    unfold set_active_set
    rw [if_pos h]
  · intro h
    unfold set_active_set
    rw [if_neg (by omega)]
  · unfold set_minimum_set
    split
    · rename_i h; exact (Nat.max_eq_left h).symm
    · rename_i h; exact (Nat.max_eq_right (Nat.le_of_lt (Nat.lt_of_not_ge h))).symm
  · unfold set_minimum_set
    split <;> rfl
  · intro h
    unfold set_minimum_set
    rw [if_pos h]
  · intro h
    unfold set_minimum_set
    rw [if_neg (by omega)]

/-- Witness of `set_sets_monotonic`: in the constructed state `set_active_set 0` is a no-op
and `set_active_set 3` submits one write. -/
theorem set_sets_monotonic_witness :
    set_active_set (JournalMetadata.init "c") 0 = JournalMetadata.init "c" ∧
      (set_active_set (JournalMetadata.init "c") 3).aio_writes =
        [⟨WriteOp.set_active_set 3, none⟩] ∧
      set_minimum_set (JournalMetadata.init "c") 0 = JournalMetadata.init "c" ∧
      (set_minimum_set (JournalMetadata.init "c") 3).aio_writes =
        [⟨WriteOp.set_minimum_set 3, none⟩] :=
  ⟨(set_sets_monotonic (JournalMetadata.init "c") 0).1.2.2.1 (by decide),
    (set_sets_monotonic (JournalMetadata.init "c") 3).1.2.2.2 (by decide),
    (set_sets_monotonic (JournalMetadata.init "c") 0).2.2.2.1 (by decide),
    (set_sets_monotonic (JournalMetadata.init "c") 3).2.2.2.2 (by decide)⟩

/-! ## The commit position -/

/-- C3: when `p` is at most the client's position or the locally stored one,
`set_commit_position p on_safe` completes `on_safe` once with `-ESTALE` and changes nothing
else: the stored commit position, the client record, the pending callback, the commit-task
slot, the timer schedule and the submitted writes are those of the state before. -/
theorem set_commit_position_stale (s : JournalMetadata) (p : ObjectSetPosition)
    (on_safe : Context)
    (h : p.le s.m_client.commit_position = true ∨ p.le s.m_commit_position = true) :
    (set_commit_position s p on_safe).completed = s.completed ++ [(on_safe, -ESTALE)] ∧
      (set_commit_position s p on_safe).m_commit_position = s.m_commit_position ∧
      (set_commit_position s p on_safe).m_client = s.m_client ∧
      (set_commit_position s p on_safe).m_commit_position_ctx = s.m_commit_position_ctx ∧
      (set_commit_position s p on_safe).m_commit_position_task_ctx =
        s.m_commit_position_task_ctx ∧
      (set_commit_position s p on_safe).timer_events = s.timer_events ∧
      (set_commit_position s p on_safe).aio_writes = s.aio_writes ∧
      set_commit_position s p on_safe =
        { s with completed := s.completed ++ [(on_safe, -ESTALE)] } := by
  have hc : (p.le s.m_client.commit_position || p.le s.m_commit_position) = true := by
    rcases h with h | h <;> simp [h]
  unfold set_commit_position
  rw [if_pos hc]
  simp [complete]

/-- Witness of `set_commit_position_stale`: the position `{5, [(A,3)]}` is stored, then
offered again. -/
theorem set_commit_position_stale_witness :
    (set_commit_position
        (set_commit_position (JournalMetadata.init "c") ⟨5, [⟨"A", 3⟩]⟩ 1)
        ⟨5, [⟨"A", 3⟩]⟩ 2).completed = [(2, -ESTALE)] :=
  (set_commit_position_stale
    (set_commit_position (JournalMetadata.init "c") ⟨5, [⟨"A", 3⟩]⟩ 1)
    ⟨5, [⟨"A", 3⟩]⟩ 2 (Or.inl (by decide))).1

/-- C4: when `cb0` is the pending callback and `p` is accepted (not at most either stored
position), `set_commit_position p cb1` completes exactly `cb0`, once, with `-ESTALE`, stores
`cb1` as the pending callback and (for `cb1` another callback than `cb0`) does not complete
`cb1`. -/
theorem set_commit_position_supersedes (s : JournalMetadata) (p : ObjectSetPosition)
    (cb0 cb1 : Context) (hpending : s.m_commit_position_ctx = some cb0)
    (haccept : (p.le s.m_client.commit_position || p.le s.m_commit_position) = false) :
    (set_commit_position s p cb1).completed = s.completed ++ [(cb0, -ESTALE)] ∧
      (set_commit_position s p cb1).m_commit_position_ctx = some cb1 ∧
      (set_commit_position s p cb1).m_commit_position = p ∧
      (cb1 ≠ cb0 →
        (set_commit_position s p cb1).completed.filter (fun c => decide (c.1 = cb1)) =
          s.completed.filter (fun c => decide (c.1 = cb1))) := by
  have hs : set_commit_position s p cb1 =
      complete (schedule_commit_task
        { s with
          m_client := { s.m_client with commit_position := p }
          m_commit_position := p
          m_commit_position_ctx := some cb1 }) cb0 (-ESTALE) := by
    unfold set_commit_position
    rw [haccept, hpending]
    simp
  rw [hs]
  refine ⟨?_, ?_, ?_, ?_⟩
  · unfold complete schedule_commit_task add_event_after
    cases s.m_commit_position_task_ctx <;> rfl
  · unfold complete schedule_commit_task add_event_after
    cases s.m_commit_position_task_ctx <;> rfl
  · unfold complete schedule_commit_task add_event_after
    cases s.m_commit_position_task_ctx <;> rfl
  · intro hne
    have hc : (complete (schedule_commit_task
        { s with
          m_client := { s.m_client with commit_position := p }
          m_commit_position := p
          m_commit_position_ctx := some cb1 }) cb0 (-ESTALE)).completed =
        s.completed ++ [(cb0, -ESTALE)] := by
      unfold complete schedule_commit_task add_event_after
      cases s.m_commit_position_task_ctx <;> rfl
    rw [hc, List.filter_append]
    have : ¬ cb0 = cb1 := fun h => hne h.symm
    simp [this]

/-- Witness of `set_commit_position_supersedes`: `{1, []}` is stored with callback 1 and then
superseded by `{2, []}` with callback 2. -/
theorem set_commit_position_supersedes_witness :
    (set_commit_position
        (set_commit_position (JournalMetadata.init "c") ⟨1, []⟩ 1) ⟨2, []⟩ 2).completed =
      [(1, -ESTALE)] ∧
    (set_commit_position
        (set_commit_position (JournalMetadata.init "c") ⟨1, []⟩ 1)
        ⟨2, []⟩ 2).m_commit_position_ctx = some 2 :=
  ⟨(set_commit_position_supersedes
      (set_commit_position (JournalMetadata.init "c") ⟨1, []⟩ 1) ⟨2, []⟩ 1 2
      (by decide) (by decide)).1,
    (set_commit_position_supersedes
      (set_commit_position (JournalMetadata.init "c") ⟨1, []⟩ 1) ⟨2, []⟩ 1 2
      (by decide) (by decide)).2.1⟩

/-- C5 (as stated, refuted): with `{5, [(A,3),(B,7)]}` stored, `set_commit_position` accepts
`p = {5, [(A,4),(B,6)]}` (it is not at most the stored position), and the old position is not
at most the new one, for the locally stored position and for the client record alike. -/
theorem commit_position_monotone_counterexample :
    (set_commit_position (JournalMetadata.init "c")
        ⟨5, [⟨"A", 3⟩, ⟨"B", 7⟩]⟩ 1).m_commit_position = ⟨5, [⟨"A", 3⟩, ⟨"B", 7⟩]⟩ ∧
      (set_commit_position
        (set_commit_position (JournalMetadata.init "c") ⟨5, [⟨"A", 3⟩, ⟨"B", 7⟩]⟩ 1)
        ⟨5, [⟨"A", 4⟩, ⟨"B", 6⟩]⟩ 2).m_commit_position = ⟨5, [⟨"A", 4⟩, ⟨"B", 6⟩]⟩ ∧
      ObjectSetPosition.le
        (set_commit_position (JournalMetadata.init "c")
          ⟨5, [⟨"A", 3⟩, ⟨"B", 7⟩]⟩ 1).m_commit_position
        (set_commit_position
          (set_commit_position (JournalMetadata.init "c") ⟨5, [⟨"A", 3⟩, ⟨"B", 7⟩]⟩ 1)
          ⟨5, [⟨"A", 4⟩, ⟨"B", 6⟩]⟩ 2).m_commit_position = false ∧
      ObjectSetPosition.le
        (set_commit_position (JournalMetadata.init "c")
          ⟨5, [⟨"A", 3⟩, ⟨"B", 7⟩]⟩ 1).m_client.commit_position
        (set_commit_position
          (set_commit_position (JournalMetadata.init "c") ⟨5, [⟨"A", 3⟩, ⟨"B", 7⟩]⟩ 1)
          ⟨5, [⟨"A", 4⟩, ⟨"B", 6⟩]⟩ 2).m_client.commit_position = false := by
  decide

/-- C5 (amended): `set_commit_position p cb` leaves both stored positions (the local one and
the client record's) unchanged, or sets both to `p`, in which case `p` is not at most either
old position; in both cases the object number of each stored position does not decrease. -/
theorem commit_position_never_regresses (s : JournalMetadata) (p : ObjectSetPosition)
    (cb : Context) :
    (((set_commit_position s p cb).m_commit_position = s.m_commit_position ∧
        (set_commit_position s p cb).m_client.commit_position =
          s.m_client.commit_position) ∨
      ((set_commit_position s p cb).m_commit_position = p ∧
        (set_commit_position s p cb).m_client.commit_position = p ∧
        p.le s.m_commit_position = false ∧
        p.le s.m_client.commit_position = false)) ∧
    s.m_commit_position.object_number ≤
      (set_commit_position s p cb).m_commit_position.object_number ∧
    s.m_client.commit_position.object_number ≤
      (set_commit_position s p cb).m_client.commit_position.object_number := by
  by_cases hc : (p.le s.m_client.commit_position || p.le s.m_commit_position) = true
  · have hs : set_commit_position s p cb = complete s cb (-ESTALE) := by
      unfold set_commit_position
      rw [if_pos hc]
    rw [hs]
    exact ⟨Or.inl ⟨rfl, rfl⟩, Nat.le_refl _, Nat.le_refl _⟩
  · have hc1 : (p.le s.m_client.commit_position || p.le s.m_commit_position) = false := by
      simpa using hc
    have h1 : p.le s.m_client.commit_position = false := by
      cases h : p.le s.m_client.commit_position
      · rfl
      · rw [h] at hc1; simp at hc1
    have h2 : p.le s.m_commit_position = false := by
      cases h : p.le s.m_commit_position
      · rfl
      · rw [h] at hc1; simp at hc1
    have hpos : (set_commit_position s p cb).m_commit_position = p ∧
        (set_commit_position s p cb).m_client.commit_position = p := by
      unfold set_commit_position
      rw [if_neg hc]
      unfold complete schedule_commit_task add_event_after
      cases s.m_commit_position_ctx <;> cases s.m_commit_position_task_ctx <;>
        exact ⟨rfl, rfl⟩
    have n1 : ¬ p.object_number < s.m_client.commit_position.object_number := by
      intro hlt
      have : p.le s.m_client.commit_position = true := by
        unfold ObjectSetPosition.le
        simp [hlt]
      rw [h1] at this
      exact Bool.noConfusion this
    have n2 : ¬ p.object_number < s.m_commit_position.object_number := by
      intro hlt
      have : p.le s.m_commit_position = true := by
        unfold ObjectSetPosition.le
        simp [hlt]
      rw [h2] at this
      exact Bool.noConfusion this
    refine ⟨Or.inr ⟨hpos.1, hpos.2, h2, h1⟩, ?_, ?_⟩
    · rw [hpos.1]; omega
    · rw [hpos.2]; omega

/-- C6 (the code at the failing input): `{1, []}` is accepted and its timer event (event 0)
is scheduled; the event fires and submits the write; then `{2, []}` is accepted with
callback 2, yet on return no timer event is scheduled: the task slot still names the fired
event, `schedule_commit_task` adds nothing, and position `{2, []}` and callback 2 stay
behind with no write submitted for them. -/
theorem commit_task_not_rescheduled_after_fire :
    (set_commit_position (JournalMetadata.init "c") ⟨1, []⟩ 1).timer_events = [0] ∧
    ∃ fired,
      timer_fire (set_commit_position (JournalMetadata.init "c") ⟨1, []⟩ 1) 0 = some fired ∧
      fired.m_commit_position_task_ctx = some 0 ∧
      fired.timer_events = [] ∧
      (ObjectSetPosition.le ⟨2, []⟩ fired.m_client.commit_position ||
        ObjectSetPosition.le ⟨2, []⟩ fired.m_commit_position) = false ∧
      (set_commit_position fired ⟨2, []⟩ 2).m_commit_position = ⟨2, []⟩ ∧
      (set_commit_position fired ⟨2, []⟩ 2).m_commit_position_ctx = some 2 ∧
      (set_commit_position fired ⟨2, []⟩ 2).timer_events = [] ∧
      (set_commit_position fired ⟨2, []⟩ 2).aio_writes =
        [⟨WriteOp.client_commit "c" ⟨1, []⟩, some 1⟩] ∧
      (set_commit_position fired ⟨2, []⟩ 2).completed = [] := by
  refine ⟨by decide, _, rfl, ?_⟩
  decide


/-! ## Tid counters -/

/-- Reading `m_allocated_tids` after an assignment through `m_allocated_tids[k]`. -/
theorem allocated_tids_find_set (m : List (String × Nat)) (k k' : String) (v : Nat) :
    allocated_tids_find (allocated_tids_set m k v) k' =
      if k = k' then some v else allocated_tids_find m k' := by
  induction m with
  | nil =>
    simp only [allocated_tids_set, allocated_tids_find]
  | cons hd tl ih =>
    obtain ⟨a, x⟩ := hd
    simp only [allocated_tids_set]
    by_cases h : a = k
    · subst h
      simp only [if_true, allocated_tids_find]
      by_cases h2 : a = k'
      · simp [h2]
      · simp [h2]
    · simp only [if_neg h, allocated_tids_find, ih]
      by_cases h2 : a = k'
      · subst h2
        simp [h, Ne.symm h]
      · simp [h2]

theorem counter_allocate_tid (s : JournalMetadata) (tag t : String) :
    (allocated_tids_find (allocate_tid s tag).2.m_allocated_tids t).getD 0 =
      if tag = t then ((allocated_tids_find s.m_allocated_tids tag).getD 0 + 1) % UINT64_MOD
      else (allocated_tids_find s.m_allocated_tids t).getD 0 := by
  simp only [allocate_tid, allocated_tids_find_set]
  by_cases h : tag = t <;> simp [h]

theorem counter_reserve_tid (s : JournalMetadata) (tag t : String) (tid : Nat) :
    (allocated_tids_find (reserve_tid s tag tid).m_allocated_tids t).getD 0 =
      if tag = t then
        (if (allocated_tids_find s.m_allocated_tids tag).getD 0 ≤ tid then
          (tid + 1) % UINT64_MOD
        else (allocated_tids_find s.m_allocated_tids tag).getD 0)
      else (allocated_tids_find s.m_allocated_tids t).getD 0 := by
  simp only [reserve_tid, allocated_tids_find_set]
  by_cases h : tag = t <;> simp [h]

/-- Without wrap-around, every value returned by `allocate_tid` during a run is at least the
counter its tag had when the run started. -/
theorem run_tid_calls_lower_bound (calls : List TidCall) :
    ∀ s : JournalMetadata, tid_calls_no_wrap s calls = true →
      ∀ b ∈ (run_tid_calls s calls).1, b.allocated = true →
        (allocated_tids_find s.m_allocated_tids b.tag).getD 0 ≤ b.value := by
  induction calls with
  | nil => intro s _ b hb; simp [run_tid_calls] at hb
  | cons c rest ih =>
    intro s hw b hb hal
    cases c with
    | allocate tag =>
      simp only [tid_calls_no_wrap, Bool.and_eq_true, decide_eq_true_eq] at hw
      simp only [run_tid_calls, List.mem_cons] at hb
      rcases hb with hb | hb
      · subst hb
        simp [allocate_tid]
      · have h1 := ih _ hw.2 b hb hal
        rw [counter_allocate_tid] at h1
        by_cases ht : tag = b.tag
        · rw [if_pos ht, Nat.mod_eq_of_lt hw.1, ht] at h1
          omega
        · rw [if_neg ht] at h1
          exact h1
    | reserve tag tid =>
      simp only [tid_calls_no_wrap, Bool.and_eq_true, decide_eq_true_eq] at hw
      simp only [run_tid_calls, List.mem_cons] at hb
      rcases hb with hb | hb
      · subst hb
        simp at hal
      · have h1 := ih _ hw.2 b hb hal
        rw [counter_reserve_tid] at h1
        by_cases ht : tag = b.tag
        · rw [if_pos ht, Nat.mod_eq_of_lt hw.1, ht] at h1
          split at h1 <;> omega
        · rw [if_neg ht] at h1
          exact h1

theorem run_tid_calls_increasing (calls : List TidCall) :
    ∀ s : JournalMetadata, tid_calls_no_wrap s calls = true →
      (run_tid_calls s calls).1.Pairwise
        (fun a b => b.allocated = true → a.tag = b.tag → a.value < b.value) := by
  induction calls with
  | nil => intro s _; simp [run_tid_calls]
  | cons c rest ih =>
    intro s hw
    cases c with
    | allocate tag =>
      simp only [tid_calls_no_wrap, Bool.and_eq_true, decide_eq_true_eq] at hw
      simp only [run_tid_calls, List.pairwise_cons]
      refine ⟨?_, ih _ hw.2⟩
      intro b hb hal htag
      have h1 := run_tid_calls_lower_bound rest _ hw.2 b hb hal
      rw [counter_allocate_tid] at h1
      rw [if_pos htag, Nat.mod_eq_of_lt hw.1] at h1
      simp only [allocate_tid]
      omega
    | reserve tag tid =>
      simp only [tid_calls_no_wrap, Bool.and_eq_true, decide_eq_true_eq] at hw
      simp only [run_tid_calls, List.pairwise_cons]
      refine ⟨?_, ih _ hw.2⟩
      intro b hb hal htag
      have h1 := run_tid_calls_lower_bound rest _ hw.2 b hb hal
      rw [counter_reserve_tid] at h1
      rw [if_pos htag, Nat.mod_eq_of_lt hw.1] at h1
      split at h1 <;> omega

/-- The events of one tag depend only on that tag's counter and on the calls made on it. -/
theorem run_tid_calls_filter (tag : String) (calls : List TidCall) :
    ∀ s s1 : JournalMetadata,
      allocated_tids_find s.m_allocated_tids tag =
        allocated_tids_find s1.m_allocated_tids tag →
      (run_tid_calls s calls).1.filter (fun e => decide (e.tag = tag)) =
        (run_tid_calls s1 (calls.filter (fun c => decide (c.tag = tag)))).1 := by
  induction calls with
  | nil => intro s s1 _; simp [run_tid_calls]
  | cons c rest ih =>
    intro s s1 h
    cases c with
    | allocate t =>
      by_cases ht : t = tag
      · subst ht
        have hstep : allocated_tids_find (allocate_tid s t).2.m_allocated_tids t =
            allocated_tids_find (allocate_tid s1 t).2.m_allocated_tids t := by
          simp only [allocate_tid, allocated_tids_find_set, if_true, h]
        have hv : (allocate_tid s t).1 = (allocate_tid s1 t).1 := by
          simp only [allocate_tid, h]
        simp only [TidCall.tag, List.filter_cons, decide_True, if_true, run_tid_calls, hv,
          ih _ _ hstep]
      · have hstep : allocated_tids_find (allocate_tid s t).2.m_allocated_tids tag =
            allocated_tids_find s1.m_allocated_tids tag := by
          simp only [allocate_tid, allocated_tids_find_set, if_neg ht, h]
        simp only [TidCall.tag, List.filter_cons, ht, decide_False, run_tid_calls,
          ih _ _ hstep]
        simp
    | reserve t tid =>
      by_cases ht : t = tag
      · subst ht
        have hstep : allocated_tids_find (reserve_tid s t tid).m_allocated_tids t =
            allocated_tids_find (reserve_tid s1 t tid).m_allocated_tids t := by
          simp only [reserve_tid, allocated_tids_find_set, if_true, h]
        simp only [TidCall.tag, List.filter_cons, decide_True, if_true, run_tid_calls,
          ih _ _ hstep]
      · have hstep : allocated_tids_find (reserve_tid s t tid).m_allocated_tids tag =
            allocated_tids_find s1.m_allocated_tids tag := by
          simp only [reserve_tid, allocated_tids_find_set, if_neg ht, h]
        simp only [TidCall.tag, List.filter_cons, ht, decide_False, run_tid_calls,
          ih _ _ hstep]
        simp

/-- C8 (as stated, refuted): in the constructed state `reserve_tid A (2^64 - 1)` wraps the
counter of `A` to 0, and the following `allocate_tid A` returns 0, which is not greater than
the reserved tid. -/
theorem allocate_tid_increasing_counterexample :
    (run_tid_calls (JournalMetadata.init "c")
        [TidCall.reserve "A" 18446744073709551615, TidCall.allocate "A"]).1 =
      [⟨"A", 18446744073709551615, false⟩, ⟨"A", 0, true⟩] ∧
    ¬ (run_tid_calls (JournalMetadata.init "c")
        [TidCall.reserve "A" 18446744073709551615, TidCall.allocate "A"]).1.Pairwise
        (fun a b => b.allocated = true → a.tag = b.tag → a.value < b.value) := by
  constructor
  · decide
  · decide

/-- C8 (amended): in a run of `allocate_tid` / `reserve_tid` calls during which no counter
wraps around `2 ^ 64`, each value returned by `allocate_tid tag` is greater than every value
returned earlier by `allocate_tid tag` and than every tid passed earlier to
`reserve_tid tag`; and (wrap or not) the events of a tag are those of the run restricted to
the calls on that tag: calls on other tags do not affect them. -/
theorem allocate_tid_increasing (s : JournalMetadata) (calls : List TidCall)
    (h : tid_calls_no_wrap s calls = true) :
    (run_tid_calls s calls).1.Pairwise
        (fun a b => b.allocated = true → a.tag = b.tag → a.value < b.value) ∧
      ∀ tag : String,
        (run_tid_calls s calls).1.filter (fun e => decide (e.tag = tag)) =
          (run_tid_calls s (calls.filter (fun c => decide (c.tag = tag)))).1 :=
  ⟨run_tid_calls_increasing calls s h, fun tag => run_tid_calls_filter tag calls s s rfl⟩

/-- Witness of `allocate_tid_increasing`: reserve 7 on `A`, allocate on `B`, allocate twice
on `A`. -/
theorem allocate_tid_increasing_witness :
    (run_tid_calls (JournalMetadata.init "c")
        [TidCall.reserve "A" 7, TidCall.allocate "B", TidCall.allocate "A",
          TidCall.allocate "A"]).1.Pairwise
      (fun a b => b.allocated = true → a.tag = b.tag → a.value < b.value) :=
  (allocate_tid_increasing (JournalMetadata.init "c")
    [TidCall.reserve "A" 7, TidCall.allocate "B", TidCall.allocate "A",
      TidCall.allocate "A"] (by decide)).1


/-! ## Commit tids -/

theorem commit_tids_find_insert (m : List (Nat × CommitEntry)) (k k' : Nat) (e : CommitEntry) :
    commit_tids_find (commit_tids_insert m k e) k' =
      if k = k' then some e else commit_tids_find m k' := by
  induction m with
  | nil => simp only [commit_tids_insert, commit_tids_find]
  | cons hd tl ih =>
    obtain ⟨a, x⟩ := hd
    simp only [commit_tids_insert]
    by_cases h1 : k < a
    · simp only [if_pos h1, commit_tids_find]
    · by_cases h2 : k = a
      · subst h2
        simp only [if_neg h1, if_true, commit_tids_find]
        by_cases h3 : k = k' <;> simp [h3]
      · simp only [if_neg h1, if_neg h2, commit_tids_find, ih]
        by_cases h3 : a = k'
        · subst h3
          simp [h2]
        · simp [h3]

theorem run_allocate_commit_tids_increasing (calls : List (Nat × String × Nat)) :
    ∀ s : JournalMetadata, s.m_commit_tid + calls.length < UINT64_MOD →
      (run_allocate_commit_tids s calls).1.Pairwise (fun a b => a < b) ∧
        ∀ c ∈ (run_allocate_commit_tids s calls).1, s.m_commit_tid < c := by
  induction calls with
  | nil => intro s _; simp [run_allocate_commit_tids]
  | cons c rest ih =>
    intro s h
    obtain ⟨object_num, tag, tid⟩ := c
    simp only [List.length_cons] at h
    have hct : (allocate_commit_tid s object_num tag tid).1 = s.m_commit_tid + 1 := by
      simp only [allocate_commit_tid]
      exact Nat.mod_eq_of_lt (by omega)
    have hct2 : (allocate_commit_tid s object_num tag tid).2.m_commit_tid =
        s.m_commit_tid + 1 := by
      simp only [allocate_commit_tid]
      exact Nat.mod_eq_of_lt (by omega)
    have hrest := ih (allocate_commit_tid s object_num tag tid).2 (by rw [hct2]; omega)
    rw [hct2] at hrest
    simp only [run_allocate_commit_tids, List.pairwise_cons, List.mem_cons]
    refine ⟨⟨?_, hrest.1⟩, ?_⟩
    · intro b hb
      have := hrest.2 b hb
      omega
    · intro b hb
      rcases hb with hb | hb
      · omega
      · have := hrest.2 b hb
        omega

/-- With nothing pending, a round of `allocate_then_commit` only advances `m_commit_tid`. -/
theorem allocate_then_commit_counter (client_id : String) (n : Nat) :
    allocate_then_commit { JournalMetadata.init client_id with m_commit_tid := n } =
      { JournalMetadata.init client_id with m_commit_tid := (n + 1) % UINT64_MOD } := by
  simp [allocate_then_commit, allocate_commit_tid, committed, JournalMetadata.init,
    commit_tids_insert, mark_committed, pop_committed]

/-- After `n` rounds of `allocate_then_commit` from the constructed state the counter is
`n mod 2 ^ 64` and nothing is pending. -/
theorem iterate_allocate_then_commit (client_id : String) (n : Nat) :
    Nat.iterate allocate_then_commit n (JournalMetadata.init client_id) =
      { JournalMetadata.init client_id with m_commit_tid := n % UINT64_MOD } := by
  induction n with
  | zero => rfl
  | succ k ih =>
    rw [Function.iterate_succ_apply', ih, allocate_then_commit_counter]
    have : (k % UINT64_MOD + 1) % UINT64_MOD = (k + 1) % UINT64_MOD := by
      unfold UINT64_MOD
      omega
    rw [this]

/-- C9 (as stated, refuted): after `2 ^ 64 - 2` rounds of allocating and committing a commit
tid, two more `allocate_commit_tid` calls return `2 ^ 64 - 1` and then 0: the counter wraps
and the second value is not greater than the first. -/
theorem allocate_commit_tid_increasing_counterexample :
    (run_allocate_commit_tids
        (Nat.iterate allocate_then_commit 18446744073709551614 (JournalMetadata.init "c"))
        [(0, "", 0), (0, "", 0)]).1 = [18446744073709551615, 0] ∧
    ¬ (run_allocate_commit_tids
        (Nat.iterate allocate_then_commit 18446744073709551614 (JournalMetadata.init "c"))
        [(0, "", 0), (0, "", 0)]).1.Pairwise (fun a b => a < b) := by
  rw [iterate_allocate_then_commit]
  constructor
  · decide
  · decide

/-- C9 (amended): in a sequence of `allocate_commit_tid` calls that does not take the 64-bit
counter `m_commit_tid` past `2 ^ 64 - 1`, each returned commit tid is greater than all those
returned before (and than the counter the sequence started from); and after any call (from
any state `s0`) the pending map holds under the returned commit tid an uncommitted entry with
the given `(object_num, tag, tid)`, the entries under all other commit tids being
unchanged. -/
theorem allocate_commit_tid_increasing (s : JournalMetadata)
    (calls : List (Nat × String × Nat))
    (h : s.m_commit_tid + calls.length < UINT64_MOD)
    (s0 : JournalMetadata) (object_num : Nat) (tag : String) (tid : Nat) :
    (run_allocate_commit_tids s calls).1.Pairwise (fun a b => a < b) ∧
      (∀ c ∈ (run_allocate_commit_tids s calls).1, s.m_commit_tid < c) ∧
      commit_tids_find (allocate_commit_tid s0 object_num tag tid).2.m_pending_commit_tids
          (allocate_commit_tid s0 object_num tag tid).1 =
        some ⟨object_num, tag, tid, false⟩ ∧
      ∀ k, k ≠ (allocate_commit_tid s0 object_num tag tid).1 →
        commit_tids_find (allocate_commit_tid s0 object_num tag tid).2.m_pending_commit_tids
            k =
          commit_tids_find s0.m_pending_commit_tids k := by
  refine ⟨(run_allocate_commit_tids_increasing calls s h).1,
    (run_allocate_commit_tids_increasing calls s h).2, ?_, ?_⟩
  · simp only [allocate_commit_tid, commit_tids_find_insert, if_true]
  · intro k hk
    simp only [allocate_commit_tid, commit_tids_find_insert] at hk ⊢
    rw [if_neg (fun h => hk h.symm)]

/-- Witness of `allocate_commit_tid_increasing`: the three allocations of the specification's
folding scenario return 1, 2, 3. -/
theorem allocate_commit_tid_increasing_witness :
    (run_allocate_commit_tids (JournalMetadata.init "c")
        [(1, "A", 10), (1, "B", 5), (2, "A", 11)]).1.Pairwise (fun a b => a < b) ∧
      (run_allocate_commit_tids (JournalMetadata.init "c")
        [(1, "A", 10), (1, "B", 5), (2, "A", 11)]).1 = [1, 2, 3] :=
  ⟨(allocate_commit_tid_increasing (JournalMetadata.init "c")
      [(1, "A", 10), (1, "B", 5), (2, "A", 11)] (by decide)
      (JournalMetadata.init "c") 1 "A" 10).1, by decide⟩


/-! ## Folding committed entries into a position -/

theorem pop_committed_eq (pending : List (Nat × CommitEntry)) :
    ∀ (pos : ObjectSetPosition) (update : Bool),
      pop_committed pending pos update =
        (pending.dropWhile (fun p => p.2.committed),
          ((pending.takeWhile (fun p => p.2.committed)).map Prod.snd).foldl fold_entry pos,
          update || !((pending.takeWhile (fun p => p.2.committed)).map Prod.snd).isEmpty) := by
  induction pending with
  | nil => intro pos update; simp [pop_committed]
  | cons hd tl ih =>
    intro pos update
    obtain ⟨k, e⟩ := hd
    cases hc : e.committed
    · simp [pop_committed, hc, List.dropWhile, List.takeWhile]
    · simp [pop_committed, hc, List.dropWhile, List.takeWhile, ih]

theorem fold_entry_head (pos : ObjectSetPosition) (e : CommitEntry) :
    ∃ rest, (fold_entry pos e).entry_positions = ⟨e.tag, e.tid⟩ :: rest := by
  obtain ⟨n, l⟩ := pos
  cases l with
  | nil => exact ⟨[], rfl⟩
  | cons front rest =>
    by_cases hf : front.tag = e.tag
    · exact ⟨rest, by simp [fold_entry, hf]⟩
    · exact ⟨front :: rest, by simp [fold_entry, hf]⟩

theorem fold_entry_find (pos : ObjectSetPosition) (e : CommitEntry) (t : String) :
    (fold_entry pos e).entry_positions.find? (fun x => decide (x.tag = t)) =
      if e.tag = t then some ⟨e.tag, e.tid⟩
      else pos.entry_positions.find? (fun x => decide (x.tag = t)) := by
  obtain ⟨n, l⟩ := pos
  cases l with
  | nil =>
    by_cases ht : e.tag = t <;> simp [fold_entry, List.find?, ht]
  | cons front rest =>
    by_cases hf : front.tag = e.tag
    · by_cases ht : e.tag = t
      · simp [fold_entry, List.find?, hf, ht]
      · have : ¬ front.tag = t := by rw [hf]; exact ht
        simp [fold_entry, List.find?, hf, ht, this]
    · by_cases ht : e.tag = t
      · subst ht
        simp [fold_entry, List.find?, hf]
      · simp [fold_entry, List.find?, hf, ht]

theorem foldl_fold_entry_find (t : String) (es : List CommitEntry) :
    ∀ pos : ObjectSetPosition,
      (es.foldl fold_entry pos).entry_positions.find? (fun x => decide (x.tag = t)) =
        match es.reverse.find? (fun e => decide (e.tag = t)) with
        | some e => some ⟨t, e.tid⟩
        | none => pos.entry_positions.find? (fun x => decide (x.tag = t)) := by
  induction es with
  | nil => intro pos; simp
  | cons e es ih =>
    intro pos
    rw [List.foldl_cons, ih, List.reverse_cons, List.find?_append, fold_entry_find]
    cases hfind : es.reverse.find? (fun e => decide (e.tag = t)) with
    | some e1 => simp
    | none =>
      by_cases ht : e.tag = t
      · simp [List.find?, ht]
      · simp [List.find?, ht]

theorem foldl_fold_entry_last (es : List CommitEntry) (ek : CommitEntry)
    (pos : ObjectSetPosition) (h : es.getLast? = some ek) :
    (es.foldl fold_entry pos).object_number = ek.object_num ∧
      (es.foldl fold_entry pos).entry_positions.head? = some ⟨ek.tag, ek.tid⟩ := by
  rcases List.eq_nil_or_concat es with hnil | ⟨init, last, hes⟩
  · subst hnil; simp at h
  · subst hes
    rw [List.concat_eq_append] at h ⊢
    rw [List.getLast?_concat] at h
    cases h
    rw [List.foldl_append]
    simp only [List.foldl_cons, List.foldl_nil]
    constructor
    · rfl
    · obtain ⟨rest, hrest⟩ := fold_entry_head (List.foldl fold_entry pos init) ek
      rw [hrest]
      rfl

theorem prune_tags_filter (t : String) (l : List EntryPosition) :
    ∀ in_use : List String,
      (prune_tags in_use l).filter (fun x => decide (x.tag = t)) =
        if t ∈ in_use then [] else (l.find? (fun x => decide (x.tag = t))).toList := by
  induction l with
  | nil => intro in_use; simp [prune_tags]
  | cons e rest ih =>
    intro in_use
    unfold prune_tags
    by_cases hin : e.tag ∈ in_use
    · rw [if_pos hin, ih]
      by_cases ht : t ∈ in_use
      · simp [ht]
      · have : ¬ e.tag = t := fun h => ht (h ▸ hin)
        simp [ht, List.find?, this]
    · rw [if_neg hin, List.filter_cons, ih]
      by_cases het : e.tag = t
      · subst het
        simp [hin, List.find?]
      · by_cases ht : t ∈ in_use
        · simp [het, ht]
        · have h2 : ¬ t = e.tag := fun h => het h.symm
          simp [het, ht, List.find?, h2]

theorem prune_tags_head (l : List EntryPosition) :
    (prune_tags [] l).head? = l.head? := by
  cases l with
  | nil => rfl
  | cons e rest => simp [prune_tags]

theorem prune_tags_nodup (l : List EntryPosition) :
    ∀ in_use : List String,
      ((prune_tags in_use l).map (fun x => x.tag)).Nodup ∧
        ∀ x ∈ prune_tags in_use l, x.tag ∉ in_use := by
  induction l with
  | nil => intro in_use; simp [prune_tags]
  | cons e rest ih =>
    intro in_use
    unfold prune_tags
    by_cases hin : e.tag ∈ in_use
    · rw [if_pos hin]
      exact ih in_use
    · rw [if_neg hin]
      have h1 := ih (e.tag :: in_use)
      refine ⟨?_, ?_⟩
      · rw [List.map_cons, List.nodup_cons]
        refine ⟨?_, h1.1⟩
        intro hmem
        rcases List.mem_map.mp hmem with ⟨x, hx, hxt⟩
        exact h1.2 x hx (by rw [hxt]; exact List.mem_cons_self _ _)
      · intro x hx
        rcases List.mem_cons.mp hx with hx | hx
        · rw [hx]; exact hin
        · exact fun hmem => h1.2 x hx (List.mem_cons_of_mem _ hmem)

theorem prune_tags_sublist (l : List EntryPosition) :
    ∀ in_use : List String, (prune_tags in_use l).Sublist l := by
  induction l with
  | nil => intro in_use; simp [prune_tags]
  | cons e rest ih =>
    intro in_use
    unfold prune_tags
    split
    · exact List.Sublist.cons _ (ih _)
    · exact List.Sublist.cons₂ _ (ih _)

theorem prune_tags_enumFrom (l : List EntryPosition) :
    ∀ (pre : List EntryPosition) (in_use : List String),
      (∀ t, t ∈ in_use ↔ ∃ e ∈ pre, e.tag = t) →
      prune_tags in_use l =
        ((l.enumFrom pre.length).filter (fun ie =>
          ((pre ++ l).take ie.1).all (fun e => !decide (e.tag = ie.2.tag)))).map Prod.snd := by
  induction l with
  | nil => intro pre in_use _; simp [prune_tags]
  | cons e rest ih =>
    intro pre in_use hin
    have hhead : (pre.all (fun x => !decide (x.tag = e.tag))) = true ↔ e.tag ∉ in_use := by
      rw [hin e.tag]
      simp
    have hlen : (pre ++ [e]).length = pre.length + 1 := by simp
    rw [List.enumFrom_cons, List.filter_cons]
    simp only [List.take_left]
    unfold prune_tags
    by_cases hmem : e.tag ∈ in_use
    · have hc : ¬ (pre.all (fun x => !decide (x.tag = e.tag))) = true :=
        fun h => (hhead.mp h) hmem
      rw [if_pos hmem, if_neg hc]
      have hin1 : ∀ t, t ∈ in_use ↔ ∃ x ∈ pre ++ [e], x.tag = t := by
        intro t
        rw [hin t]
        constructor
        · rintro ⟨x, hx, hxt⟩
          exact ⟨x, List.mem_append_left _ hx, hxt⟩
        · rintro ⟨x, hx, hxt⟩
          rcases List.mem_append.mp hx with hx | hx
          · exact ⟨x, hx, hxt⟩
          · have : x = e := by simpa using hx
            subst this
            rw [← hxt]
            exact (hin x.tag).mp hmem
      have := ih (pre ++ [e]) in_use hin1
      rw [hlen, List.append_assoc, List.singleton_append] at this
      exact this
    · have hc : (pre.all (fun x => !decide (x.tag = e.tag))) = true := hhead.mpr hmem
      rw [if_neg hmem, if_pos hc, List.map_cons]
      have hin1 : ∀ t, t ∈ e.tag :: in_use ↔ ∃ x ∈ pre ++ [e], x.tag = t := by
        intro t
        rw [List.mem_cons, hin t]
        constructor
        · rintro (h | ⟨x, hx, hxt⟩)
          · exact ⟨e, by simp, h.symm⟩
          · exact ⟨x, List.mem_append_left _ hx, hxt⟩
        · rintro ⟨x, hx, hxt⟩
          rcases List.mem_append.mp hx with hx | hx
          · exact Or.inr ⟨x, hx, hxt⟩
          · have : x = e := by simpa using hx
            subst this
            exact Or.inl hxt.symm
      have := ih (pre ++ [e]) (e.tag :: in_use) hin1
      rw [hlen, List.append_assoc, List.singleton_append] at this
      rw [this]

theorem prune_tags_eq_keep_first (l : List EntryPosition) :
    prune_tags [] l = keep_first_occurrences l := by
  have := prune_tags_enumFrom l [] [] (by simp)
  simpa [keep_first_occurrences, List.enum] using this


theorem committed_eq_some (s : JournalMetadata) (ct : Nat) (pos : ObjectSetPosition)
    (s1 : JournalMetadata) (h : committed s ct = some (true, pos, s1)) :
    ∃ pending, mark_committed s.m_pending_commit_tids ct = some pending ∧
      (popped_entries pending).isEmpty = false ∧
      pos.object_number =
        ((popped_entries pending).foldl fold_entry (committed_base s)).object_number ∧
      (pop_committed pending (committed_base s) false).2.1.entry_positions =
        ((popped_entries pending).foldl fold_entry (committed_base s)).entry_positions ∧
      pos.entry_positions =
        prune_tags []
          ((popped_entries pending).foldl fold_entry (committed_base s)).entry_positions ∧
      s1.m_pending_commit_tids = pending.dropWhile (fun p => p.2.committed) := by
  unfold committed at h
  cases hm : mark_committed s.m_pending_commit_tids ct with
  | none => rw [hm] at h; simp at h
  | some pending =>
    rw [hm] at h
    simp only [pop_committed_eq, Bool.false_or, Option.some.injEq, Prod.mk.injEq] at h
    obtain ⟨h1, h2, h3⟩ := h
    refine ⟨pending, rfl, ?_, ?_, ?_, ?_, ?_⟩
    · simpa [popped_entries] using h1
    · rw [← h2, h1]; rfl
    · rw [pop_committed_eq]; rfl
    · rw [← h2, h1]; rfl
    · rw [← h3]

theorem committed_of_mark (s : JournalMetadata) (ct : Nat)
    (pending : List (Nat × CommitEntry))
    (hm : mark_committed s.m_pending_commit_tids ct = some pending)
    (hne : (popped_entries pending).isEmpty = false) :
    committed s ct =
      some (true,
        { ((popped_entries pending).foldl fold_entry (committed_base s)) with
          entry_positions := prune_tags []
            ((popped_entries pending).foldl fold_entry (committed_base s)).entry_positions },
        { s with m_pending_commit_tids := pending.dropWhile (fun p => p.2.committed) }) := by
  unfold committed
  rw [hm]
  simp only [pop_committed_eq, Bool.false_or]
  have h1 : (!((pending.takeWhile (fun p => p.2.committed)).map Prod.snd).isEmpty) = true := by
    unfold popped_entries at hne
    rw [hne]
    rfl
  rw [h1]
  rfl

/-- C1: when the entry of `commit_tid` is pending and, once it is marked, the run `e1..ek` of
committed entries at the front of the map is not empty, `committed` pops that run and returns
true with a position that has the object number of `ek`, whose first entry is
`(ek.tag, ek.tid)`, and whose entries with a given tag are exactly the one entry holding the
tid of the last popped entry with that tag, or, for a tag that no popped entry carries, the
first entry of that tag in the base position (none if the base has none). In the
specification's scenario (empty base; `(1, A, 10)`, `(1, B, 5)`, `(2, A, 11)` allocated as
commit tids 1, 2, 3; committed in the order 1, 3, 2) the last call returns true and
`{2, [(A,11),(B,5)]}`. -/
theorem committed_folds_position (s : JournalMetadata) (ct : Nat)
    (pending : List (Nat × CommitEntry)) (ek : CommitEntry)
    (hm : mark_committed s.m_pending_commit_tids ct = some pending)
    (hk : (popped_entries pending).getLast? = some ek) :
    (∃ pos s1,
      committed s ct = some (true, pos, s1) ∧
      s1.m_pending_commit_tids = pending.dropWhile (fun p => p.2.committed) ∧
      pos.object_number = ek.object_num ∧
      pos.entry_positions.head? = some ⟨ek.tag, ek.tid⟩ ∧
      ∀ tag : String,
        pos.entry_positions.filter (fun x => decide (x.tag = tag)) =
          match (popped_entries pending).reverse.find? (fun e => decide (e.tag = tag)) with
          | some e => [⟨tag, e.tid⟩]
          | none =>
            ((committed_base s).entry_positions.find?
              (fun x => decide (x.tag = tag))).toList) ∧
    ((run_allocate_commit_tids (JournalMetadata.init "c")
        [(1, "A", 10), (1, "B", 5), (2, "A", 11)]).1 = [1, 2, 3] ∧
      committed
          (committed_state
            (committed_state
              (run_allocate_commit_tids (JournalMetadata.init "c")
                [(1, "A", 10), (1, "B", 5), (2, "A", 11)]).2 1) 3) 2 =
        some (true, ⟨2, [⟨"A", 11⟩, ⟨"B", 5⟩]⟩,
          { JournalMetadata.init "c" with m_commit_tid := 3 })) := by
  refine ⟨?_, by decide, by decide⟩
  have hne : (popped_entries pending).isEmpty = false := by
    cases hp : popped_entries pending with
    | nil => rw [hp] at hk; simp at hk
    | cons a l => rfl
  have hlast := foldl_fold_entry_last (popped_entries pending) ek (committed_base s) hk
  refine ⟨_, _, committed_of_mark s ct pending hm hne, rfl, hlast.1, ?_, ?_⟩
  · simp only [prune_tags_head]
    exact hlast.2
  · intro tag
    simp only [prune_tags_filter]
    rw [if_neg (List.not_mem_nil _), foldl_fold_entry_find]
    cases (popped_entries pending).reverse.find? (fun e => decide (e.tag = tag)) with
    | some e => rfl
    | none => rfl

/-- Witness of `committed_folds_position`: the last `committed` call of the specification's
scenario, which pops `(1, B, 5)` and then `(2, A, 11)`. -/
theorem committed_folds_position_witness :
    mark_committed
        (committed_state
          (committed_state
            (run_allocate_commit_tids (JournalMetadata.init "c")
              [(1, "A", 10), (1, "B", 5), (2, "A", 11)]).2 1) 3).m_pending_commit_tids 2 =
      some [(2, ⟨1, "B", 5, true⟩), (3, ⟨2, "A", 11, true⟩)] ∧
    popped_entries [(2, ⟨1, "B", 5, true⟩), (3, ⟨2, "A", 11, true⟩)] =
      [⟨1, "B", 5, true⟩, ⟨2, "A", 11, true⟩] ∧
    ∃ pos s1,
      committed
          (committed_state
            (committed_state
              (run_allocate_commit_tids (JournalMetadata.init "c")
                [(1, "A", 10), (1, "B", 5), (2, "A", 11)]).2 1) 3) 2 =
        some (true, pos, s1) ∧
      pos.object_number = 2 ∧
      pos.entry_positions.head? = some ⟨"A", 11⟩ :=
  ⟨by decide, by decide,
    match (committed_folds_position
      (committed_state
        (committed_state
          (run_allocate_commit_tids (JournalMetadata.init "c")
            [(1, "A", 10), (1, "B", 5), (2, "A", 11)]).2 1) 3) 2
      [(2, ⟨1, "B", 5, true⟩), (3, ⟨2, "A", 11, true⟩)] ⟨2, "A", 11, true⟩
      (by decide) (by decide)).1 with
    | ⟨pos, s1, h1, _, h3, h4, _⟩ => ⟨pos, s1, h1, h3, h4⟩⟩

/-- C2: when `committed` returns true, whatever the base position (duplicate tags included)
and the pending map, the tags of the returned entry positions are pairwise distinct, and the
returned list is the list folded by the loop with every entry removed whose tag an earlier
entry carries; it is a sublist of the folded list, so the surviving entries keep their
order. -/
theorem committed_prunes_duplicate_tags (s : JournalMetadata) (ct : Nat)
    (pos : ObjectSetPosition) (s1 : JournalMetadata)
    (h : committed s ct = some (true, pos, s1)) :
    ∃ pending,
      mark_committed s.m_pending_commit_tids ct = some pending ∧
      (pos.entry_positions.map (fun x => x.tag)).Nodup ∧
      pos.entry_positions =
        keep_first_occurrences
          (pop_committed pending (committed_base s) false).2.1.entry_positions ∧
      pos.entry_positions.Sublist
        (pop_committed pending (committed_base s) false).2.1.entry_positions := by
  obtain ⟨pending, hm, _, _, hfold, hpos, _⟩ := committed_eq_some s ct pos s1 h
  refine ⟨pending, hm, ?_, ?_, ?_⟩
  · rw [hpos]; exact (prune_tags_nodup _ []).1
  · rw [hpos, hfold, prune_tags_eq_keep_first]
  · rw [hpos, hfold]; exact prune_tags_sublist _ []

/-- Witness of `committed_prunes_duplicate_tags`: the base `{0, [(A,1),(B,2),(A,3)]}` has the
tag `A` twice; committing `(1, B, 5)` folds to `[(B,5),(A,1),(B,2),(A,3)]` and returns
`{1, [(B,5),(A,1)]}`, whose tags are distinct. -/
theorem committed_prunes_duplicate_tags_witness :
    committed
        (allocate_commit_tid
          (set_commit_position (JournalMetadata.init "c")
            ⟨0, [⟨"A", 1⟩, ⟨"B", 2⟩, ⟨"A", 3⟩]⟩ 1) 1 "B" 5).2 1 =
      some (true, ⟨1, [⟨"B", 5⟩, ⟨"A", 1⟩]⟩,
        committed_state
          (allocate_commit_tid
            (set_commit_position (JournalMetadata.init "c")
              ⟨0, [⟨"A", 1⟩, ⟨"B", 2⟩, ⟨"A", 3⟩]⟩ 1) 1 "B" 5).2 1) ∧
    (([⟨"B", 5⟩, ⟨"A", 1⟩] : List EntryPosition).map (fun x => x.tag)).Nodup :=
  ⟨by decide,
    match committed_prunes_duplicate_tags
      (allocate_commit_tid
        (set_commit_position (JournalMetadata.init "c")
          ⟨0, [⟨"A", 1⟩, ⟨"B", 2⟩, ⟨"A", 3⟩]⟩ 1) 1 "B" 5).2 1
      ⟨1, [⟨"B", 5⟩, ⟨"A", 1⟩]⟩
      (committed_state
        (allocate_commit_tid
          (set_commit_position (JournalMetadata.init "c")
            ⟨0, [⟨"A", 1⟩, ⟨"B", 2⟩, ⟨"A", 3⟩]⟩ 1) 1 "B" 5).2 1)
      (by decide) with
    | ⟨_, _, h2, _, _⟩ => h2⟩

/-! ## Creating a journal -/

/-- C11: whatever the splay width, the pool id and the answer the store would give,
`Journaler::create` with `order < 12` or `order > 64` returns `-EDOM` and sends no create
request. -/
theorem create_order_out_of_range (store_result : Int) (order splay_width : Nat)
    (pool_id : Int) (h : order < 12 ∨ order > 64) :
    Journaler.create store_result order splay_width pool_id = (-EDOM, []) := by
  unfold Journaler.create
  rw [if_pos (by omega)]

/-- Witness of `create_order_out_of_range`: order 11, and order 65. -/
theorem create_order_out_of_range_witness :
    Journaler.create 0 11 4 (-1) = (-EDOM, []) ∧ Journaler.create 0 65 4 (-1) = (-EDOM, []) :=
  ⟨create_order_out_of_range 0 11 4 (-1) (Or.inl (by decide)),
    create_order_out_of_range 0 65 4 (-1) (Or.inr (by decide))⟩

/-- C12 (as stated, refuted): with `splay_width = 0` and `order = 0` the order check comes
first and `Journaler::create` returns `-EDOM`, which is not `-EINVAL`. -/
theorem create_zero_splay_width_counterexample :
    Journaler.create 0 0 0 (-1) = (-EDOM, []) ∧
      (Journaler.create 0 0 0 (-1)).1 ≠ -EINVAL := by
  decide

/-- C12 (amended): with `splay_width = 0`, `Journaler::create` sends no create request for
any order, and for an order in `[12, 64]` it returns `-EINVAL` (for an order outside the
range it returns `-EDOM`). -/
theorem create_zero_splay_width (store_result : Int) (order : Nat) (pool_id : Int) :
    (Journaler.create store_result order 0 pool_id).2 = [] ∧
      (12 ≤ order ∧ order ≤ 64 →
        Journaler.create store_result order 0 pool_id = (-EINVAL, [])) ∧
      (order < 12 ∨ order > 64 →
        Journaler.create store_result order 0 pool_id = (-EDOM, [])) := by
  refine ⟨?_, ?_, ?_⟩
  · unfold Journaler.create
    split
    · rfl
    · rfl
  · intro h
    unfold Journaler.create
    rw [if_neg (by omega)]
    rfl
  · intro h
    unfold Journaler.create
    rw [if_pos (by omega)]

/-- Witness of `create_zero_splay_width`: order 24. -/
theorem create_zero_splay_width_witness :
    Journaler.create 0 24 0 (-1) = (-EINVAL, []) :=
  (create_zero_splay_width 0 24 (-1)).2.1 (by decide)

/-! ## Refreshing the mutable metadata -/

/-- C13: when a mutable-metadata read succeeds (`r = 0`) and its registered-client set does
not contain this object's client id, `handle_refresh_complete` completes the caller's
callback (when the refresh has one) with `-ENOENT` and changes nothing else: `minimum_set`,
`active_set`, the registered-client set and the client record are those of the state before,
and no listener is notified. -/
theorem refresh_without_client (s : JournalMetadata) (refresh : C_Refresh)
    (h : registered_clients_find refresh.registered_clients s.m_client_id = none) :
    (handle_refresh_complete s refresh 0).m_minimum_set = s.m_minimum_set ∧
      (handle_refresh_complete s refresh 0).m_active_set = s.m_active_set ∧
      (handle_refresh_complete s refresh 0).m_registered_clients = s.m_registered_clients ∧
      (handle_refresh_complete s refresh 0).m_client = s.m_client ∧
      (handle_refresh_complete s refresh 0).handled_updates = s.handled_updates ∧
      (handle_refresh_complete s refresh 0).completed =
        (match refresh.on_finish with
          | some on_finish => s.completed ++ [(on_finish, -ENOENT)]
          | none => s.completed) ∧
      handle_refresh_complete s refresh 0 =
        (match refresh.on_finish with
          | some on_finish => complete s on_finish (-ENOENT)
          | none => s) := by
  have hs : handle_refresh_complete s refresh 0 =
      (match refresh.on_finish with
        | some on_finish => complete s on_finish (-ENOENT)
        | none => s) := by
    unfold handle_refresh_complete
    simp only [if_true, h]
  rw [hs]
  cases refresh.on_finish <;> simp [complete]

/-- Witness of `refresh_without_client`: the client `c` refreshes from a header in which only
`other` is registered; a listener is installed and is not called. -/
theorem refresh_without_client_witness :
    (handle_refresh_complete { JournalMetadata.init "c" with m_listeners := [7] }
        ⟨3, 5, [⟨"other", "", ⟨0, []⟩⟩], some 1⟩ 0).completed = [(1, -ENOENT)] ∧
      (handle_refresh_complete { JournalMetadata.init "c" with m_listeners := [7] }
        ⟨3, 5, [⟨"other", "", ⟨0, []⟩⟩], some 1⟩ 0).handled_updates = [] :=
  ⟨(refresh_without_client { JournalMetadata.init "c" with m_listeners := [7] }
      ⟨3, 5, [⟨"other", "", ⟨0, []⟩⟩], some 1⟩ (by decide)).2.2.2.2.2.1,
    (refresh_without_client { JournalMetadata.init "c" with m_listeners := [7] }
      ⟨3, 5, [⟨"other", "", ⟨0, []⟩⟩], some 1⟩ (by decide)).2.2.2.2.1⟩

end journal

/-! ## The image journal state machine -/

namespace librbd

theorem transition_state_state (s : Journal) (st : State) (r : Int) :
    (s.transition_state st r).m_state = st := by
  unfold Journal.transition_state
  simp only
  split <;> split <;> rfl

theorem transition_state_callbacks (s : Journal) (st : State) (r : Int) :
    (s.transition_state st r).callbacks = s.callbacks := by
  unfold Journal.transition_state
  simp only
  split <;> split <;> rfl

theorem transition_state_close_pending (s : Journal) (st : State) (r : Int) :
    (s.transition_state st r).m_close_pending = s.m_close_pending := by
  unfold Journal.transition_state
  simp only
  split <;> split <;> rfl

/-- State and outstanding callbacks after `destroy_journaler`. -/
theorem destroy_journaler_view (s : Journal) (r : Int) :
    (s.destroy_journaler r).m_state = State.STATE_CLOSING ∧
      (s.destroy_journaler r).callbacks = s.callbacks ++ [Callback.handle_journal_destroyed] := by
  unfold Journal.destroy_journaler
  simp only [transition_state_state, transition_state_callbacks, and_self]

/-- State and outstanding callbacks after a successful `recreate_journaler`. -/
theorem recreate_journaler_view (s s1 : Journal) (r : Int)
    (h : s.recreate_journaler r = some s1) :
    (s.m_state = State.STATE_FLUSHING_RESTART ∨ s.m_state = State.STATE_FLUSHING_REPLAY) ∧
      s1.m_state = State.STATE_RESTARTING_REPLAY ∧
      s1.callbacks = s.callbacks ++ [Callback.handle_journal_destroyed] := by
  unfold Journal.recreate_journaler at h
  split at h
  · exact Option.noConfusion h
  · rename_i hst
    cases h
    refine ⟨not_not.mp hst, ?_, ?_⟩
    · simp only [transition_state_state]
    · simp only [transition_state_callbacks]

/-- State and outstanding callbacks after a successful `create_journaler`. -/
theorem create_journaler_view (s s1 : Journal) (h : s.create_journaler = some s1) :
    (s.m_state = State.STATE_UNINITIALIZED ∨ s.m_state = State.STATE_RESTARTING_REPLAY) ∧
      s1.m_state = State.STATE_INITIALIZING ∧
      s1.callbacks = s.callbacks ++ [Callback.handle_initialized] := by
  unfold Journal.create_journaler at h
  split at h
  · exact Option.noConfusion h
  · rename_i hst
    split at h
    · exact Option.noConfusion h
    · cases h
      refine ⟨not_not.mp hst, ?_, ?_⟩
      · simp only [transition_state_state]
      · simp only [transition_state_callbacks]

/-- State and outstanding callbacks after a successful `stop_recording`. -/
theorem stop_recording_view (s s1 : Journal) (h : s.stop_recording = some s1) :
    s.m_state = State.STATE_READY ∧ s1.m_state = State.STATE_STOPPING ∧
      s1.callbacks = s.callbacks ++ [Callback.handle_recording_stopped] := by
  unfold Journal.stop_recording at h
  split at h
  · exact Option.noConfusion h
  · split at h
    · exact Option.noConfusion h
    · rename_i hst
      cases h
      refine ⟨not_not.mp hst, ?_, ?_⟩
      · simp only [transition_state_state]
      · simp only [transition_state_callbacks]

/-- State and outstanding callbacks after a successful `wait_for_steady_state`. -/
theorem wait_for_steady_state_view (s s1 : Journal) (ctx : Context)
    (h : s.wait_for_steady_state ctx = some s1) :
    s1.m_state = s.m_state ∧ s1.callbacks = s.callbacks := by
  unfold Journal.wait_for_steady_state at h
  split at h
  · exact Option.noConfusion h
  · cases h
    exact ⟨rfl, rfl⟩

theorem take_callback_view (s s1 : Journal) (cb : Callback)
    (h : s.take_callback cb = some s1) :
    cb ∈ s.callbacks ∧ s1.m_state = s.m_state ∧ s1.callbacks = s.callbacks.erase cb ∧
      s1.m_close_pending = s.m_close_pending := by
  unfold Journal.take_callback at h
  split at h
  · rename_i hmem
    cases h
    exact ⟨hmem, rfl, rfl, rfl⟩
  · exact Option.noConfusion h

/-- What one call does to the state and to the outstanding `handle_initialized` callbacks:
the state is unchanged or changes along an edge of the table or a close-pending edge
(for `handle_initialized`, provided the journal is in state `Initializing`), and the
invariant `init_callback_consistent` is preserved. -/
theorem step_view (s s1 : Journal) (c : Call) (h : s.step c = some s1) :
    ((∀ r, c = Call.handle_initialized r → s.m_state = State.STATE_INITIALIZING) →
      (s1.m_state = s.m_state ∨ table_edge s.m_state s1.m_state = true ∨
        (s.m_close_pending = true ∧ close_pending_edge s.m_state s1.m_state = true))) ∧
    (s.init_callback_consistent → s1.init_callback_consistent) := by
  unfold Journal.init_callback_consistent
  cases c with
  | «open» on_finish =>
    simp only [Journal.step, Journal.open] at h
    split at h
    · exact Option.noConfusion h
    · rename_i hst
      obtain ⟨a, ha, hc⟩ := Option.bind_eq_some.mp h
      obtain ⟨ha1, ha2⟩ := wait_for_steady_state_view s a on_finish ha
      obtain ⟨_, hc2, hc3⟩ := create_journaler_view a s1 hc
      have hs : s.m_state = State.STATE_UNINITIALIZED := not_not.mp hst
      rw [hc2, hc3, ha2, hs]
      refine ⟨fun _ => Or.inr (Or.inl (by decide)), ?_⟩
      intro hinv
      simp at hinv
      simp [List.count_append, hinv]
  | close on_finish =>
    simp only [Journal.step, Journal.close] at h
    split at h
    · exact Option.noConfusion h
    · split at h
      · cases h
        exact ⟨fun _ => Or.inl rfl, fun hinv => hinv⟩
      · obtain ⟨a, ha, hc⟩ := Option.bind_eq_some.mp h
        obtain ⟨hc1, hc2⟩ := wait_for_steady_state_view _ s1 on_finish hc
        simp only at hc1 hc2
        split at ha
        · rename_i hready
          obtain ⟨_, ha2, ha3⟩ := stop_recording_view s a ha
          rw [hc1, hc2, ha2, ha3, hready]
          refine ⟨fun _ => Or.inr (Or.inl (by decide)), ?_⟩
          intro hinv
          simp at hinv
          simp [List.count_append, hinv]
        · cases ha
          rw [hc1, hc2]
          exact ⟨fun _ => Or.inl rfl, fun hinv => hinv⟩
  | handle_initialized r =>
    simp only [Journal.step] at h
    obtain ⟨a, ha, hc⟩ := Option.map_eq_some'.mp h
    obtain ⟨hmem, ha1, ha2, _⟩ := take_callback_view s a _ ha
    subst hc
    unfold Journal.handle_initialized
    split
    · obtain ⟨hd1, hd2⟩ := destroy_journaler_view a r
      rw [hd1, hd2, ha2]
      constructor
      · intro hinit
        rw [hinit r rfl]
        exact Or.inr (Or.inl (by decide))
      · intro hinv
        have hpos : 0 < s.callbacks.count Callback.handle_initialized :=
          List.count_pos_iff.mpr hmem
        split at hinv
        · simp [List.count_append, List.count_erase_self, hinv]
        · omega
    · simp only [transition_state_state, transition_state_callbacks, ha2]
      constructor
      · intro hinit
        rw [hinit r rfl]
        exact Or.inr (Or.inl (by decide))
      · intro hinv
        have hpos : 0 < s.callbacks.count Callback.handle_initialized :=
          List.count_pos_iff.mpr hmem
        split at hinv
        · simp [List.count_erase_self, hinv]
        · omega
  | handle_replay_complete r =>
    simp only [Journal.step, Option.some.injEq] at h
    subst h
    unfold Journal.handle_replay_complete
    split
    · exact ⟨fun _ => Or.inl rfl, fun hinv => hinv⟩
    · rename_i hst
      have hs : s.m_state = State.STATE_REPLAYING := not_not.mp hst
      split
      · simp only [transition_state_state, transition_state_callbacks, hs]
        refine ⟨fun _ => Or.inr (Or.inl (by decide)), ?_⟩
        intro hinv
        simp at hinv
        simp [List.count_append, hinv]
      · simp only [transition_state_state, transition_state_callbacks, hs]
        refine ⟨fun _ => Or.inr (Or.inl (by decide)), ?_⟩
        intro hinv
        simp at hinv
        simp [List.count_append, hinv]
  | handle_replay_process_safe replay_entry r =>
    simp only [Journal.step, Option.some.injEq] at h
    subst h
    unfold Journal.handle_replay_process_safe
    split
    · split
      · rename_i hs
        simp only [transition_state_state, transition_state_callbacks, hs]
        refine ⟨fun _ => Or.inr (Or.inl (by decide)), ?_⟩
        intro hinv
        simp at hinv
        simp [List.count_append, hinv]
      · split
        · rename_i hs
          simp only [transition_state_state, transition_state_callbacks, hs]
          refine ⟨fun _ => Or.inr (Or.inl (by decide)), ?_⟩
          intro hinv
          simp at hinv
          simp [hinv]
        · exact ⟨fun _ => Or.inl rfl, fun hinv => hinv⟩
    · exact ⟨fun _ => Or.inl rfl, fun hinv => hinv⟩
  | handle_flushing_restart r =>
    simp only [Journal.step] at h
    obtain ⟨a, ha, hc⟩ := Option.bind_eq_some.mp h
    obtain ⟨_, ha1, ha2, hacp⟩ := take_callback_view s a _ ha
    unfold Journal.handle_flushing_restart at hc
    split at hc
    · exact Option.noConfusion hc
    · split at hc
      · exact Option.noConfusion hc
      · rename_i hst
        have hs : s.m_state = State.STATE_FLUSHING_RESTART := by
          rw [← ha1]; exact not_not.mp hst
        split at hc
        · rename_i hcp
          cases hc
          obtain ⟨hd1, hd2⟩ := destroy_journaler_view a r
          rw [hd1, hd2, ha2, hs]
          refine ⟨fun _ => Or.inr (Or.inr ⟨hacp ▸ hcp, by decide⟩), ?_⟩
          intro hinv
          simp at hinv
          simp [List.count_append, List.count_erase_of_ne, hinv]
        · obtain ⟨_, hr2, hr3⟩ := recreate_journaler_view a s1 r hc
          rw [hr2, hr3, ha2, hs]
          refine ⟨fun _ => Or.inr (Or.inl (by decide)), ?_⟩
          intro hinv
          simp at hinv
          simp [List.count_append, List.count_erase_of_ne, hinv]
  | handle_flushing_replay r =>
    simp only [Journal.step] at h
    obtain ⟨a, ha, hc⟩ := Option.bind_eq_some.mp h
    obtain ⟨_, ha1, ha2, hacp⟩ := take_callback_view s a _ ha
    unfold Journal.handle_flushing_replay at hc
    split at hc
    · exact Option.noConfusion hc
    · split at hc
      · exact Option.noConfusion hc
      · rename_i hst
        have hs : s.m_state = State.STATE_FLUSHING_REPLAY ∨
            s.m_state = State.STATE_FLUSHING_RESTART := by
          rw [← ha1]; exact not_not.mp hst
        split at hc
        · rename_i hcp
          cases hc
          obtain ⟨hd1, hd2⟩ := destroy_journaler_view a r
          rw [hd1, hd2, ha2]
          constructor
          · intro _
            rcases hs with hs | hs <;> rw [hs] <;>
              exact Or.inr (Or.inr ⟨hacp ▸ hcp, by decide⟩)
          · intro hinv
            rcases hs with hs | hs <;> rw [hs] at hinv <;> simp at hinv <;>
              simp [List.count_append, List.count_erase_of_ne, hinv]
        · split at hc
          · rename_i hfr
            obtain ⟨_, hr2, hr3⟩ := recreate_journaler_view a s1 0 hc
            rw [hr2, hr3, ha2, ← ha1, hfr]
            refine ⟨fun _ => Or.inr (Or.inl (by decide)), ?_⟩
            intro hinv
            simp at hinv
            simp [List.count_append, List.count_erase_of_ne, hinv]
          · rename_i hfr
            have hs2 : s.m_state = State.STATE_FLUSHING_REPLAY := by
              rcases hs with hs | hs
              · exact hs
              · exact absurd (ha1.trans hs) hfr
            cases hc
            simp only [transition_state_state, transition_state_callbacks, ha2, hs2]
            refine ⟨fun _ => Or.inr (Or.inl (by decide)), ?_⟩
            intro hinv
            simp at hinv
            simp [List.count_erase_of_ne, hinv]
  | handle_recording_stopped r =>
    simp only [Journal.step] at h
    obtain ⟨a, ha, hc⟩ := Option.bind_eq_some.mp h
    obtain ⟨_, ha1, ha2, _⟩ := take_callback_view s a _ ha
    unfold Journal.handle_recording_stopped at hc
    split at hc
    · exact Option.noConfusion hc
    · rename_i hst
      have hs : s.m_state = State.STATE_STOPPING := by
        rw [← ha1]; exact not_not.mp hst
      cases hc
      obtain ⟨hd1, hd2⟩ := destroy_journaler_view a r
      rw [hd1, hd2, ha2, hs]
      refine ⟨fun _ => Or.inr (Or.inl (by decide)), ?_⟩
      intro hinv
      simp at hinv
      simp [List.count_append, List.count_erase_of_ne, hinv]
  | handle_journal_destroyed r =>
    simp only [Journal.step] at h
    obtain ⟨a, ha, hc⟩ := Option.bind_eq_some.mp h
    obtain ⟨_, ha1, ha2, _⟩ := take_callback_view s a _ ha
    unfold Journal.handle_journal_destroyed at hc
    simp only at hc
    split at hc
    · exact Option.noConfusion hc
    · split at hc
      · rename_i hrr
        obtain ⟨_, hc2, hc3⟩ := create_journaler_view _ s1 hc
        simp only at hc3
        have hs : s.m_state = State.STATE_RESTARTING_REPLAY := by
          rw [← ha1]; exact hrr
        rw [hc2, hc3, ha2, hs]
        refine ⟨fun _ => Or.inr (Or.inl (by decide)), ?_⟩
        intro hinv
        simp at hinv
        simp [List.count_append, List.count_erase_of_ne, hinv]
      · rename_i hst hrr
        have hs : s.m_state = State.STATE_CLOSING := by
          rw [← ha1]
          rcases not_not.mp hst with h1 | h1
          · exact h1
          · exact absurd h1 hrr
        cases hc
        simp only [transition_state_state, transition_state_callbacks, ha2, hs]
        refine ⟨fun _ => Or.inr (Or.inl (by decide)), ?_⟩
        intro hinv
        simp at hinv
        simp [List.count_erase_of_ne, hinv]

/-- The invariant `init_callback_consistent` holds in every state reached from a state in
which it holds. -/
theorem run_init_callback_consistent (calls : List Call) :
    ∀ s s1 : Journal, s.init_callback_consistent → Journal.run s calls = some s1 →
      s1.init_callback_consistent := by
  induction calls with
  | nil =>
    intro s s1 hinv h
    simp only [Journal.run, Option.some.injEq] at h
    exact h ▸ hinv
  | cons c rest ih =>
    intro s s1 hinv h
    simp only [Journal.run] at h
    obtain ⟨a, ha, hr⟩ := Option.bind_eq_some.mp h
    exact ih a s1 ((step_view s a c ha).2 hinv) hr

/-- C14 (as stated, refuted): `open`, a successful initialisation, `close` during the replay
and the end of the replay lead to state `FlushingReplay` with a close pending; the completion
of the replay flush then moves the journal from `FlushingReplay` to `Closing`, which is not
an edge of the table. -/
theorem journal_transitions_counterexample :
    (Journal.run Journal.init
        [Call.open 1, Call.handle_initialized 0, Call.close 2,
          Call.handle_replay_complete 0]).map (fun s => (s.m_state, s.m_close_pending)) =
      some (State.STATE_FLUSHING_REPLAY, true) ∧
    (Journal.run Journal.init
        [Call.open 1, Call.handle_initialized 0, Call.close 2,
          Call.handle_replay_complete 0, Call.handle_flushing_replay 0]).map
        (fun s => s.m_state) = some State.STATE_CLOSING ∧
    table_edge State.STATE_FLUSHING_REPLAY State.STATE_CLOSING = false ∧
    State.STATE_CLOSING ≠ State.STATE_FLUSHING_REPLAY := by
  decide

/-- C14 (amended): in every state `s` reached from the constructed journal by a sequence of
calls (`open`, `close`, the callbacks the journal handed out, the replay events), every call
leaves `m_state` unchanged or changes it along an edge of the specification's table or,
only when a close is pending, along `FlushingReplay -> Closing` or
`FlushingRestart -> Closing`. -/
theorem journal_transitions (calls : List Call) (s s1 : Journal) (c : Call)
    (hreach : Journal.run Journal.init calls = some s) (hstep : s.step c = some s1) :
    s1.m_state = s.m_state ∨ table_edge s.m_state s1.m_state = true ∨
      (s.m_close_pending = true ∧ close_pending_edge s.m_state s1.m_state = true) := by
  have hinv : s.init_callback_consistent :=
    run_init_callback_consistent calls Journal.init s
      (by unfold Journal.init_callback_consistent; decide) hreach
  refine (step_view s s1 c hstep).1 ?_
  intro r hc
  subst hc
  simp only [Journal.step] at hstep
  obtain ⟨a, ha, _⟩ := Option.map_eq_some'.mp hstep
  obtain ⟨hmem, _, _, _⟩ := take_callback_view s a _ ha
  have hpos : 0 < s.callbacks.count Callback.handle_initialized :=
    List.count_pos_iff.mpr hmem
  unfold Journal.init_callback_consistent at hinv
  by_contra hne
  rw [if_neg hne] at hinv
  omega

/-- Witness of `journal_transitions`: after `open` and a successful initialisation the
journal is replaying; a failed commit of a replayed entry moves it along the table edge
`Replaying -> FlushingRestart`. -/
theorem journal_transitions_witness :
    Journal.run Journal.init [Call.open 1, Call.handle_initialized 0] =
      some
        { Journal.init with
          m_state := State.STATE_REPLAYING, m_wait_for_state_contexts := [1],
          m_journaler := true, m_journal_replay := true } ∧
    table_edge State.STATE_REPLAYING State.STATE_FLUSHING_RESTART = true ∧
    (State.STATE_FLUSHING_RESTART = State.STATE_REPLAYING ∨
      table_edge State.STATE_REPLAYING State.STATE_FLUSHING_RESTART = true ∨
      (false = true ∧
        close_pending_edge State.STATE_REPLAYING State.STATE_FLUSHING_RESTART = true)) :=
  ⟨by decide, by decide,
    journal_transitions [Call.open 1, Call.handle_initialized 0]
      { Journal.init with
        m_state := State.STATE_REPLAYING, m_wait_for_state_contexts := [1],
        m_journaler := true, m_journal_replay := true }
      (Journal.handle_replay_process_safe
        { Journal.init with
          m_state := State.STATE_REPLAYING, m_wait_for_state_contexts := [1],
          m_journaler := true, m_journal_replay := true } 7 (-5))
      (Call.handle_replay_process_safe 7 (-5)) (by decide) (by decide)⟩

end librbd

/-! ## The image-request work queue -/

namespace librbd

/-- Result of `start_in_flight_op` once the queue is shut down. -/
theorem start_in_flight_op_shutdown (s : AioImageRequestWQ) (c : Nat)
    (h : s.m_shutdown = true) :
    s.start_in_flight_op c = (false, { s with failed := s.failed ++ [(c, -ESHUTDOWN)] }) := by
  unfold AioImageRequestWQ.start_in_flight_op
  rw [if_pos h]

/-- Result of `start_in_flight_op` while the queue is not shut down. -/
theorem start_in_flight_op_admitted (s : AioImageRequestWQ) (c : Nat)
    (h : s.m_shutdown = false) :
    s.start_in_flight_op c = (true, { s with m_in_flight_ops := s.m_in_flight_ops + 1 }) := by
  unfold AioImageRequestWQ.start_in_flight_op
  rw [h]
  simp

/-- C15: with the shutdown flag set, `start_in_flight_op c` fails the completion `c` with
`-ESHUTDOWN`, returns false and changes nothing else (the in-flight count included), and
`aio_read`, `aio_write`, `aio_discard` and `aio_flush` then stop there: the queue, the
queued-writes count and the requests issued inline are unchanged. With the flag not set,
`start_in_flight_op` returns true and only increments the in-flight count by one. -/
theorem start_in_flight_op_admission (s : AioImageRequestWQ) (c : Nat) :
    (s.m_shutdown = true →
      s.start_in_flight_op c = (false, { s with failed := s.failed ++ [(c, -ESHUTDOWN)] }) ∧
      (s.start_in_flight_op c).2.m_in_flight_ops = s.m_in_flight_ops ∧
      s.aio_read c = some { s with failed := s.failed ++ [(c, -ESHUTDOWN)] } ∧
      s.aio_write c = some { s with failed := s.failed ++ [(c, -ESHUTDOWN)] } ∧
      s.aio_discard c = some { s with failed := s.failed ++ [(c, -ESHUTDOWN)] } ∧
      s.aio_flush c = some { s with failed := s.failed ++ [(c, -ESHUTDOWN)] }) ∧
    (s.m_shutdown = false →
      s.start_in_flight_op c = (true, { s with m_in_flight_ops := s.m_in_flight_ops + 1 })) := by
  constructor
  · intro h
    have h1 : s.start_in_flight_op c =
        (false, { s with failed := s.failed ++ [(c, -ESHUTDOWN)] }) :=
      start_in_flight_op_shutdown s c h
    refine ⟨h1, ?_, ?_, ?_, ?_, ?_⟩
    · rw [h1]
    · unfold AioImageRequestWQ.aio_read
      simp only [h1, Bool.not_false, if_true]
    · unfold AioImageRequestWQ.aio_write
      simp only [h1, Bool.not_false, if_true]
    · unfold AioImageRequestWQ.aio_discard
      simp only [h1, Bool.not_false, if_true]
    · unfold AioImageRequestWQ.aio_flush
      simp only [h1, Bool.not_false, if_true]
  · exact start_in_flight_op_admitted s c

/-- Witness of `start_in_flight_op_admission`: a queue that has been shut down refuses a
write, a fresh queue admits it. -/
theorem start_in_flight_op_admission_witness :
    AioImageRequestWQ.aio_write
        { AioImageRequestWQ.init ⟨false, false, none, false, true⟩ with m_shutdown := true } 9 =
      some
        { AioImageRequestWQ.init ⟨false, false, none, false, true⟩ with
          m_shutdown := true, failed := [(9, -ESHUTDOWN)] } ∧
    (AioImageRequestWQ.init ⟨false, false, none, false, true⟩).start_in_flight_op 9 =
      (true,
        { AioImageRequestWQ.init ⟨false, false, none, false, true⟩ with
          m_in_flight_ops := 1 }) :=
  ⟨((start_in_flight_op_admission
      { AioImageRequestWQ.init ⟨false, false, none, false, true⟩ with m_shutdown := true }
      9).1 (by decide)).2.2.2.1,
    (start_in_flight_op_admission (AioImageRequestWQ.init ⟨false, false, none, false, true⟩)
      9).2 (by decide)⟩

/-- Effect of `queue` on a write-class request. -/
theorem queue_write_view (s : AioImageRequestWQ) (req : AioImageRequest)
    (hw : s.is_write_op req = true) :
    (s.queue req).items = s.items ++ [req] ∧
      (s.queue req).m_queued_writes = s.m_queued_writes + 1 ∧
      (s.queue req).issued = s.issued ∧ (s.queue req).failed = s.failed := by
  unfold AioImageRequestWQ.queue
  simp only [hw, if_true, Bool.true_and]
  split <;> exact ⟨rfl, rfl, rfl, rfl⟩

/-- C17: a write or a discard that is admitted (the queue is not shut down) while
`m_write_blockers > 0` is appended to the work queue, the queued-writes count grows by one,
and nothing is issued inline; and when the front of the queue is a write-class request and
`m_write_blockers > 0`, `_void_dequeue` returns nothing and leaves the whole state (the
queue, the queued-writes and the in-progress-writes counts) unchanged. -/
theorem blocked_writes_are_queued (s : AioImageRequestWQ) (c : Nat)
    (hblocked : 0 < s.m_write_blockers) :
    (s.m_shutdown = false →
      (∃ s1, s.aio_write c = some s1 ∧ s1.items = s.items ++ [⟨RequestKind.write, c⟩] ∧
        s1.m_queued_writes = s.m_queued_writes + 1 ∧ s1.issued = s.issued ∧
        s1.failed = s.failed) ∧
      (∃ s1, s.aio_discard c = some s1 ∧
        s1.items = s.items ++ [⟨RequestKind.discard, c⟩] ∧
        s1.m_queued_writes = s.m_queued_writes + 1 ∧ s1.issued = s.issued ∧
        s1.failed = s.failed)) ∧
    (∀ front rest, s.items = front :: rest → s.is_write_op front = true →
      s._void_dequeue = (none, s)) := by
  constructor
  · intro hs
    have h1 : s.start_in_flight_op c =
        (true, { s with m_in_flight_ops := s.m_in_flight_ops + 1 }) :=
      start_in_flight_op_admitted s c hs
    have hb : AioImageRequestWQ.writes_blocked
        { s with m_in_flight_ops := s.m_in_flight_ops + 1 } = true := by
      simp [AioImageRequestWQ.writes_blocked, hblocked]
    have haw : s.aio_write c =
        some (AioImageRequestWQ.queue { s with m_in_flight_ops := s.m_in_flight_ops + 1 }
          ⟨RequestKind.write, c⟩) := by
      unfold AioImageRequestWQ.aio_write
      simp only [h1, hb, Bool.not_true, Bool.or_true, if_true, Bool.false_eq_true, if_false]
    have had : s.aio_discard c =
        some (AioImageRequestWQ.queue { s with m_in_flight_ops := s.m_in_flight_ops + 1 }
          ⟨RequestKind.discard, c⟩) := by
      unfold AioImageRequestWQ.aio_discard
      simp only [h1, hb, Bool.not_true, Bool.or_true, if_true, Bool.false_eq_true, if_false]
    exact ⟨⟨_, haw, queue_write_view _ _ rfl⟩, ⟨_, had, queue_write_view _ _ rfl⟩⟩
  · intro front rest hitems hw
    unfold AioImageRequestWQ._void_dequeue
    rw [hitems]
    simp only
    split
    · rfl
    · simp [hw, hblocked]

/-- Witness of `blocked_writes_are_queued`: after `block_writes`, a write is queued, and the
worker cannot dequeue it. -/
theorem blocked_writes_are_queued_witness :
    (AioImageRequestWQ.aio_write
        ((AioImageRequestWQ.init ⟨false, false, none, false, true⟩).block_writes 5) 3).map
        (fun s => (s.items, s.m_queued_writes, s.issued)) =
      some ([⟨RequestKind.write, 3⟩], 1, []) ∧
    AioImageRequestWQ._void_dequeue
        { AioImageRequestWQ.init ⟨false, false, none, false, true⟩ with
          m_write_blockers := 1, m_queued_writes := 1, m_in_flight_ops := 1,
          items := [⟨RequestKind.write, 3⟩], flushes := [FlushCallback.context 5] } =
      (none,
        { AioImageRequestWQ.init ⟨false, false, none, false, true⟩ with
          m_write_blockers := 1, m_queued_writes := 1, m_in_flight_ops := 1,
          items := [⟨RequestKind.write, 3⟩], flushes := [FlushCallback.context 5] }) :=
  ⟨by decide,
    (blocked_writes_are_queued
      { AioImageRequestWQ.init ⟨false, false, none, false, true⟩ with
        m_write_blockers := 1, m_queued_writes := 1, m_in_flight_ops := 1,
        items := [⟨RequestKind.write, 3⟩], flushes := [FlushCallback.context 5] }
      3 (by decide)).2 ⟨RequestKind.write, 3⟩ [] rfl rfl⟩

/-- After a `shut_down(cb)` no call shuts the queue down again: the in-flight count only
falls, and `cb` has been handed to the image flush exactly when the count is 0. -/
theorem run_in_flight_after_shut_down (cb : Context) (F : List FlushCallback)
    (calls : List InFlightCall) :
    (∀ c ∈ calls, c.is_shut_down = false) →
    ∀ (s : AioImageRequestWQ) (n : Nat), s.m_shutdown = true → s.m_in_flight_ops = n →
      (0 < n → s.m_on_shutdown = some cb ∧ s.flushes = F) →
      (n = 0 → s.flushes = F ++ [FlushCallback.context cb]) →
      AioImageRequestWQ.finishes_matched n s calls = true →
      ∃ s1, AioImageRequestWQ.run_in_flight s calls = some s1 ∧ s1.m_shutdown = true ∧
        s1.flushes = F ++ (if s1.m_in_flight_ops = 0 then [FlushCallback.context cb] else []) := by
  induction calls with
  | nil =>
    intro _ s n hsd hn hpos hzero _
    refine ⟨s, rfl, hsd, ?_⟩
    by_cases h0 : s.m_in_flight_ops = 0
    · rw [if_pos h0]; exact hzero (hn ▸ h0)
    · rw [if_neg h0, List.append_nil]; exact (hpos (by omega)).2
  | cons c rest ih =>
    intro hno s n hsd hn hpos hzero hm
    have hrest : ∀ c ∈ rest, c.is_shut_down = false :=
      fun c hc => hno c (List.mem_cons_of_mem _ hc)
    cases c with
    | start c0 =>
      have h1 : s.start_in_flight_op c0 =
          (false, { s with failed := s.failed ++ [(c0, -ESHUTDOWN)] }) :=
        start_in_flight_op_shutdown s c0 hsd
      simp only [AioImageRequestWQ.finishes_matched, h1, Bool.false_eq_true, if_false] at hm
      simp only [AioImageRequestWQ.run_in_flight, h1]
      exact ih hrest _ n hsd hn hpos hzero hm
    | finish =>
      simp only [AioImageRequestWQ.finishes_matched, Bool.and_eq_true, decide_eq_true_eq] at hm
      obtain ⟨hn0, hm2⟩ := hm
      obtain ⟨hcb, hF⟩ := hpos hn0
      have hne : ¬ s.m_in_flight_ops = 0 := by omega
      by_cases h1 : s.m_in_flight_ops - 1 > 0
      · have hf : s.finish_in_flight_op =
            some { s with m_in_flight_ops := s.m_in_flight_ops - 1 } := by
          unfold AioImageRequestWQ.finish_in_flight_op
          rw [if_neg hne]
          simp only
          rw [if_pos (Or.inl h1)]
        rw [hf] at hm2
        simp only [AioImageRequestWQ.run_in_flight, hf, Option.some_bind]
        exact ih hrest _ (n - 1) hsd (by simp only; omega) (fun _ => ⟨hcb, hF⟩)
          (fun h0 => by omega) hm2
      · have hf : s.finish_in_flight_op =
            some { s with
              m_in_flight_ops := s.m_in_flight_ops - 1
              flushes := s.flushes ++ [FlushCallback.context cb] } := by
          unfold AioImageRequestWQ.finish_in_flight_op
          rw [if_neg hne]
          simp only
          rw [if_neg (by simp only [hsd, not_true_eq_false, or_false]; exact h1)]
          simp only [hcb]
        rw [hf] at hm2
        simp only [AioImageRequestWQ.run_in_flight, hf, Option.some_bind]
        exact ih hrest _ (n - 1) hsd (by simp only; omega) (fun h0 => by omega)
          (fun _ => by simp only [hF]) hm2
    | shut_down on_shutdown =>
      have := hno (InFlightCall.shut_down on_shutdown) (List.mem_cons_self _ _)
      simp [InFlightCall.is_shut_down] at this

/-- Before the `shut_down(cb)` of a sequence nothing is handed to the image flush; from the
`shut_down` on, `run_in_flight_after_shut_down` applies. -/
theorem run_in_flight_one_shut_down (cb : Context) (post : List InFlightCall)
    (hpost : ∀ c ∈ post, c.is_shut_down = false) (pre : List InFlightCall) :
    (∀ c ∈ pre, c.is_shut_down = false) →
    ∀ (s : AioImageRequestWQ) (n : Nat), s.m_shutdown = false → s.m_in_flight_ops = n →
      AioImageRequestWQ.finishes_matched n s (pre ++ InFlightCall.shut_down cb :: post) = true →
      ∃ s1, AioImageRequestWQ.run_in_flight s (pre ++ InFlightCall.shut_down cb :: post) =
          some s1 ∧
        s1.flushes =
          s.flushes ++ (if s1.m_in_flight_ops = 0 then [FlushCallback.context cb] else []) := by
  induction pre with
  | nil =>
    intro _ s n hsd hn hm
    simp only [List.nil_append] at hm ⊢
    by_cases h0 : s.m_in_flight_ops > 0
    · have hs : s.shut_down cb =
          some { s with m_shutdown := true, m_on_shutdown := some cb } := by
        unfold AioImageRequestWQ.shut_down
        simp only [hsd, Bool.false_eq_true, if_false]
        rw [if_pos h0]
      simp only [AioImageRequestWQ.finishes_matched, hs] at hm
      simp only [AioImageRequestWQ.run_in_flight, hs, Option.some_bind]
      obtain ⟨s1, h1, _, h3⟩ := run_in_flight_after_shut_down cb s.flushes post hpost
        { s with m_shutdown := true, m_on_shutdown := some cb } n rfl
        hn (fun _ => ⟨rfl, rfl⟩) (fun hz => by omega) hm
      exact ⟨s1, h1, h3⟩
    · have hs : s.shut_down cb =
          some
            { s with
              m_shutdown := true
              flushes := s.flushes ++ [FlushCallback.context cb] } := by
        unfold AioImageRequestWQ.shut_down
        simp only [hsd, Bool.false_eq_true, if_false]
        rw [if_neg h0]
      simp only [AioImageRequestWQ.finishes_matched, hs] at hm
      simp only [AioImageRequestWQ.run_in_flight, hs, Option.some_bind]
      obtain ⟨s1, h1, _, h3⟩ := run_in_flight_after_shut_down cb s.flushes post hpost
        { s with m_shutdown := true, flushes := s.flushes ++ [FlushCallback.context cb] } n rfl
        hn (fun hz => by omega) (fun _ => rfl) hm
      exact ⟨s1, h1, h3⟩
  | cons c rest ih =>
    intro hno s n hsd hn hm
    have hrest : ∀ c ∈ rest, c.is_shut_down = false :=
      fun c hc => hno c (List.mem_cons_of_mem _ hc)
    cases c with
    | start c0 =>
      have h1 : s.start_in_flight_op c0 =
          (true, { s with m_in_flight_ops := s.m_in_flight_ops + 1 }) :=
        start_in_flight_op_admitted s c0 hsd
      simp only [List.cons_append, AioImageRequestWQ.finishes_matched, h1, if_true] at hm
      simp only [List.cons_append, AioImageRequestWQ.run_in_flight, h1]
      exact ih hrest _ (n + 1) hsd (by simp only; omega) hm
    | finish =>
      simp only [List.cons_append, AioImageRequestWQ.finishes_matched, Bool.and_eq_true,
        decide_eq_true_eq] at hm
      obtain ⟨hn0, hm2⟩ := hm
      have hne : ¬ s.m_in_flight_ops = 0 := by omega
      have hf : s.finish_in_flight_op =
          some { s with m_in_flight_ops := s.m_in_flight_ops - 1 } := by
        unfold AioImageRequestWQ.finish_in_flight_op
        rw [if_neg hne]
        simp only
        rw [if_pos (Or.inr (by simp [hsd]))]
      rw [hf] at hm2
      simp only [List.cons_append, AioImageRequestWQ.run_in_flight, hf, Option.some_bind]
      exact ih hrest _ (n - 1) hsd (by simp only; omega) hm2
    | shut_down on_shutdown =>
      have := hno (InFlightCall.shut_down on_shutdown) (List.mem_cons_self _ _)
      simp [InFlightCall.is_shut_down] at this

/-- C16: in a sequence of `start_in_flight_op` / `finish_in_flight_op` calls on a fresh queue
that contains one `shut_down(cb)` and in which every finish matches an earlier successful
start, no call fails (in particular `assert(m_on_shutdown != nullptr)` holds), and after the
sequence the callbacks handed to the image flush are `[cb]` if the in-flight count is 0 and
none if it is still positive. As this holds for every continuation `post` of the sequence,
`cb` is handed over exactly once: by `shut_down` itself when the count is 0 then, otherwise
by the `finish_in_flight_op` that brings the count to 0, and never while it is positive. -/
theorem shut_down_flushes_once (image_ctx : ImageCtx) (cb : Context)
    (pre post : List InFlightCall)
    (hpre : ∀ c ∈ pre, c.is_shut_down = false) (hpost : ∀ c ∈ post, c.is_shut_down = false)
    (hmatched : AioImageRequestWQ.finishes_matched 0 (AioImageRequestWQ.init image_ctx)
      (pre ++ InFlightCall.shut_down cb :: post) = true) :
    ∃ s1,
      AioImageRequestWQ.run_in_flight (AioImageRequestWQ.init image_ctx)
          (pre ++ InFlightCall.shut_down cb :: post) = some s1 ∧
        s1.flushes = (if s1.m_in_flight_ops = 0 then [FlushCallback.context cb] else []) := by
  obtain ⟨s1, h1, h2⟩ := run_in_flight_one_shut_down cb post hpost pre hpre
    (AioImageRequestWQ.init image_ctx) 0 rfl rfl hmatched
  exact ⟨s1, h1, by simpa [AioImageRequestWQ.init] using h2⟩

/-- Witness of `shut_down_flushes_once`: two operations are in flight when the queue is shut
down; after the first finish nothing has been flushed, after the second `[cb]`. -/
theorem shut_down_flushes_once_witness :
    (AioImageRequestWQ.run_in_flight (AioImageRequestWQ.init ⟨false, false, none, false, true⟩)
        ([InFlightCall.start 1, InFlightCall.start 2] ++
          InFlightCall.shut_down 7 :: [InFlightCall.finish])).map
        (fun s => (s.m_in_flight_ops, s.flushes)) = some (1, []) ∧
    ∃ s1,
      AioImageRequestWQ.run_in_flight (AioImageRequestWQ.init ⟨false, false, none, false, true⟩)
          ([InFlightCall.start 1, InFlightCall.start 2] ++
            InFlightCall.shut_down 7 :: [InFlightCall.finish, InFlightCall.finish]) =
        some s1 ∧
      s1.flushes = (if s1.m_in_flight_ops = 0 then [FlushCallback.context 7] else []) :=
  ⟨by decide,
    shut_down_flushes_once ⟨false, false, none, false, true⟩ 7
      [InFlightCall.start 1, InFlightCall.start 2] [InFlightCall.finish, InFlightCall.finish]
      (by decide) (by decide) (by decide)⟩

theorem same_blocked_writes_trans (s s1 s2 : AioImageRequestWQ)
    (h1 : s.same_blocked_writes s1) (h2 : s1.same_blocked_writes s2) :
    s.same_blocked_writes s2 :=
  ⟨h2.1.trans h1.1, h2.2.1.trans h1.2.1, h2.2.2.trans h1.2.2⟩

theorem start_in_flight_op_same (s : AioImageRequestWQ) (c : Nat) :
    s.same_blocked_writes (s.start_in_flight_op c).2 := by
  unfold AioImageRequestWQ.start_in_flight_op
  split <;> exact ⟨rfl, rfl, rfl⟩

theorem finish_in_flight_op_same (s s1 : AioImageRequestWQ)
    (h : s.finish_in_flight_op = some s1) :
    s.same_blocked_writes s1 ∧ s1.m_in_progress_writes = s.m_in_progress_writes := by
  unfold AioImageRequestWQ.finish_in_flight_op at h
  split at h
  · exact Option.noConfusion h
  · simp only at h
    split at h
    · cases h
      exact ⟨⟨rfl, rfl, rfl⟩, rfl⟩
    · split at h
      · exact Option.noConfusion h
      · cases h
        refine ⟨⟨rfl, rfl, ?_⟩, rfl⟩
        simp [AioImageRequestWQ.blocked_writes_flushes, List.count_append]

theorem queue_same (s : AioImageRequestWQ) (req : AioImageRequest) :
    s.same_blocked_writes (s.queue req) := by
  unfold AioImageRequestWQ.queue
  simp only
  split <;> split <;> exact ⟨rfl, rfl, rfl⟩

theorem void_dequeue_same (s : AioImageRequestWQ) :
    s.same_blocked_writes s._void_dequeue.2 := by
  unfold AioImageRequestWQ._void_dequeue
  split
  · exact ⟨rfl, rfl, rfl⟩
  · split
    · exact ⟨rfl, rfl, rfl⟩
    · split
      · exact ⟨rfl, rfl, rfl⟩
      · simp only
        split <;> split <;> exact ⟨rfl, rfl, rfl⟩

/-- Effect of `process` on the blocker callbacks: none is completed, and one
`C_BlockedWrites` is handed to the image flush exactly when the request is write-class, its
completion brings the in-progress-writes count to 0 and blocker callbacks are queued. -/
theorem process_blocked_writes (s s1 : AioImageRequestWQ) (req : AioImageRequest)
    (h : s.process req = some s1) :
    s1.completed = s.completed ∧
      s1.m_write_blocker_contexts = s.m_write_blocker_contexts ∧
      s1.blocked_writes_flushes = s.blocked_writes_flushes +
        (if s.is_write_op req = true ∧ s1.m_in_progress_writes = 0 ∧
            s.m_write_blocker_contexts ≠ [] then 1 else 0) := by
  unfold AioImageRequestWQ.process at h
  simp only at h
  split at h
  · rename_i hw
    have hw1 : s.is_write_op req = true := hw
    split at h
    · exact Option.noConfusion h
    · split at h
      · exact Option.noConfusion h
      · split at h
        · rename_i hdrop
          obtain ⟨⟨h1, h2, h3⟩, h4⟩ := finish_in_flight_op_same _ s1 h
          simp only at h1 h2 h4
          refine ⟨h1, h2, ?_⟩
          have hne : s.m_write_blocker_contexts ≠ [] := by
            intro he
            apply hdrop.2
            simp [he]
          rw [h3, if_pos ⟨hw1, by rw [h4]; exact hdrop.1, hne⟩]
          simp [AioImageRequestWQ.blocked_writes_flushes, List.count_append]
        · rename_i hdrop
          obtain ⟨⟨h1, h2, h3⟩, h4⟩ := finish_in_flight_op_same _ s1 h
          simp only at h1 h2 h4
          refine ⟨h1, h2, ?_⟩
          have hno : ¬ (s.is_write_op req = true ∧ s1.m_in_progress_writes = 0 ∧
              s.m_write_blocker_contexts ≠ []) := by
            rintro ⟨_, h0, hne⟩
            apply hdrop
            refine ⟨by rw [← h4]; exact h0, ?_⟩
            simpa using hne
          rw [h3, if_neg hno]
          rfl
  · rename_i hw
    obtain ⟨⟨h1, h2, h3⟩, _⟩ := finish_in_flight_op_same _ s1 h
    refine ⟨h1, h2, ?_⟩
    rw [h3, if_neg (fun hc => hw hc.1)]
    rfl

/-- One call at a time: `block_writes(cb)` increments `m_write_blockers` by one and hands
`cb` to the image
flush at once if and only if no write is in progress and no blocker callback is queued;
otherwise it appends `cb` to the blocker list; it completes nothing.
`handle_blocked_writes` completes the queued callbacks, each once, with 0, in the order they
were queued, and empties the list. The `C_BlockedWrites` that runs it is handed to the image
flush only by `process`, exactly when a write-class request brings the in-progress-writes
count to 0 with callbacks queued; `process` itself and every other operation
(`start_in_flight_op`, `finish_in_flight_op`, `queue`, `_void_dequeue`, `unblock_writes`,
`shut_down`) complete no context. -/
theorem block_writes_drain (s : AioImageRequestWQ) (on_blocked : Context)
    (req : AioImageRequest) (r : Int) (c : Nat) :
    ((s.block_writes on_blocked).m_write_blockers = s.m_write_blockers + 1 ∧
      (s.block_writes on_blocked).completed = s.completed ∧
      (s.block_writes on_blocked).blocked_writes_flushes = s.blocked_writes_flushes ∧
      (s.m_in_progress_writes = 0 ∧ s.m_write_blocker_contexts = [] →
        (s.block_writes on_blocked).flushes = s.flushes ++ [FlushCallback.context on_blocked] ∧
        (s.block_writes on_blocked).m_write_blocker_contexts = []) ∧
      (¬ (s.m_in_progress_writes = 0 ∧ s.m_write_blocker_contexts = []) →
        (s.block_writes on_blocked).flushes = s.flushes ∧
        (s.block_writes on_blocked).m_write_blocker_contexts =
          s.m_write_blocker_contexts ++ [on_blocked])) ∧
    ((s.handle_blocked_writes r).completed =
        s.completed ++ s.m_write_blocker_contexts.map (fun ctx => (ctx, (0 : Int))) ∧
      (s.handle_blocked_writes r).m_write_blocker_contexts = []) ∧
    (∀ s1, s.process req = some s1 →
      s1.completed = s.completed ∧
      s1.m_write_blocker_contexts = s.m_write_blocker_contexts ∧
      s1.blocked_writes_flushes = s.blocked_writes_flushes +
        (if s.is_write_op req = true ∧ s1.m_in_progress_writes = 0 ∧
            s.m_write_blocker_contexts ≠ [] then 1 else 0)) ∧
    (s.same_blocked_writes (s.start_in_flight_op c).2 ∧
      (∀ s1, s.finish_in_flight_op = some s1 → s.same_blocked_writes s1) ∧
      s.same_blocked_writes (s.queue req) ∧
      s.same_blocked_writes s._void_dequeue.2 ∧
      (∀ s1, s.unblock_writes = some s1 → s.same_blocked_writes s1) ∧
      (∀ s1, s.shut_down on_blocked = some s1 → s.same_blocked_writes s1)) := by
  refine ⟨⟨?_, ?_, ?_, ?_, ?_⟩, ⟨rfl, rfl⟩, fun s1 h => process_blocked_writes s s1 req h,
    start_in_flight_op_same s c, fun s1 h => (finish_in_flight_op_same s s1 h).1,
    queue_same s req, void_dequeue_same s, ?_, ?_⟩
  · unfold AioImageRequestWQ.block_writes
    simp only
    split <;> rfl
  · unfold AioImageRequestWQ.block_writes
    simp only
    split <;> rfl
  · unfold AioImageRequestWQ.block_writes
    simp only
    split
    · rfl
    · simp [AioImageRequestWQ.blocked_writes_flushes, List.count_append]
  · rintro ⟨h1, h2⟩
    unfold AioImageRequestWQ.block_writes
    simp [h1, h2]
  · intro h
    have hc : (!s.m_write_blocker_contexts.isEmpty ||
        decide (s.m_in_progress_writes > 0)) = true := by
      by_cases h1 : s.m_in_progress_writes = 0
      · have h2 : s.m_write_blocker_contexts ≠ [] := fun h2 => h ⟨h1, h2⟩
        cases hl : s.m_write_blocker_contexts with
        | nil => exact absurd hl h2
        | cons a l => rfl
      · have : s.m_in_progress_writes > 0 := by omega
        simp [this]
    unfold AioImageRequestWQ.block_writes
    simp only [hc, if_true, and_self]
  · intro s1 h
    unfold AioImageRequestWQ.unblock_writes at h
    split at h
    · exact Option.noConfusion h
    · simp only at h
      split at h <;> cases h <;> exact ⟨rfl, rfl, rfl⟩
  · intro s1 h
    unfold AioImageRequestWQ.shut_down at h
    split at h
    · exact Option.noConfusion h
    · simp only at h
      split at h
      · cases h
        exact ⟨rfl, rfl, rfl⟩
      · cases h
        refine ⟨rfl, rfl, ?_⟩
        simp [AioImageRequestWQ.blocked_writes_flushes, List.count_append]

/-- Witness of `block_writes_drain`: with one write in progress `block_writes 5` queues its
callback; `process` of that write hands a `C_BlockedWrites` to the image flush, and
`handle_blocked_writes` completes callback 5 with 0. -/
theorem block_writes_drain_witness :
    (AioImageRequestWQ.block_writes
        { AioImageRequestWQ.init ⟨false, false, none, false, true⟩ with
          m_in_progress_writes := 1, m_queued_writes := 1, m_in_flight_ops := 1 }
        5).m_write_blocker_contexts = [5] ∧
    ((AioImageRequestWQ.process
        { AioImageRequestWQ.init ⟨false, false, none, false, true⟩ with
          m_write_blockers := 1, m_in_progress_writes := 1, m_queued_writes := 1,
          m_in_flight_ops := 1, m_write_blocker_contexts := [5] }
        ⟨RequestKind.write, 3⟩).map
        (fun s => (s.flushes, s.completed, (s.handle_blocked_writes 0).completed))) =
      some ([FlushCallback.C_BlockedWrites], [], [(5, 0)]) :=
  ⟨((block_writes_drain
      { AioImageRequestWQ.init ⟨false, false, none, false, true⟩ with
        m_in_progress_writes := 1, m_queued_writes := 1, m_in_flight_ops := 1 }
      5 ⟨RequestKind.write, 3⟩ 0 0).1.2.2.2.2 (by decide)).2, by decide⟩

end librbd

/-! ## Futures -/

namespace journal

/-- The tests `FlushChain`, `SafePreservesError` and `ConsistentPreservesError` of
test/journal/test_FutureImpl.cc hold of the model. -/
theorem future_tests :
    ((chain_run (chain_create 3) [(2, 0)]).map FutureImpl.is_complete = [false, false, false] ∧
      (chain_run (chain_create 3) [(2, 0), (0, 0)]).map FutureImpl.is_complete =
        [true, false, false] ∧
      (chain_run (chain_create 3) [(2, 0), (0, 0), (1, - EIO)]).map
          (fun f => (f.is_complete, f.get_return_value)) =
        [(true, 0), (true, - EIO), (true, - EIO)]) ∧
    (chain_run (chain_create 2) [(0, - EIO), (1, -EEXIST)]).map
        (fun f => (f.is_complete, f.get_return_value)) = [(true, - EIO), (true, - EIO)] ∧
    (chain_run (chain_create 2) [(1, -EEXIST), (0, - EIO)]).map
        (fun f => (f.is_complete, f.get_return_value)) = [(true, - EIO), (true, -EEXIST)] := by
  decide

/-- C19: in a chain `f1 -> f2`, for non-zero errors `e1` and `e2`: if `f1.safe(e1)` comes
before `f2.safe(e2)` then `f2` is complete with return value `e1`; if `f2.safe(e2)` comes
first then `f2` is complete with return value `e2` and `f1` has return value `e1`. In both
orders the error `f2` observed first is the one it keeps. -/
theorem safe_preserves_first_error (e1 e2 : Int) (h1 : e1 ≠ 0) (h2 : e2 ≠ 0) :
    (chain_run (chain_create 2) [(0, e1), (1, e2)]).map
        (fun f => (f.is_complete, f.get_return_value)) = [(true, e1), (true, e1)] ∧
    (chain_run (chain_create 2) [(0, e1)]).map
        (fun f => (f.is_complete, f.get_return_value)) = [(true, e1), (false, e1)] ∧
    (chain_run (chain_create 2) [(1, e2), (0, e1)]).map
        (fun f => (f.is_complete, f.get_return_value)) = [(true, e1), (true, e2)] ∧
    (chain_run (chain_create 2) [(1, e2)]).map
        (fun f => (f.is_complete, f.get_return_value)) = [(false, 0), (false, e2)] := by
  refine ⟨?_, ?_, ?_, ?_⟩ <;>
    simp [chain_run, chain_create, chain_safe, chain_consistent, FutureImpl.safe,
      FutureImpl.consistent, FutureImpl.finish, FutureImpl.init, FutureImpl.is_complete,
      FutureImpl.get_return_value, h1, h2]

/-- Witness of `safe_preserves_first_error`: the errors of the tests, `-EIO` and
`-EEXIST`. -/
theorem safe_preserves_first_error_witness :
    (chain_run (chain_create 2) [(1, -EEXIST), (0, - EIO)]).map
        (fun f => (f.is_complete, f.get_return_value)) = [(true, - EIO), (true, -EEXIST)] :=
  (safe_preserves_first_error (- EIO) (-EEXIST) (by decide) (by decide)).2.2.1

theorem consistent_flags (f : FutureImpl) (r : Int) :
    (f.consistent r).m_safe = f.m_safe ∧ (f.consistent r).m_consistent = true := by
  unfold FutureImpl.consistent
  simp only
  split <;> exact ⟨rfl, rfl⟩

theorem safe_flags (f : FutureImpl) (r : Int) :
    (f.safe r).m_safe = true ∧ (f.safe r).m_consistent = f.m_consistent := by
  unfold FutureImpl.safe
  simp only
  split <;> exact ⟨rfl, rfl⟩

theorem chain_consistent_ok (fs : List FutureImpl) :
    ∀ (p : Bool) (r : Int), chain_ok p fs → chain_ok true (chain_consistent r fs) := by
  induction fs with
  | nil => intro p r _; exact trivial
  | cons f rest ih =>
    intro p r h
    obtain ⟨h1, h2⟩ := consistent_flags f r
    unfold chain_consistent
    split
    · rename_i hc
      refine ⟨h2, ?_⟩
      rw [hc]
      exact ih _ _ h.2
    · rename_i hc
      refine ⟨h2, ?_⟩
      have hcf : (f.consistent r).is_complete = false := by simpa using hc
      have hsf : f.m_safe = false := by
        unfold FutureImpl.is_complete at hcf
        rw [h1, h2] at hcf
        simpa using hcf
      have : f.is_complete = false := by
        unfold FutureImpl.is_complete
        rw [hsf]
        rfl
      rw [hcf, ← this]
      exact h.2

theorem chain_safe_ok (fs : List FutureImpl) :
    ∀ (p : Bool) (k : Nat) (r : Int), chain_ok p fs → chain_ok p (chain_safe k r fs) := by
  induction fs with
  | nil => intro p k r _; cases k <;> exact trivial
  | cons f rest ih =>
    intro p k r h
    cases k with
    | zero =>
      obtain ⟨h1, h2⟩ := safe_flags f r
      unfold chain_safe
      split
      · rename_i hc
        refine ⟨h2.trans h.1, ?_⟩
        rw [hc]
        exact chain_consistent_ok rest _ _ h.2
      · rename_i hc
        refine ⟨h2.trans h.1, ?_⟩
        have hcf : (f.safe r).is_complete = false := by simpa using hc
        have hsf : f.m_consistent = false := by
          unfold FutureImpl.is_complete at hcf
          rw [h1, h2] at hcf
          simpa using hcf
        have : f.is_complete = false := by
          unfold FutureImpl.is_complete
          rw [hsf]
          simp
        rw [hcf, ← this]
        exact h.2
    | succ k =>
      exact ⟨h.1, ih _ k r h.2⟩

theorem chain_consistent_safe_flags (fs : List FutureImpl) :
    ∀ r : Int, (chain_consistent r fs).map (fun f => f.m_safe) = fs.map (fun f => f.m_safe) := by
  induction fs with
  | nil => intro r; rfl
  | cons f rest ih =>
    intro r
    unfold chain_consistent
    split
    · simp only [List.map_cons, ih, (consistent_flags f r).1]
    · simp only [List.map_cons, (consistent_flags f r).1]

theorem chain_safe_safe_flags (fs : List FutureImpl) :
    ∀ (k : Nat) (r : Int),
      (chain_safe k r fs).map (fun f => f.m_safe) = (fs.map (fun f => f.m_safe)).set k true := by
  induction fs with
  | nil => intro k r; cases k <;> rfl
  | cons f rest ih =>
    intro k r
    cases k with
    | zero =>
      unfold chain_safe
      split
      · simp only [List.map_cons, chain_consistent_safe_flags, (safe_flags f r).1,
          List.set_cons_zero]
      · simp only [List.map_cons, (safe_flags f r).1, List.set_cons_zero]
    | succ k =>
      simp only [chain_safe, List.map_cons, ih, List.set_cons_succ]

/-- The safe flags after a run: a future is safe iff it was safe before or `safe` was called
on it. -/
theorem chain_run_safe_flags (calls : List (Nat × Int)) :
    ∀ (fs : List FutureImpl) (j : Nat),
      ((chain_run fs calls).map (fun f => f.m_safe))[j]? = some true ↔
        (fs.map (fun f => f.m_safe))[j]? = some true ∨
          (j < fs.length ∧ j ∈ calls.map Prod.fst) := by
  induction calls with
  | nil => intro fs j; simp [chain_run]
  | cons c rest ih =>
    intro fs j
    obtain ⟨k, r⟩ := c
    have hlen : (chain_safe k r fs).length = fs.length := by
      have := congrArg List.length (chain_safe_safe_flags fs k r)
      simpa using this
    simp only [chain_run, ih, chain_safe_safe_flags, hlen, List.map_cons, List.mem_cons]
    rw [List.getElem?_set]
    by_cases hkj : k = j
    · subst hkj
      simp only [List.length_map, if_true]
      constructor
      · rintro (h | h)
        · split at h
          · rename_i hlt
            exact Or.inr ⟨hlt, Or.inl trivial⟩
          · exact Option.noConfusion h
        · exact Or.inr ⟨h.1, Or.inr h.2⟩
      · rintro (h | h)
        · left
          have hlt : k < fs.length := by
            by_contra hge
            rw [List.getElem?_eq_none (by simpa using hge)] at h
            exact Option.noConfusion h
          rw [if_pos hlt]
        · left
          rw [if_pos h.1]
    · simp only [if_neg hkj]
      constructor
      · rintro (h | h)
        · exact Or.inl h
        · exact Or.inr ⟨h.1, Or.inr h.2⟩
      · rintro (h | h)
        · exact Or.inl h
        · rcases h.2 with h2 | h2
          · exact absurd h2.symm hkj
          · exact Or.inr ⟨h.1, h2⟩

/-- In a chain that satisfies the invariant, the last future is complete iff the chain's
predecessor is complete and every future of the chain is safe. -/
theorem chain_ok_last_complete (fs : List FutureImpl) :
    ∀ (p : Bool) (last : FutureImpl), chain_ok p fs → fs.getLast? = some last →
      last.is_complete = (p && fs.all (fun f => f.m_safe)) := by
  induction fs with
  | nil => intro p last _ h; simp at h
  | cons f rest ih =>
    intro p last hok hl
    cases rest with
    | nil =>
      simp only [List.getLast?_singleton, Option.some.injEq] at hl
      subst hl
      unfold FutureImpl.is_complete
      rw [hok.1]
      simp [Bool.and_comm]
    | cons g rest2 =>
      rw [List.getLast?_cons_cons] at hl
      rw [ih _ last hok.2 hl]
      unfold FutureImpl.is_complete
      rw [hok.1, List.all_cons (l := g :: rest2)]
      cases f.m_safe <;> cases p <;> simp

theorem wait_ok_safe (cb : Context) (f : FutureImpl) (r : Int) (h : f.wait_ok cb) :
    (f.safe r).wait_ok cb := by
  obtain ⟨hs, hc⟩ := f
  rename_i ret ctxs done
  unfold FutureImpl.wait_ok FutureImpl.is_complete at h ⊢
  unfold FutureImpl.safe FutureImpl.finish
  cases hs <;> cases hc <;> simp_all

theorem wait_ok_consistent (cb : Context) (f : FutureImpl) (r : Int) (h : f.wait_ok cb) :
    (f.consistent r).wait_ok cb := by
  obtain ⟨hs, hc⟩ := f
  rename_i ret ctxs done
  unfold FutureImpl.wait_ok FutureImpl.is_complete at h ⊢
  unfold FutureImpl.consistent FutureImpl.finish
  cases hs <;> cases hc <;> simp_all

theorem chain_consistent_last (cb : Context) (fs : List FutureImpl) :
    ∀ (r : Int) (last : FutureImpl), fs.getLast? = some last → last.wait_ok cb →
      ∃ last1, (chain_consistent r fs).getLast? = some last1 ∧ last1.wait_ok cb := by
  induction fs with
  | nil => intro r last h _; simp at h
  | cons f rest ih =>
    intro r last hl hw
    cases rest with
    | nil =>
      simp only [List.getLast?_singleton, Option.some.injEq] at hl
      subst hl
      refine ⟨f.consistent r, ?_, wait_ok_consistent cb f r hw⟩
      unfold chain_consistent
      split <;> simp [chain_consistent]
    | cons g rest2 =>
      rw [List.getLast?_cons_cons] at hl
      unfold chain_consistent
      split
      · obtain ⟨last1, h1, h2⟩ := ih (f.consistent r).m_return_value last hl hw
        refine ⟨last1, ?_, h2⟩
        cases hcc : chain_consistent (f.consistent r).m_return_value (g :: rest2) with
        | nil => rw [hcc] at h1; simp at h1
        | cons a l => rw [List.getLast?_cons_cons, ← hcc]; exact h1
      · exact ⟨last, by rw [List.getLast?_cons_cons]; exact hl, hw⟩

theorem chain_safe_last (cb : Context) (fs : List FutureImpl) :
    ∀ (k : Nat) (r : Int) (last : FutureImpl), fs.getLast? = some last → last.wait_ok cb →
      ∃ last1, (chain_safe k r fs).getLast? = some last1 ∧ last1.wait_ok cb := by
  induction fs with
  | nil => intro k r last h _; simp at h
  | cons f rest ih =>
    intro k r last hl hw
    cases rest with
    | nil =>
      simp only [List.getLast?_singleton, Option.some.injEq] at hl
      subst hl
      cases k with
      | zero =>
        refine ⟨f.safe r, ?_, wait_ok_safe cb f r hw⟩
        unfold chain_safe
        split <;> simp [chain_consistent]
      | succ k => exact ⟨f, by simp [chain_safe], hw⟩
    | cons g rest2 =>
      rw [List.getLast?_cons_cons] at hl
      cases k with
      | zero =>
        unfold chain_safe
        split
        · obtain ⟨last1, h1, h2⟩ :=
            chain_consistent_last cb (g :: rest2) (f.safe r).m_return_value last hl hw
          refine ⟨last1, ?_, h2⟩
          cases hcc : chain_consistent (f.safe r).m_return_value (g :: rest2) with
          | nil => rw [hcc] at h1; simp at h1
          | cons a l => rw [List.getLast?_cons_cons, ← hcc]; exact h1
        · exact ⟨last, by rw [List.getLast?_cons_cons]; exact hl, hw⟩
      | succ k =>
        obtain ⟨last1, h1, h2⟩ := ih k r last hl hw
        refine ⟨last1, ?_, h2⟩
        simp only [chain_safe]
        cases hcc : chain_safe k r (g :: rest2) with
        | nil => rw [hcc] at h1; simp at h1
        | cons a l => rw [List.getLast?_cons_cons, ← hcc]; exact h1

/-- Along a run the chain invariant, the length of the chain and the state of the `wait`
callback of the last future are kept. -/
theorem chain_run_view (cb : Context) (calls : List (Nat × Int)) :
    ∀ (fs : List FutureImpl) (last : FutureImpl), chain_ok true fs →
      fs.getLast? = some last → last.wait_ok cb →
      chain_ok true (chain_run fs calls) ∧ (chain_run fs calls).length = fs.length ∧
        ∃ last1, (chain_run fs calls).getLast? = some last1 ∧ last1.wait_ok cb := by
  induction calls with
  | nil => intro fs last hok hl hw; exact ⟨hok, rfl, last, hl, hw⟩
  | cons c rest ih =>
    intro fs last hok hl hw
    obtain ⟨k, r⟩ := c
    obtain ⟨last1, h1, h2⟩ := chain_safe_last cb fs k r last hl hw
    have hlen : (chain_safe k r fs).length = fs.length := by
      have := congrArg List.length (chain_safe_safe_flags fs k r)
      simpa using this
    obtain ⟨i1, i2, i3⟩ := ih (chain_safe k r fs) last1 (chain_safe_ok fs true k r hok) h1 h2
    exact ⟨i1, i2.trans hlen, i3⟩

/-- The fresh chain of `n + 1` futures with the callback `cb` waiting on the last one. -/
theorem chain_create_view (cb : Context) (n : Nat) :
    chain_ok true (chain_wait_last (chain_create (n + 1)) cb) ∧
      (chain_wait_last (chain_create (n + 1)) cb).map (fun f => f.m_safe) =
        List.replicate (n + 1) false ∧
      ∃ last, (chain_wait_last (chain_create (n + 1)) cb).getLast? = some last ∧
        last.wait_ok cb := by
  have haux : ∀ (m : Nat) (f : FutureImpl), f.m_safe = false →
      chain_ok f.m_consistent
          (chain_wait_last (f :: List.replicate m (FutureImpl.init true)) cb) ∧
        (chain_wait_last (f :: List.replicate m (FutureImpl.init true)) cb).map
            (fun f => f.m_safe) = List.replicate (m + 1) false ∧
        ∃ last, (chain_wait_last (f :: List.replicate m (FutureImpl.init true)) cb).getLast? =
            some last ∧
          (f.m_contexts = [] → f.completed = [] → last.wait_ok cb) := by
    intro m
    induction m with
    | zero =>
      intro f hf
      have hnc : f.is_complete = false := by
        unfold FutureImpl.is_complete; rw [hf]; rfl
      refine ⟨?_, ?_, f.wait cb, rfl, ?_⟩
      · simp [chain_wait_last, chain_ok, FutureImpl.wait, hnc]
      · simp [chain_wait_last, FutureImpl.wait, hnc, hf]
      · intro h1 h2
        unfold FutureImpl.wait_ok
        simp [FutureImpl.wait, hnc, h1, h2, FutureImpl.is_complete, hf]
    | succ m ih =>
      intro f hf
      have hnc : f.is_complete = false := by
        unfold FutureImpl.is_complete; rw [hf]; rfl
      obtain ⟨i1, i2, last, i3, i4⟩ := ih (FutureImpl.init true) rfl
      simp only [List.replicate_succ, chain_wait_last]
      refine ⟨⟨rfl, ?_⟩, ?_, last, ?_, fun _ _ => i4 rfl rfl⟩
      · rw [hnc]
        exact i1
      · rw [List.map_cons, i2, hf]
        rfl
      · cases hcc : chain_wait_last
            (FutureImpl.init true :: List.replicate m (FutureImpl.init true)) cb with
        | nil => rw [hcc] at i3; simp at i3
        | cons a l => rw [List.getLast?_cons_cons, ← hcc]; exact i3
  obtain ⟨h1, h2, last, h3, h4⟩ := haux n (FutureImpl.init false) rfl
  exact ⟨h1, h2, last, h3, h4 rfl rfl⟩

/-- The last future of a fresh chain after a run: it is complete iff `safe` was called on
every future of the chain, and its `wait` callback fires exactly then. -/
theorem chain_last_view (n : Nat) (cb : Context) (calls : List (Nat × Int)) :
    ∃ last,
      (chain_run (chain_wait_last (chain_create (n + 1)) cb) calls).getLast? = some last ∧
        (last.is_complete = true ↔ ∀ k < n + 1, k ∈ calls.map Prod.fst) ∧
        last.wait_ok cb := by
  obtain ⟨hok, hflags, last0, hl0, hw0⟩ := chain_create_view cb n
  obtain ⟨hok1, hlen, last, hl, hw⟩ :=
    chain_run_view cb calls (chain_wait_last (chain_create (n + 1)) cb) last0 hok hl0 hw0
  have hlen0 : (chain_wait_last (chain_create (n + 1)) cb).length = n + 1 := by
    have := congrArg List.length hflags
    simpa using this
  refine ⟨last, hl, ?_, hw⟩
  rw [chain_ok_last_complete _ true last hok1 hl, Bool.true_and, List.all_eq_true]
  constructor
  · intro hall k hk
    have hk1 : k < (chain_run (chain_wait_last (chain_create (n + 1)) cb) calls).length := by
      rw [hlen, hlen0]; exact hk
    have hsafe : ((chain_run (chain_wait_last (chain_create (n + 1)) cb) calls).map
        (fun f => f.m_safe))[k]? = some true := by
      rw [List.getElem?_map, List.getElem?_eq_getElem hk1]
      simp only [Option.map_some']
      rw [hall _ (List.getElem_mem _)]
    rcases (chain_run_safe_flags calls _ k).mp hsafe with h | h
    · rw [hflags] at h
      simp [List.getElem?_replicate] at h
    · exact h.2
  · intro hall f hf
    obtain ⟨k, hk, hfk⟩ := List.getElem_of_mem hf
    have hk2 : k < n + 1 := by rw [← hlen0, ← hlen]; exact hk
    have hsafe := (chain_run_safe_flags calls (chain_wait_last (chain_create (n + 1)) cb) k).mpr
      (Or.inr ⟨by rw [hlen0]; exact hk2, hall k hk2⟩)
    rw [List.getElem?_map, List.getElem?_eq_getElem hk] at hsafe
    simp only [Option.map_some', Option.some.injEq] at hsafe
    rw [← hfk]
    exact hsafe

/-- C20: in a chain `f1 -> ... -> fn` of fresh futures with a callback `cb` waiting on `fn`,
after any sequence of `safe` calls on the futures of the chain, `fn` is complete if and only
if `safe` has been called on `fn` and on every predecessor; `cb` has fired (once) if `fn` is
complete and has not fired otherwise; and, for a chain of at least two futures, `safe` on
`fn` alone does not complete it. -/
theorem chain_complete_iff_all_safe (n : Nat) (hn : 0 < n) (cb : Context)
    (calls : List (Nat × Int)) :
    (∃ last,
      (chain_run (chain_wait_last (chain_create n) cb) calls).getLast? = some last ∧
        (last.is_complete = true ↔ ∀ k < n, k ∈ calls.map Prod.fst) ∧
        (last.is_complete = true → last.completed.map Prod.fst = [cb]) ∧
        (last.is_complete = false → last.completed = [])) ∧
    (2 ≤ n → ∀ r : Int,
      (chain_run (chain_wait_last (chain_create n) cb) [(n - 1, r)]).getLast?.map
        FutureImpl.is_complete = some false) := by
  obtain ⟨m, rfl⟩ : ∃ m, n = m + 1 := ⟨n - 1, by omega⟩
  constructor
  · obtain ⟨last, h1, h2, h3⟩ := chain_last_view m cb calls
    exact ⟨last, h1, h2, fun hc => (h3.2 hc).2, fun hc => (h3.1 hc).2⟩
  · intro h2 r
    obtain ⟨last, h1, h3, _⟩ := chain_last_view m cb [(m + 1 - 1, r)]
    rw [h1]
    simp only [Option.map_some', Option.some.injEq]
    cases hc : last.is_complete with
    | false => rfl
    | true =>
      have := h3.mp hc 0 (by omega)
      simp at this
      omega

/-- Witness of `chain_complete_iff_all_safe`: a chain of three futures; `safe` on `f3` and
`f1` leaves `f3` incomplete, `safe` on `f2` completes it and fires the callback. -/
theorem chain_complete_iff_all_safe_witness :
    (chain_run (chain_wait_last (chain_create 3) 9) [(2, 0), (0, 0)]).map
        (fun f => (f.is_complete, f.completed)) =
      [(true, []), (false, []), (false, [])] ∧
    (chain_run (chain_wait_last (chain_create 3) 9) [(2, 0), (0, 0), (1, - EIO)]).map
        (fun f => (f.is_complete, f.completed)) =
      [(true, []), (true, []), (true, [(9, - EIO)])] ∧
    (chain_run (chain_wait_last (chain_create 3) 9) [(2, 7)]).getLast?.map
        FutureImpl.is_complete = some false :=
  ⟨by decide, by decide,
    (chain_complete_iff_all_safe 3 (by decide) 9 [(2, 0), (0, 0), (1, - EIO)]).2 (by decide) 7⟩

end journal

/-! ## The last allocated tid -/

namespace journal

/-- C28, at the failing input: after `reserve_tid("A", 2^64 - 1)` on a fresh object the tag
"A" is present with counter 0, and `get_last_allocated_tid("A")` trips
`assert(it->second > 0)`. -/
theorem get_last_allocated_tid_assert_trips :
    allocated_tids_find
        (reserve_tid (JournalMetadata.init "c") "A" 18446744073709551615).m_allocated_tids "A" =
      some 0 ∧
    get_last_allocated_tid
        (reserve_tid (JournalMetadata.init "c") "A" 18446744073709551615) "A" = none := by
  decide

end journal

/-! ## Restarting the replay -/

namespace librbd

theorem transition_state_journaler (s : Journal) (st : State) (r : Int) :
    (s.transition_state st r).m_journaler = s.m_journaler := by
  unfold Journal.transition_state
  simp only
  split <;> split <;> rfl

theorem transition_state_committed_entries (s : Journal) (st : State) (r : Int) :
    (s.transition_state st r).committed_entries = s.committed_entries := by
  unfold Journal.transition_state
  simp only
  split <;> split <;> rfl

/-- The state `recreate_journaler` reaches from `FlushingRestart`. -/
theorem recreate_journaler_restart (s : Journal) (r : Int)
    (hst : s.m_state = State.STATE_FLUSHING_RESTART) :
    ∃ s1 : Journal, s.recreate_journaler r = some s1 ∧
      s1.m_state = State.STATE_RESTARTING_REPLAY ∧
      Callback.handle_journal_destroyed ∈ s1.callbacks ∧
      s1.committed_entries = s.committed_entries := by
  unfold Journal.recreate_journaler
  rw [if_neg (not_not.mpr (Or.inl hst))]
  exact ⟨_, rfl, transition_state_state _ _ _,
    List.mem_append_right _ (List.mem_singleton.mpr rfl),
    transition_state_committed_entries _ _ _⟩

/-- The state `handle_journal_destroyed` reaches from `RestartingReplay`. -/
theorem handle_journal_destroyed_restart (s : Journal) (r : Int)
    (hst : s.m_state = State.STATE_RESTARTING_REPLAY) :
    ∃ s1 : Journal, s.handle_journal_destroyed r = some s1 ∧
      s1.m_state = State.STATE_INITIALIZING ∧ s1.m_journaler = true ∧
      Callback.handle_initialized ∈ s1.callbacks ∧
      s1.committed_entries = s.committed_entries := by
  unfold Journal.handle_journal_destroyed
  simp only
  rw [if_neg (not_not.mpr (Or.inr hst)), if_pos hst]
  unfold Journal.create_journaler
  simp only
  rw [if_neg (not_not.mpr (Or.inr hst)), if_neg (by simp)]
  exact ⟨_, rfl, transition_state_state _ _ _, rfl,
    List.mem_append_right _ (List.mem_singleton.mpr rfl),
    transition_state_committed_entries _ _ _⟩

/-- The state `handle_initialized(0)` reaches. -/
theorem handle_initialized_replaying (s : Journal) :
    (s.handle_initialized 0).m_state = State.STATE_REPLAYING ∧
      (s.handle_initialized 0).committed_entries = s.committed_entries := by
  unfold Journal.handle_initialized
  rw [if_neg (by decide)]
  exact ⟨transition_state_state _ _ _, transition_state_committed_entries _ _ _⟩

/-- C24: from state `Replaying` with no close pending and an error `r < 0`,
`handle_replay_process_safe(entry, r)` goes to `FlushingRestart` without committing the entry
and hands out the flush callback; `handle_flushing_restart(0)` goes to `RestartingReplay`;
`handle_journal_destroyed(0)` goes to `Initializing` with a new journaler; and
`handle_initialized(0)` goes to `Replaying`. -/
theorem replay_restart_sequence (s : Journal) (replay_entry : Nat) (r : Int)
    (hst : s.m_state = State.STATE_REPLAYING) (hcp : s.m_close_pending = false)
    (hr : r < 0) :
    (s.handle_replay_process_safe replay_entry r).m_state = State.STATE_FLUSHING_RESTART ∧
    (s.handle_replay_process_safe replay_entry r).committed_entries = s.committed_entries ∧
    Callback.handle_flushing_restart ∈ (s.handle_replay_process_safe replay_entry r).callbacks ∧
    ∃ s2 s3 : Journal,
      (s.handle_replay_process_safe replay_entry r).handle_flushing_restart 0 = some s2 ∧
      s2.m_state = State.STATE_RESTARTING_REPLAY ∧
      Callback.handle_journal_destroyed ∈ s2.callbacks ∧
      s2.handle_journal_destroyed 0 = some s3 ∧
      s3.m_state = State.STATE_INITIALIZING ∧ s3.m_journaler = true ∧
      Callback.handle_initialized ∈ s3.callbacks ∧
      (s3.handle_initialized 0).m_state = State.STATE_REPLAYING ∧
      (s3.handle_initialized 0).committed_entries = s.committed_entries := by
  have h1 : s.handle_replay_process_safe replay_entry r =
      { s.transition_state State.STATE_FLUSHING_RESTART r with
        callbacks := (s.transition_state State.STATE_FLUSHING_RESTART r).callbacks ++
          [Callback.handle_flushing_restart] } := by
    unfold Journal.handle_replay_process_safe
    rw [if_pos hr, if_pos hst]
  have hs1 : (s.handle_replay_process_safe replay_entry r).m_state =
      State.STATE_FLUSHING_RESTART := by
    rw [h1]; exact transition_state_state _ _ _
  have hc1 : (s.handle_replay_process_safe replay_entry r).committed_entries =
      s.committed_entries := by
    rw [h1]; exact transition_state_committed_entries _ _ _
  have hp1 : (s.handle_replay_process_safe replay_entry r).m_close_pending = false := by
    rw [h1]; exact (transition_state_close_pending _ _ _).trans hcp
  have hm1 : Callback.handle_flushing_restart ∈
      (s.handle_replay_process_safe replay_entry r).callbacks := by
    rw [h1]; exact List.mem_append_right _ (List.mem_singleton.mpr rfl)
  obtain ⟨s2, h2, hs2, hm2, hc2⟩ :=
    recreate_journaler_restart (s.handle_replay_process_safe replay_entry r) 0 hs1
  obtain ⟨s3, h3, hs3, hj3, hm3, hc3⟩ := handle_journal_destroyed_restart s2 0 hs2
  refine ⟨hs1, hc1, hm1, s2, s3, ?_, hs2, hm2, h3, hs3, hj3, hm3,
    (handle_initialized_replaying s3).1, ?_⟩
  · unfold Journal.handle_flushing_restart
    rw [if_neg (by decide), if_neg (not_not.mpr hs1), hp1]
    exact h2
  · rw [(handle_initialized_replaying s3).2, hc3, hc2, hc1]

/-- C24, applied: a journal in state `Replaying` whose replay reports the error -5 for
entry 7. -/
theorem replay_restart_sequence_witness :
    ((Journal.handle_replay_process_safe
        { Journal.init with
          m_state := State.STATE_REPLAYING, m_journaler := true, m_journal_replay := true }
        7 (-5)).m_state = State.STATE_FLUSHING_RESTART) ∧
    ∃ s2 s3 : Journal,
      (Journal.handle_replay_process_safe
        { Journal.init with
          m_state := State.STATE_REPLAYING, m_journaler := true, m_journal_replay := true }
        7 (-5)).handle_flushing_restart 0 = some s2 ∧
      s2.m_state = State.STATE_RESTARTING_REPLAY ∧
      s2.handle_journal_destroyed 0 = some s3 ∧
      s3.m_state = State.STATE_INITIALIZING ∧
      (s3.handle_initialized 0).m_state = State.STATE_REPLAYING := by
  have h := replay_restart_sequence
    { Journal.init with
      m_state := State.STATE_REPLAYING, m_journaler := true, m_journal_replay := true }
    7 (-5) rfl rfl (by decide)
  obtain ⟨h1, _, _, s2, s3, h2, h3, _, h4, h5, _, _, h6, _⟩ := h
  exact ⟨h1, s2, s3, h2, h3, h4, h5, h6⟩

/-! ## Waiting for the journal to be ready -/

/-- C30, at the failing input: `open(1)`, `handle_initialized(-5)` and
`handle_journal_destroyed(0)` lead to state `Closed`, where `wait_for_journal_ready` trips
`assert(!is_steady_state())`. -/
theorem wait_for_journal_ready_closed :
    (Journal.run Journal.init
        [Call.open 1, Call.handle_initialized (-5), Call.handle_journal_destroyed 0]).map
      (fun s => s.m_state) = some State.STATE_CLOSED ∧
    (Journal.run Journal.init
        [Call.open 1, Call.handle_initialized (-5), Call.handle_journal_destroyed 0]).bind
      (fun s => s.wait_for_journal_ready 2) = none := by
  decide

end librbd

/-! ## Inline issue of writes, and requests delayed by a refresh -/

namespace librbd

/-- C21, as stated, fails: on an image without non-blocking I/O and without journal,
`block_writes`, `aio_write(1)` (queued), `unblock_writes`, `aio_write(2)`: write 2 is issued
inline although write 1 is still queued (`writes_empty()` is false). -/
theorem aio_write_inline_counterexample :
    ((((AioImageRequestWQ.init ⟨false, false, none, false, true⟩).block_writes 5).aio_write 1).bind
        AioImageRequestWQ.unblock_writes).map
      (fun s => (s.m_image_ctx.non_blocking_aio, s.is_journal_required, s.writes_blocked,
        s.writes_empty, s.items, s.m_shutdown)) =
      some (false, false, false, false, [⟨RequestKind.write, 1⟩], false) ∧
    (((((AioImageRequestWQ.init ⟨false, false, none, false, true⟩).block_writes 5).aio_write
        1).bind AioImageRequestWQ.unblock_writes).bind (fun s => s.aio_write 2)).map
      (fun s => (s.items, s.issued, s.m_queued_writes)) =
      some ([⟨RequestKind.write, 1⟩], [⟨RequestKind.write, 2⟩], 1) :=
  ⟨rfl, rfl⟩

/-- The inline path of an admitted request: the in-flight count taken by
`start_in_flight_op` is given back. -/
theorem issue_inline_finish (s : AioImageRequestWQ) (req : AioImageRequest)
    (h : s.m_shutdown = false) :
    AioImageRequestWQ.finish_in_flight_op
        (AioImageRequestWQ.issue_inline { s with m_in_flight_ops := s.m_in_flight_ops + 1 } req) =
      some { s with issued := s.issued ++ [req] } := by
  unfold AioImageRequestWQ.finish_in_flight_op AioImageRequestWQ.issue_inline
  simp [h]

/-- C21, amended: an admitted write or discard is queued if and only if the image is
configured for non-blocking I/O, or the journal is required, or writes are blocked; in every
other case it is issued inline, whether or not writes are queued. -/
theorem aio_write_inline_iff (s : AioImageRequestWQ) (c : Nat) (h : s.m_shutdown = false) :
    ((s.m_image_ctx.non_blocking_aio || s.is_journal_required || s.writes_blocked) = true →
      s.aio_write c = some (AioImageRequestWQ.queue
          { s with m_in_flight_ops := s.m_in_flight_ops + 1 } ⟨RequestKind.write, c⟩) ∧
      s.aio_discard c = some (AioImageRequestWQ.queue
          { s with m_in_flight_ops := s.m_in_flight_ops + 1 } ⟨RequestKind.discard, c⟩)) ∧
    ((s.m_image_ctx.non_blocking_aio || s.is_journal_required || s.writes_blocked) = false →
      s.aio_write c = some { s with issued := s.issued ++ [⟨RequestKind.write, c⟩] } ∧
      s.aio_discard c = some { s with issued := s.issued ++ [⟨RequestKind.discard, c⟩] }) := by
  have hst : s.start_in_flight_op c = (true, { s with m_in_flight_ops := s.m_in_flight_ops + 1 }) := by
    unfold AioImageRequestWQ.start_in_flight_op
    simp [h]
  constructor
  · intro hq
    have hq1 : (s.m_image_ctx.non_blocking_aio ||
        AioImageRequestWQ.is_journal_required
          { s with m_in_flight_ops := s.m_in_flight_ops + 1 } ||
        AioImageRequestWQ.writes_blocked
          { s with m_in_flight_ops := s.m_in_flight_ops + 1 }) = true := hq
    unfold AioImageRequestWQ.aio_write AioImageRequestWQ.aio_discard
    simp only [hst, Bool.not_true, Bool.false_eq_true, if_false, hq1, if_true, and_self]
  · intro hq
    have hq1 : (s.m_image_ctx.non_blocking_aio ||
        AioImageRequestWQ.is_journal_required
          { s with m_in_flight_ops := s.m_in_flight_ops + 1 } ||
        AioImageRequestWQ.writes_blocked
          { s with m_in_flight_ops := s.m_in_flight_ops + 1 }) = false := hq
    unfold AioImageRequestWQ.aio_write AioImageRequestWQ.aio_discard
    simp only [hst, Bool.not_true, Bool.false_eq_true, if_false, hq1]
    exact ⟨issue_inline_finish s _ h, issue_inline_finish s _ h⟩

/-- C21, amended, applied: with one write already queued and nothing blocking, the next
write is issued inline. -/
theorem aio_write_inline_iff_witness :
    AioImageRequestWQ.aio_write
        { AioImageRequestWQ.init ⟨false, false, none, false, true⟩ with
          m_queued_writes := 1, m_in_flight_ops := 1, items := [⟨RequestKind.write, 1⟩] } 2 =
      some
        { AioImageRequestWQ.init ⟨false, false, none, false, true⟩ with
          m_queued_writes := 1, m_in_flight_ops := 1, items := [⟨RequestKind.write, 1⟩],
          issued := [⟨RequestKind.write, 2⟩] } :=
  ((aio_write_inline_iff
    { AioImageRequestWQ.init ⟨false, false, none, false, true⟩ with
      m_queued_writes := 1, m_in_flight_ops := 1, items := [⟨RequestKind.write, 1⟩] } 2
    rfl).2 rfl).1

/-- C25, at the failing input: on an image with non-blocking I/O that requires a refresh,
`aio_write(1)` and then `aio_write(2)` are queued, the worker dequeue parks write 1 in a
refresh, and the refresh fails with -5: `handle_refreshed` only fails the request. The
refresh-in-progress flag stays set, the worker is not signalled, the in-progress-writes and
in-flight counts keep the increments made for the request, and the next dequeue still hands
out nothing although write 2 is queued. -/
theorem handle_refreshed_error_stalls :
    ((((AioImageRequestWQ.init ⟨true, false, none, true, true⟩).aio_write 1).bind
        (fun s => s.aio_write 2)).map
      (fun s => (s._void_dequeue.1, s._void_dequeue.2.m_refresh_in_progress,
        s._void_dequeue.2.refreshes, s._void_dequeue.2.m_in_progress_writes,
        s._void_dequeue.2.m_in_flight_ops, s._void_dequeue.2.signals))) =
      some (none, true, [⟨RequestKind.write, 1⟩], 1, 2, 0) ∧
    ((((AioImageRequestWQ.init ⟨true, false, none, true, true⟩).aio_write 1).bind
        (fun s => s.aio_write 2)).bind
      (fun s => s._void_dequeue.2.handle_refreshed (-5) ⟨RequestKind.write, 1⟩)).map
      (fun s => (s.m_refresh_in_progress, s.signals, s.m_in_progress_writes,
        s.m_queued_writes, s.m_in_flight_ops, s.failed, s.items, s._void_dequeue.1)) =
      some (true, 0, 1, 2, 2, [(1, -5)], [⟨RequestKind.write, 2⟩], none) :=
  ⟨rfl, rfl⟩

/-! ## Decoding the mutable metadata -/

/-- C26, at the failing input: every component decodes, and the lock-info decoder reports
-EBADMSG (which is not -EOPNOTSUPP) without throwing: `get_mutable_metadata_finish` returns
0 and leaves `*exclusive_lock` unassigned. -/
theorem get_mutable_metadata_finish_drops_lock_error :
    cls_client.get_mutable_metadata_finish
        ⟨true, true, true, true, some (-EBADMSG, ClsLockType.LOCK_NONE)⟩ = (0, none) ∧
    -EBADMSG ≠ -EOPNOTSUPP := by
  decide

end librbd

/-! ## The front of the pending commit map -/

namespace journal

theorem commit_tids_insert_keys (pending : List (Nat × CommitEntry)) (ct : Nat)
    (e : CommitEntry) :
    ∀ k ∈ (commit_tids_insert pending ct e).map Prod.fst, k = ct ∨ k ∈ pending.map Prod.fst := by
  induction pending with
  | nil =>
    intro k hk
    simp only [commit_tids_insert, List.map_cons, List.map_nil, List.mem_singleton] at hk
    exact Or.inl hk
  | cons hd tl ih =>
    obtain ⟨k0, x⟩ := hd
    intro k hk
    unfold commit_tids_insert at hk
    split at hk
    · simp only [List.map_cons, List.mem_cons] at hk ⊢
      rcases hk with h | h | h
      · exact Or.inl h
      · exact Or.inr (Or.inl h)
      · exact Or.inr (Or.inr h)
    · split at hk
      · simp only [List.map_cons, List.mem_cons] at hk ⊢
        rcases hk with h | h
        · exact Or.inl h
        · exact Or.inr (Or.inr h)
      · simp only [List.map_cons, List.mem_cons] at hk ⊢
        rcases hk with h | h
        · exact Or.inr (Or.inl h)
        · rcases ih k h with h1 | h1
          · exact Or.inl h1
          · exact Or.inr (Or.inr h1)

theorem commit_tids_insert_sorted (pending : List (Nat × CommitEntry)) (ct : Nat)
    (e : CommitEntry) (h : (pending.map Prod.fst).Pairwise (fun a b => a < b)) :
    ((commit_tids_insert pending ct e).map Prod.fst).Pairwise (fun a b => a < b) := by
  induction pending with
  | nil => simp [commit_tids_insert]
  | cons hd tl ih =>
    obtain ⟨k0, x⟩ := hd
    simp only [List.map_cons, List.pairwise_cons] at h
    unfold commit_tids_insert
    split
    · rename_i hlt
      simp only [List.map_cons, List.pairwise_cons, List.mem_cons]
      refine ⟨?_, h.1, h.2⟩
      intro b hb
      rcases hb with hb | hb
      · exact hb ▸ hlt
      · exact Nat.lt_trans hlt (h.1 b hb)
    · split
      · rename_i heq
        simp only [List.map_cons, List.pairwise_cons]
        exact ⟨fun b hb => heq ▸ h.1 b hb, h.2⟩
      · rename_i hnlt hne
        simp only [List.map_cons, List.pairwise_cons]
        refine ⟨?_, ih h.2⟩
        intro b hb
        rcases commit_tids_insert_keys tl ct e b hb with hb1 | hb1
        · rw [hb1]
          exact Nat.lt_of_le_of_ne (Nat.le_of_not_lt hnlt) (fun hh => hne hh.symm)
        · exact h.1 b hb1

theorem commit_tids_insert_front (pending : List (Nat × CommitEntry)) (ct : Nat)
    (e : CommitEntry) (he : e.committed = false)
    (h : ∀ p, pending.head? = some p → p.2.committed = false) :
    ∀ p, (commit_tids_insert pending ct e).head? = some p → p.2.committed = false := by
  cases pending with
  | nil =>
    intro p hp
    simp only [commit_tids_insert, List.head?_cons, Option.some.injEq] at hp
    exact hp ▸ he
  | cons hd tl =>
    obtain ⟨k0, x⟩ := hd
    intro p hp
    unfold commit_tids_insert at hp
    split at hp
    · simp only [List.head?_cons, Option.some.injEq] at hp
      exact hp ▸ he
    · split at hp
      · simp only [List.head?_cons, Option.some.injEq] at hp
        exact hp ▸ he
      · simp only [List.head?_cons, Option.some.injEq] at hp
        exact hp ▸ h (k0, x) rfl

theorem mark_committed_keys (pending : List (Nat × CommitEntry)) (ct : Nat) :
    ∀ pending1, mark_committed pending ct = some pending1 →
      pending1.map Prod.fst = pending.map Prod.fst ∧ ct ∈ pending.map Prod.fst := by
  induction pending with
  | nil => intro pending1 h; exact Option.noConfusion h
  | cons hd tl ih =>
    obtain ⟨k0, x⟩ := hd
    intro pending1 h
    unfold mark_committed at h
    split at h
    · rename_i heq
      cases h
      exact ⟨rfl, by simp [heq]⟩
    · obtain ⟨rest1, hr, hp⟩ := Option.map_eq_some'.mp h
      subst hp
      obtain ⟨h1, h2⟩ := ih rest1 hr
      exact ⟨by simp [h1], by simp [h2]⟩

theorem mark_committed_eq_flag (pending : List (Nat × CommitEntry)) (ct : Nat)
    (hs : (pending.map Prod.fst).Pairwise (fun a b => a < b)) :
    ∀ pending1, mark_committed pending ct = some pending1 →
      pending1 = set_committed_flag pending ct := by
  induction pending with
  | nil => intro pending1 h; exact Option.noConfusion h
  | cons hd tl ih =>
    obtain ⟨k0, x⟩ := hd
    simp only [List.map_cons, List.pairwise_cons] at hs
    intro pending1 h
    unfold mark_committed at h
    split at h
    · rename_i heq
      cases h
      unfold set_committed_flag
      simp only [List.map_cons, heq, if_true, List.cons.injEq, true_and]
      symm
      calc tl.map (fun p => if p.1 = ct then (p.1, { p.2 with committed := true }) else p)
          = tl.map id := by
            apply List.map_congr_left
            intro p hp
            have hlt : k0 < p.1 := hs.1 p.1 (List.mem_map_of_mem Prod.fst hp)
            rw [if_neg (fun hh => by rw [hh, heq] at hlt; exact Nat.lt_irrefl _ hlt)]
            rfl
        _ = tl := List.map_id _
    · rename_i hne
      obtain ⟨rest1, hr, hp⟩ := Option.map_eq_some'.mp h
      subst hp
      rw [ih hs.2 rest1 hr]
      unfold set_committed_flag
      simp only [List.map_cons, hne, if_false]

theorem mark_committed_isSome (pending : List (Nat × CommitEntry)) (ct : Nat) :
    (mark_committed pending ct).isSome = (commit_tids_find pending ct).isSome := by
  induction pending with
  | nil => rfl
  | cons hd tl ih =>
    obtain ⟨k0, x⟩ := hd
    unfold mark_committed commit_tids_find
    by_cases heq : k0 = ct
    · simp only [heq, if_true, Option.isSome_some]
    · simp only [heq, if_false, Option.isSome_map', ih]

theorem dropWhile_front_open (pending : List (Nat × CommitEntry))
    (hs : (pending.map Prod.fst).Pairwise (fun a b => a < b)) :
    pending_front_open (pending.dropWhile (fun p => p.2.committed)) := by
  constructor
  · exact hs.sublist ((List.dropWhile_sublist _).map Prod.fst)
  · induction pending with
    | nil => intro p hp; simp at hp
    | cons hd tl ih =>
      simp only [List.map_cons, List.pairwise_cons] at hs
      intro p hp
      cases hc : hd.2.committed with
      | false =>
        rw [List.dropWhile_cons_of_neg (by simp [hc])] at hp
        simp only [List.head?_cons, Option.some.injEq] at hp
        exact hp ▸ hc
      | true =>
        rw [List.dropWhile_cons_of_pos (by simp [hc])] at hp
        exact ih hs.2 p hp

/-- The invariant `pending_front_open` holds in every state reached by a run of
`allocate_commit_tid` and `committed` calls. -/
theorem run_commit_calls_front_open (calls : List CommitCall) :
    ∀ s s1 : JournalMetadata, pending_front_open s.m_pending_commit_tids →
      run_commit_calls s calls = some s1 → pending_front_open s1.m_pending_commit_tids := by
  induction calls with
  | nil =>
    intro s s1 hinv h
    simp only [run_commit_calls, Option.some.injEq] at h
    exact h ▸ hinv
  | cons c rest ih =>
    intro s s1 hinv h
    cases c with
    | allocate object_num tag tid =>
      simp only [run_commit_calls] at h
      refine ih _ s1 ?_ h
      exact ⟨commit_tids_insert_sorted _ _ _ hinv.1,
        commit_tids_insert_front _ _ _ rfl hinv.2⟩
    | committed commit_tid =>
      simp only [run_commit_calls] at h
      obtain ⟨a, ha, hr⟩ := Option.bind_eq_some.mp h
      refine ih _ s1 ?_ hr
      unfold committed at ha
      cases hm : mark_committed s.m_pending_commit_tids commit_tid with
      | none => rw [hm] at ha; exact Option.noConfusion ha
      | some pending =>
        rw [hm] at ha
        simp only [pop_committed_eq, Option.some.injEq] at ha
        rw [← ha]
        exact dropWhile_front_open pending ((mark_committed_keys _ _ pending hm).1 ▸ hinv.1)

/-- C27: in every state reached from the initial one by `allocate_commit_tid` and
`committed` calls, the pending entry with the smallest commit tid is not marked committed;
`committed(t)` returns (its assertion holds) exactly when `t` is pending, it returns true if
and only if `t` is the smallest pending commit tid, and when it returns false the position is
the one it started from and the state is unchanged apart from the committed flag of `t`. -/
theorem committed_iff_smallest (client_id : String) (calls : List CommitCall)
    (s : JournalMetadata)
    (h : run_commit_calls (JournalMetadata.init client_id) calls = some s) :
    (∀ p ∈ s.m_pending_commit_tids,
        (∀ q ∈ s.m_pending_commit_tids, p.1 ≤ q.1) → p.2.committed = false) ∧
    ∀ t : Nat,
      (committed s t).isSome = (commit_tids_find s.m_pending_commit_tids t).isSome ∧
      ∀ (b : Bool) (pos : ObjectSetPosition) (s1 : JournalMetadata),
        committed s t = some (b, pos, s1) →
          (b = true ↔ ∀ q ∈ s.m_pending_commit_tids, t ≤ q.1) ∧
          (b = false →
            pos = committed_base s ∧
            s1 = { s with
              m_pending_commit_tids := set_committed_flag s.m_pending_commit_tids t }) := by
  have hinv : pending_front_open s.m_pending_commit_tids :=
    run_commit_calls_front_open calls (JournalMetadata.init client_id) s
      ⟨List.Pairwise.nil, fun p hp => Option.noConfusion hp⟩ h
  obtain ⟨hs, hf⟩ := hinv
  refine ⟨?_, ?_⟩
  · intro p hp hmin
    cases hP : s.m_pending_commit_tids with
    | nil => rw [hP] at hp; simp at hp
    | cons hd tl =>
      rw [hP] at hp hmin hs hf
      simp only [List.map_cons, List.pairwise_cons] at hs
      rcases List.mem_cons.mp hp with hp1 | hp1
      · rw [hp1]; exact hf hd rfl
      · have h1 : hd.1 < p.1 := hs.1 p.1 (List.mem_map_of_mem Prod.fst hp1)
        have h2 : p.1 ≤ hd.1 := hmin hd (List.mem_cons_self _ _)
        exact absurd h1 (Nat.not_lt.mpr h2)
  · intro t
    refine ⟨?_, ?_⟩
    · unfold committed
      rw [← mark_committed_isSome]
      cases mark_committed s.m_pending_commit_tids t <;> rfl
    · intro b pos s1 hc
      unfold committed at hc
      cases hm : mark_committed s.m_pending_commit_tids t with
      | none => rw [hm] at hc; exact Option.noConfusion hc
      | some pending =>
        rw [hm] at hc
        have hflag := mark_committed_eq_flag _ t hs pending hm
        have hkeys := mark_committed_keys _ t pending hm
        cases hP : s.m_pending_commit_tids with
        | nil => rw [hP] at hm; exact Option.noConfusion hm
        | cons hd tl =>
          obtain ⟨k0, x⟩ := hd
          rw [hP] at hm hs hf hkeys
          have hx : x.committed = false := hf (k0, x) rfl
          simp only [List.map_cons, List.pairwise_cons] at hs
          unfold mark_committed at hm
          by_cases heq : k0 = t
          · rw [if_pos heq] at hm
            cases hm
            simp only [pop_committed, Bool.not_true, Bool.false_eq_true, if_false,
              pop_committed_eq, Bool.true_or, if_true, Option.some.injEq, Prod.mk.injEq] at hc
            refine ⟨⟨fun _ => ?_, fun _ => hc.1.symm⟩, fun hb => ?_⟩
            · intro q hq
              rcases List.mem_cons.mp hq with hq1 | hq1
              · rw [hq1]; exact Nat.le_of_eq heq.symm
              · exact heq ▸ Nat.le_of_lt (hs.1 q.1 (List.mem_map_of_mem Prod.fst hq1))
            · rw [← hc.1] at hb
              exact Bool.noConfusion hb
          · rw [if_neg heq] at hm
            obtain ⟨rest1, hr, hp⟩ := Option.map_eq_some'.mp hm
            subst hp
            simp only [pop_committed, hx, Bool.not_false, if_true, Bool.false_eq_true,
              if_false, Option.some.injEq, Prod.mk.injEq] at hc
            refine ⟨⟨fun hb => ?_, fun hmin => ?_⟩, fun _ => ⟨hc.2.1.symm, ?_⟩⟩
            · rw [← hc.1] at hb
              exact Bool.noConfusion hb
            · have h1 : t ≤ k0 := hmin (k0, x) (List.mem_cons_self _ _)
              have h2 : t ∈ tl.map Prod.fst := (mark_committed_keys tl t rest1 hr).2
              exact absurd (hs.1 t h2) (Nat.not_lt.mpr h1)
            · rw [← hc.2.2, hflag, hP]

/-- C27, applied: after two allocations (commit tids 1 and 2), `committed(2)` returns false
and only sets the flag of 2, and then `committed(1)` returns true. -/
theorem committed_iff_smallest_witness :
    run_commit_calls (JournalMetadata.init "c")
        [CommitCall.allocate 1 "A" 10, CommitCall.allocate 1 "B" 5] =
      some
        { JournalMetadata.init "c" with
          m_commit_tid := 2
          m_pending_commit_tids := [(1, ⟨1, "A", 10, false⟩), (2, ⟨1, "B", 5, false⟩)] } ∧
    ((committed
        { JournalMetadata.init "c" with
          m_commit_tid := 2
          m_pending_commit_tids := [(1, ⟨1, "A", 10, false⟩), (2, ⟨1, "B", 5, false⟩)] }
        2).map (fun r => (r.1, r.2.2.m_pending_commit_tids)) =
      some (false, [(1, ⟨1, "A", 10, false⟩), (2, ⟨1, "B", 5, true⟩)])) ∧
    ((committed
        { JournalMetadata.init "c" with
          m_commit_tid := 2
          m_pending_commit_tids := [(1, ⟨1, "A", 10, false⟩), (2, ⟨1, "B", 5, false⟩)] }
        2).isSome =
      (commit_tids_find [(1, ⟨1, "A", 10, false⟩), (2, ⟨1, "B", 5, false⟩)] 2).isSome) :=
  ⟨by decide, by decide,
    ((committed_iff_smallest "c"
      [CommitCall.allocate 1 "A" 10, CommitCall.allocate 1 "B" 5]
      { JournalMetadata.init "c" with
        m_commit_tid := 2
        m_pending_commit_tids := [(1, ⟨1, "A", 10, false⟩), (2, ⟨1, "B", 5, false⟩)] }
      (by decide)).2 2).1⟩

end journal

/-! ## Events of the image journal -/

namespace librbd

theorem events_find_erase (m : List (Nat × Event)) (tid : Nat) :
    events_find (events_erase m tid) tid = none := by
  induction m with
  | nil => rfl
  | cons hd tl ih =>
    obtain ⟨k, e⟩ := hd
    unfold events_erase at ih ⊢
    by_cases hk : k = tid
    · simp only [List.filter_cons, hk, decide_True, Bool.not_true, Bool.false_eq_true, if_false]
      exact ih
    · simp only [List.filter_cons, hk, decide_False, Bool.not_false, if_true, events_find,
        if_false]
      exact ih

theorem events_find_set (m : List (Nat × Event)) (tid : Nat) (e : Event) :
    ∀ e0, events_find m tid = some e0 → events_find (events_set m tid e) tid = some e := by
  induction m with
  | nil => intro e0 h; exact Option.noConfusion h
  | cons hd tl ih =>
    obtain ⟨k, x⟩ := hd
    intro e0 h
    unfold events_find at h
    unfold events_set
    by_cases hk : k = tid
    · simp only [hk, if_true, events_find]
    · rw [if_neg hk] at h ⊢
      simp only [events_find, hk, if_false]
      exact ih e0 h

/-- C22, as stated, fails: in state `Ready`, an event whose disk I/O has not completed
(`committed_io` false) is reported safe with r = -5: `m_journaler->committed` is called for
its future 7, but the event stays in the events map, marked safe, with the error recorded. -/
theorem handle_io_event_safe_counterexample :
    (Journal.handle_io_event_safe
        { Journal.init with
          m_state := State.STATE_READY, m_journaler := true
          m_events := [(1, ⟨7, 3, [], [9], [0], false, false, 0⟩)] }
        (-5) 1).map (fun s => (s.committed_futures, events_find s.m_events 1)) =
      some ([7], some ⟨7, 3, [], [], [0], false, true, -5⟩) :=
  rfl

/-- C22, amended: for an event present in the map, in state `Ready` or `Stopping`,
`handle_io_event_safe(r, tid)` returns; it calls `m_journaler->committed` for the event's
future exactly when `r < 0` or `committed_io` was already set; it erases the event exactly
when `committed_io` was already set, and otherwise keeps it, marked safe (with `r` recorded
when `r < 0`). -/
theorem handle_io_event_safe_effect (s : Journal) (r : Int) (tid : Nat) (event : Event)
    (hst : s.m_state = State.STATE_READY ∨ s.m_state = State.STATE_STOPPING)
    (hev : events_find s.m_events tid = some event) :
    ∃ s1 : Journal, s.handle_io_event_safe r tid = some s1 ∧
      (r < 0 ∨ event.committed_io = true →
        s1.committed_futures = s.committed_futures ++ [event.future]) ∧
      (¬ (r < 0 ∨ event.committed_io = true) → s1.committed_futures = s.committed_futures) ∧
      (event.committed_io = true → events_find s1.m_events tid = none) ∧
      (event.committed_io = false →
        events_find s1.m_events tid =
          some
            { event with
              aio_object_requests := [], on_safe_contexts := [], safe := true
              ret_val := if r < 0 then r else event.ret_val }) := by
  unfold Journal.handle_io_event_safe
  rw [if_neg (not_not.mpr hst), hev]
  refine ⟨_, rfl, ?_, ?_, ?_, ?_⟩
  · intro hc
    simp only [if_pos hc]
    split <;> split <;> rfl
  · intro hc
    simp only [if_neg hc]
    split <;> split <;> rfl
  · intro hc
    simp only [hc, or_true, if_true]
    split <;> exact events_find_erase _ _
  · intro hc
    simp only [hc, Bool.false_eq_true, or_false, if_false]
    by_cases hr : r < 0
    · simp only [hr, if_true, if_false, Bool.false_eq_true]
      exact events_find_set _ _ _ _ hev
    · simp only [hr, if_false, Bool.false_eq_true]
      exact events_find_set _ _ _ _ hev

/-- C22, amended, applied: the event of the counterexample, reported safe with r = -5. -/
theorem handle_io_event_safe_effect_witness :
    ∃ s1 : Journal,
      Journal.handle_io_event_safe
          { Journal.init with
            m_state := State.STATE_READY, m_journaler := true
            m_events := [(1, ⟨7, 3, [], [9], [0], false, false, 0⟩)] }
          (-5) 1 = some s1 ∧
      s1.committed_futures = [7] ∧
      events_find s1.m_events 1 = some ⟨7, 3, [], [], [0], false, true, -5⟩ :=
  match handle_io_event_safe_effect
      { Journal.init with
        m_state := State.STATE_READY, m_journaler := true
        m_events := [(1, ⟨7, 3, [], [9], [0], false, false, 0⟩)] }
      (-5) 1 ⟨7, 3, [], [9], [0], false, false, 0⟩ (Or.inl rfl) rfl with
  | ⟨s1, h1, h2, _, _, h4⟩ => ⟨s1, h1, h2 (Or.inl (by decide)), h4 rfl⟩

end librbd

/-! ## The accounting of the work queue -/

namespace librbd

theorem is_write_op_congr (s s1 : AioImageRequestWQ)
    (h : s1.m_image_ctx.flush_is_write_op = s.m_image_ctx.flush_is_write_op) :
    s1.is_write_op = s.is_write_op := by
  funext req
  unfold AioImageRequestWQ.is_write_op
  rw [h]

theorem same_counts_refl (s : AioImageRequestWQ) : s.same_counts s :=
  ⟨rfl, rfl, rfl, rfl, rfl, rfl⟩

theorem finish_in_flight_op_counts (s s1 : AioImageRequestWQ)
    (h : s.finish_in_flight_op = some s1) :
    s.same_counts s1 ∧ s1.m_in_flight_ops + 1 = s.m_in_flight_ops := by
  unfold AioImageRequestWQ.finish_in_flight_op at h
  split at h
  · exact Option.noConfusion h
  · rename_i hn
    simp only at h
    split at h
    · cases h
      exact ⟨⟨rfl, rfl, rfl, rfl, rfl, rfl⟩, Nat.sub_add_cancel (Nat.pos_of_ne_zero hn)⟩
    · split at h
      · exact Option.noConfusion h
      · cases h
        exact ⟨⟨rfl, rfl, rfl, rfl, rfl, rfl⟩, Nat.sub_add_cancel (Nat.pos_of_ne_zero hn)⟩

theorem finish_in_flight_op_some (s : AioImageRequestWQ) (hn : 0 < s.m_in_flight_ops)
    (hs : s.m_shutdown = true → s.m_on_shutdown.isSome = true) :
    ∃ s1, s.finish_in_flight_op = some s1 := by
  unfold AioImageRequestWQ.finish_in_flight_op
  rw [if_neg (Nat.pos_iff_ne_zero.mp hn)]
  simp only
  split
  · exact ⟨_, rfl⟩
  · rename_i hc
    have hsd : s.m_shutdown = true := by
      by_contra hh
      exact hc (Or.inr hh)
    cases hos : s.m_on_shutdown with
    | none => rw [hos] at hs; exact absurd (hs hsd) (by simp)
    | some ctx => exact ⟨_, rfl⟩

theorem queue_counts (s : AioImageRequestWQ) (req : AioImageRequest) :
    (s.queue req).is_write_op = s.is_write_op ∧ (s.queue req).items = s.items ++ [req] ∧
      (s.queue req).m_in_progress_writes = s.m_in_progress_writes ∧
      (s.queue req).m_queued_writes =
        s.m_queued_writes + (if s.is_write_op req = true then 1 else 0) ∧
      (s.queue req).m_shutdown = s.m_shutdown ∧
      (s.queue req).m_on_shutdown = s.m_on_shutdown ∧
      (s.queue req).m_in_flight_ops = s.m_in_flight_ops := by
  unfold AioImageRequestWQ.queue
  cases hw : s.is_write_op req
  · simp only [Bool.false_eq_true, if_false, Bool.false_and, Nat.add_zero]
    refine ⟨?_, ?_, ?_, ?_, ?_, ?_, ?_⟩ <;> first | rfl | trivial
  · simp only [if_true, Bool.true_and]
    split <;> exact ⟨rfl, rfl, rfl, rfl, rfl, rfl, rfl⟩

/-- What `aio_read`, `aio_write`, `aio_discard` and `aio_flush` (which differ in the request
and in the condition for queueing it) do to the accounting: nothing, or the request is
appended to the queue with its in-flight count and, when write-class, its queued-writes
count. -/
theorem aio_counts (s s1 : AioImageRequestWQ) (c : Nat) (req : AioImageRequest)
    (cond : AioImageRequestWQ → Bool)
    (h : (if !(s.start_in_flight_op c).1 then some (s.start_in_flight_op c).2
      else if cond (s.start_in_flight_op c).2 then
        some ((s.start_in_flight_op c).2.queue req)
      else ((s.start_in_flight_op c).2.issue_inline req).finish_in_flight_op) = some s1) :
    (s.same_counts s1 ∧ s1.m_in_flight_ops = s.m_in_flight_ops) ∨
    (s1.is_write_op = s.is_write_op ∧ s1.items = s.items ++ [req] ∧
      s1.m_in_progress_writes = s.m_in_progress_writes ∧
      s1.m_queued_writes = s.m_queued_writes + (if s.is_write_op req = true then 1 else 0) ∧
      s1.m_shutdown = s.m_shutdown ∧ s1.m_on_shutdown = s.m_on_shutdown ∧
      s1.m_in_flight_ops = s.m_in_flight_ops + 1 ∧ s.m_shutdown = false) := by
  rcases Bool.eq_false_or_eq_true s.m_shutdown with hsd | hsd
  · rw [start_in_flight_op_shutdown s c hsd] at h
    simp only [Bool.not_false, if_true, Option.some.injEq] at h
    rw [← h]
    exact Or.inl ⟨⟨rfl, rfl, rfl, rfl, rfl, rfl⟩, rfl⟩
  · rw [start_in_flight_op_admitted s c hsd] at h
    simp only [Bool.not_true, Bool.false_eq_true, if_false] at h
    split at h
    · cases h
      obtain ⟨h1, h2, h3, h4, h5, h6, h7⟩ :=
        queue_counts { s with m_in_flight_ops := s.m_in_flight_ops + 1 } req
      exact Or.inr ⟨h1, h2, h3, h4, h5, h6, h7, hsd⟩
    · obtain ⟨hsame, hn⟩ := finish_in_flight_op_counts _ s1 h
      refine Or.inl ⟨hsame, ?_⟩
      have hn1 : s1.m_in_flight_ops + 1 = s.m_in_flight_ops + 1 := hn
      exact Nat.add_right_cancel hn1

theorem shut_down_counts (s s1 : AioImageRequestWQ) (ctx : Context)
    (h : s.shut_down ctx = some s1) :
    s1.is_write_op = s.is_write_op ∧ s1.items = s.items ∧
      s1.m_in_progress_writes = s.m_in_progress_writes ∧
      s1.m_queued_writes = s.m_queued_writes ∧
      s1.m_in_flight_ops = s.m_in_flight_ops ∧
      (0 < s.m_in_flight_ops → s1.m_on_shutdown.isSome = true) := by
  unfold AioImageRequestWQ.shut_down at h
  split at h
  · exact Option.noConfusion h
  · simp only at h
    split at h
    · cases h
      exact ⟨rfl, rfl, rfl, rfl, rfl, fun _ => rfl⟩
    · rename_i hn
      cases h
      exact ⟨rfl, rfl, rfl, rfl, rfl, fun hp => absurd hp hn⟩

theorem block_writes_counts (s : AioImageRequestWQ) (ctx : Context) :
    s.same_counts (s.block_writes ctx) ∧
      (s.block_writes ctx).m_in_flight_ops = s.m_in_flight_ops := by
  unfold AioImageRequestWQ.block_writes
  simp only
  split <;> exact ⟨⟨rfl, rfl, rfl, rfl, rfl, rfl⟩, rfl⟩

theorem unblock_writes_counts (s s1 : AioImageRequestWQ) (h : s.unblock_writes = some s1) :
    s.same_counts s1 ∧ s1.m_in_flight_ops = s.m_in_flight_ops := by
  unfold AioImageRequestWQ.unblock_writes at h
  split at h
  · exact Option.noConfusion h
  · simp only at h
    split at h <;> cases h <;> exact ⟨⟨rfl, rfl, rfl, rfl, rfl, rfl⟩, rfl⟩

/-- What `_void_dequeue` does to the accounting: nothing, or the front of the queue is
removed, counted in progress when write-class, and either handed to the worker or parked in
a refresh. -/
theorem void_dequeue_counts (s : AioImageRequestWQ) :
    (s._void_dequeue.1 = none ∧ s._void_dequeue.2 = s) ∨
    ∃ peek_item rest, s.items = peek_item :: rest ∧
      s._void_dequeue.2.is_write_op = s.is_write_op ∧
      s._void_dequeue.2.items = rest ∧
      s._void_dequeue.2.m_in_progress_writes =
        s.m_in_progress_writes + (if s.is_write_op peek_item = true then 1 else 0) ∧
      s._void_dequeue.2.m_queued_writes = s.m_queued_writes ∧
      s._void_dequeue.2.m_shutdown = s.m_shutdown ∧
      s._void_dequeue.2.m_on_shutdown = s.m_on_shutdown ∧
      s._void_dequeue.2.m_in_flight_ops = s.m_in_flight_ops ∧
      ((s._void_dequeue.1 = some peek_item ∧ s._void_dequeue.2.refreshes = s.refreshes) ∨
        (s._void_dequeue.1 = none ∧
          s._void_dequeue.2.refreshes = s.refreshes ++ [peek_item])) := by
  unfold AioImageRequestWQ._void_dequeue
  split
  · exact Or.inl ⟨rfl, rfl⟩
  · rename_i peek_item rest hitems
    split
    · exact Or.inl ⟨rfl, rfl⟩
    · split
      · exact Or.inl ⟨rfl, rfl⟩
      · refine Or.inr ⟨peek_item, rest, hitems, ?_⟩
        cases hw : s.is_write_op peek_item
        · simp only [Bool.false_eq_true, if_false, Nat.add_zero]
          split
          · exact ⟨rfl, rfl, rfl, rfl, rfl, rfl, rfl, Or.inr ⟨rfl, rfl⟩⟩
          · exact ⟨rfl, rfl, rfl, rfl, rfl, rfl, rfl, Or.inl ⟨rfl, rfl⟩⟩
        · simp only [if_true]
          split
          · exact ⟨rfl, rfl, rfl, rfl, rfl, rfl, rfl, Or.inr ⟨rfl, rfl⟩⟩
          · exact ⟨rfl, rfl, rfl, rfl, rfl, rfl, rfl, Or.inl ⟨rfl, rfl⟩⟩

/-- What `process` does to the accounting: both assertions held, the in-flight count and,
for a write-class request, the queued-writes and in-progress-writes counts are decremented
by one. -/
theorem process_counts (s s1 : AioImageRequestWQ) (req : AioImageRequest)
    (h : s.process req = some s1) :
    s1.is_write_op = s.is_write_op ∧ s1.items = s.items ∧
      s1.m_shutdown = s.m_shutdown ∧ s1.m_on_shutdown = s.m_on_shutdown ∧
      s1.m_in_flight_ops + 1 = s.m_in_flight_ops ∧
      s1.m_queued_writes + (if s.is_write_op req = true then 1 else 0) = s.m_queued_writes ∧
      s1.m_in_progress_writes + (if s.is_write_op req = true then 1 else 0) =
        s.m_in_progress_writes := by
  unfold AioImageRequestWQ.process at h
  simp only at h
  split at h
  · rename_i hw
    have hw1 : s.is_write_op req = true := hw
    split at h
    · exact Option.noConfusion h
    · rename_i hq
      split at h
      · exact Option.noConfusion h
      · rename_i hp
        have hq1 : s.m_queued_writes - 1 + 1 = s.m_queued_writes :=
          Nat.sub_add_cancel (Nat.pos_of_ne_zero hq)
        have hp1 : s.m_in_progress_writes - 1 + 1 = s.m_in_progress_writes :=
          Nat.sub_add_cancel (Nat.pos_of_ne_zero hp)
        split at h
        · obtain ⟨⟨a1, a2, _, _, a5, a6⟩, hn⟩ := finish_in_flight_op_counts _ s1 h
          rw [hw1]
          exact ⟨a1, a2, a5, a6, hn, (congrArg (· + 1) ‹_›).trans hq1,
            (congrArg (· + 1) ‹_›).trans hp1⟩
        · obtain ⟨⟨a1, a2, _, _, a5, a6⟩, hn⟩ := finish_in_flight_op_counts _ s1 h
          rw [hw1]
          exact ⟨a1, a2, a5, a6, hn, (congrArg (· + 1) ‹_›).trans hq1,
            (congrArg (· + 1) ‹_›).trans hp1⟩
  · rename_i hw
    have hw1 : s.is_write_op req = false := Bool.eq_false_iff.mpr hw
    obtain ⟨⟨a1, a2, a3, a4, a5, a6⟩, hn⟩ := finish_in_flight_op_counts _ s1 h
    rw [hw1]
    exact ⟨a1, a2, a5, a6, hn, a4, a3⟩

/-- The call `process(req)` returns when its two assertions hold, a request is in flight and
a shut-down queue has its shutdown callback. -/
theorem process_some (s : AioImageRequestWQ) (req : AioImageRequest)
    (hw : s.is_write_op req = true → 0 < s.m_queued_writes ∧ 0 < s.m_in_progress_writes)
    (hn : 0 < s.m_in_flight_ops)
    (hs : s.m_shutdown = true → s.m_on_shutdown.isSome = true) :
    ∃ s1, s.process req = some s1 := by
  unfold AioImageRequestWQ.process
  simp only
  split
  · rename_i hw0
    have hw1 : s.is_write_op req = true := hw0
    rw [if_neg (Nat.pos_iff_ne_zero.mp (hw hw1).1), if_neg (Nat.pos_iff_ne_zero.mp (hw hw1).2)]
    split
    · exact finish_in_flight_op_some _ hn hs
    · exact finish_in_flight_op_some _ hn hs
  · exact finish_in_flight_op_some _ hn hs

theorem countP_erase_add (p : AioImageRequest → Bool) (l : List AioImageRequest)
    (a : AioImageRequest) (h : a ∈ l) :
    (l.erase a).countP p + (if p a = true then 1 else 0) = l.countP p := by
  have hperm := (List.perm_cons_erase h).countP_eq p
  rw [List.countP_cons] at hperm
  exact hperm.symm

theorem length_erase_add (l : List AioImageRequest) (a : AioImageRequest) (h : a ∈ l) :
    (l.erase a).length + 1 = l.length := by
  have hperm := (List.perm_cons_erase h).length_eq
  rw [List.length_cons] at hperm
  exact hperm.symm

theorem consistent_of_same_counts (st : WorkerPool) (wq1 : AioImageRequestWQ)
    (hsame : st.wq.same_counts wq1) (hn : wq1.m_in_flight_ops = st.wq.m_in_flight_ops)
    (hinv : st.consistent) : WorkerPool.consistent { st with wq := wq1 } := by
  obtain ⟨hw, hi, hp, hq, hsd, hos⟩ := hsame
  unfold WorkerPool.consistent at hinv ⊢
  simp only [hw, hi, hp, hq, hsd, hos, hn]
  exact hinv

theorem consistent_of_aio (st : WorkerPool) (wq1 : AioImageRequestWQ) (c : Nat)
    (req : AioImageRequest) (cond : AioImageRequestWQ → Bool)
    (h : (if !(st.wq.start_in_flight_op c).1 then some (st.wq.start_in_flight_op c).2
      else if cond (st.wq.start_in_flight_op c).2 then
        some ((st.wq.start_in_flight_op c).2.queue req)
      else ((st.wq.start_in_flight_op c).2.issue_inline req).finish_in_flight_op) = some wq1)
    (hinv : st.consistent) : WorkerPool.consistent { st with wq := wq1 } := by
  rcases aio_counts st.wq wq1 c req cond h with ⟨hsame, hn⟩ | ⟨hw, hi, hp, hq, hsd, hos, hn, hsf⟩
  · exact consistent_of_same_counts st wq1 hsame hn hinv
  · unfold WorkerPool.consistent at hinv ⊢
    obtain ⟨h1, h2, h3, _⟩ := hinv
    simp only [hw, hi, hp, hq, hsd, hos, hn, hsf, List.countP_append, List.countP_cons,
      List.countP_nil, List.length_append, List.length_cons, List.length_nil]
    refine ⟨h1, ?_, ?_, fun hh => Bool.noConfusion hh⟩
    · cases st.wq.is_write_op req <;> simp <;> omega
    · omega

theorem consistent_of_process (st : WorkerPool) (wq1 : AioImageRequestWQ)
    (req : AioImageRequest) (hwq : st.wq.process req = some wq1) (hinv : st.consistent) :
    (req ∈ st.dequeued →
      WorkerPool.consistent { st with wq := wq1, dequeued := st.dequeued.erase req }) ∧
    (req ∈ st.parked →
      WorkerPool.consistent { st with wq := wq1, parked := st.parked.erase req }) := by
  obtain ⟨hw, hi, hsd, hos, hn, hq, hp⟩ := process_counts st.wq wq1 req hwq
  unfold WorkerPool.consistent at hinv ⊢
  obtain ⟨h1, h2, h3, h4⟩ := hinv
  simp only [hw, hi, hsd, hos]
  constructor
  · intro hmem
    have hc := countP_erase_add st.wq.is_write_op st.dequeued req hmem
    have hl := length_erase_add st.dequeued req hmem
    refine ⟨?_, ?_, ?_, fun hs hpos => h4 hs (by omega)⟩
    · cases hwr : st.wq.is_write_op req <;> simp [hwr] at hc hp hq <;> omega
    · cases hwr : st.wq.is_write_op req <;> simp [hwr] at hc hp hq <;> omega
    · omega
  · intro hmem
    have hc := countP_erase_add st.wq.is_write_op st.parked req hmem
    have hl := length_erase_add st.parked req hmem
    refine ⟨?_, ?_, ?_, fun hs hpos => h4 hs (by omega)⟩
    · cases hwr : st.wq.is_write_op req <;> simp [hwr] at hc hp hq <;> omega
    · cases hwr : st.wq.is_write_op req <;> simp [hwr] at hc hp hq <;> omega
    · omega

/-- Every step of the work queue keeps the accounting invariant. -/
theorem step_consistent (st st1 : WorkerPool) (call : WorkerCall)
    (h : st.step call = some st1) (hinv : st.consistent) : st1.consistent := by
  cases call with
  | aio_read c =>
    obtain ⟨wq1, hwq, hst⟩ := Option.map_eq_some'.mp h
    rw [← hst]
    exact consistent_of_aio st wq1 c ⟨RequestKind.read, c⟩
      (fun s => s.m_image_ctx.non_blocking_aio || s.writes_blocked || !s.writes_empty) hwq hinv
  | aio_write c =>
    obtain ⟨wq1, hwq, hst⟩ := Option.map_eq_some'.mp h
    rw [← hst]
    exact consistent_of_aio st wq1 c ⟨RequestKind.write, c⟩
      (fun s => s.m_image_ctx.non_blocking_aio || s.is_journal_required || s.writes_blocked)
      hwq hinv
  | aio_discard c =>
    obtain ⟨wq1, hwq, hst⟩ := Option.map_eq_some'.mp h
    rw [← hst]
    exact consistent_of_aio st wq1 c ⟨RequestKind.discard, c⟩
      (fun s => s.m_image_ctx.non_blocking_aio || s.is_journal_required || s.writes_blocked)
      hwq hinv
  | aio_flush c =>
    obtain ⟨wq1, hwq, hst⟩ := Option.map_eq_some'.mp h
    rw [← hst]
    exact consistent_of_aio st wq1 c ⟨RequestKind.flush, c⟩
      (fun s => s.m_image_ctx.non_blocking_aio || s.is_journal_required || s.writes_blocked ||
        !s.writes_empty) hwq hinv
  | shut_down on_shutdown =>
    obtain ⟨wq1, hwq, hst⟩ := Option.map_eq_some'.mp h
    rw [← hst]
    obtain ⟨hw, hi, hp, hq, hn, hos⟩ := shut_down_counts st.wq wq1 on_shutdown hwq
    unfold WorkerPool.consistent at hinv ⊢
    obtain ⟨h1, h2, h3, _⟩ := hinv
    simp only [hw, hi, hp, hq, hn]
    exact ⟨h1, h2, h3, fun _ hpos => hos hpos⟩
  | block_writes on_blocked =>
    simp only [WorkerPool.step, Option.some.injEq] at h
    rw [← h]
    exact consistent_of_same_counts st _ (block_writes_counts st.wq on_blocked).1
      (block_writes_counts st.wq on_blocked).2 hinv
  | unblock_writes =>
    obtain ⟨wq1, hwq, hst⟩ := Option.map_eq_some'.mp h
    rw [← hst]
    exact consistent_of_same_counts st wq1 (unblock_writes_counts st.wq wq1 hwq).1
      (unblock_writes_counts st.wq wq1 hwq).2 hinv
  | handle_blocked_writes r =>
    simp only [WorkerPool.step, Option.some.injEq] at h
    rw [← h]
    exact consistent_of_same_counts st _ ⟨rfl, rfl, rfl, rfl, rfl, rfl⟩ rfl hinv
  | set_refresh_required required =>
    simp only [WorkerPool.step, Option.some.injEq] at h
    rw [← h]
    exact consistent_of_same_counts st _ ⟨rfl, rfl, rfl, rfl, rfl, rfl⟩ rfl hinv
  | dequeue =>
    simp only [WorkerPool.step] at h
    unfold WorkerPool.consistent at hinv ⊢
    obtain ⟨h1, h2, h3, h4⟩ := hinv
    rcases void_dequeue_counts st.wq with ⟨hnone, hsame⟩ |
      ⟨peek_item, rest, hitems, hw, hi, hp, hq, hsd, hos, hn, hout⟩
    · rcases hvd : st.wq._void_dequeue with ⟨o, wq⟩
      rw [hvd] at h hnone hsame
      simp only at hnone hsame
      subst hnone
      subst hsame
      simp only [Option.some.injEq] at h
      rw [← h]
      simp only [List.drop_length, List.append_nil]
      exact ⟨h1, h2, h3, h4⟩
    · rcases hvd : st.wq._void_dequeue with ⟨o, wq⟩
      rw [hvd] at h hw hi hp hq hsd hos hn hout
      simp only at hw hi hp hq hsd hos hn hout
      rw [hitems] at h2 h3
      simp only [List.countP_cons, List.length_cons] at h2 h3
      rcases hout with ⟨ho, _⟩ | ⟨ho, href⟩
      · subst ho
        simp only [Option.some.injEq] at h
        rw [← h]
        simp only [hw, hi, hp, hq, hsd, hos, hn, List.countP_append, List.countP_cons,
          List.countP_nil, List.length_append, List.length_cons, List.length_nil]
        refine ⟨?_, ?_, ?_, h4⟩
        · cases hwr : st.wq.is_write_op peek_item <;> simp [hwr] at h2 ⊢ <;> omega
        · cases hwr : st.wq.is_write_op peek_item <;> simp [hwr] at h2 ⊢ <;> omega
        · omega
      · subst ho
        simp only [Option.some.injEq] at h
        rw [← h]
        simp only [hw, hi, hp, hq, hsd, hos, hn, href, List.drop_left, List.countP_append,
          List.countP_cons, List.countP_nil, List.length_append, List.length_cons,
          List.length_nil]
        refine ⟨?_, ?_, ?_, h4⟩
        · cases hwr : st.wq.is_write_op peek_item <;> simp [hwr] at h2 ⊢ <;> omega
        · cases hwr : st.wq.is_write_op peek_item <;> simp [hwr] at h2 ⊢ <;> omega
        · omega
  | process req =>
    simp only [WorkerPool.step] at h
    split at h
    · rename_i hmem
      obtain ⟨wq1, hwq, hst⟩ := Option.map_eq_some'.mp h
      rw [← hst]
      exact (consistent_of_process st wq1 req hwq hinv).1 hmem
    · exact Option.noConfusion h
  | handle_refreshed r req =>
    simp only [WorkerPool.step] at h
    split at h
    · rename_i hmem
      obtain ⟨wq1, hwq, hst⟩ := Option.map_eq_some'.mp h
      rw [← hst]
      unfold AioImageRequestWQ.handle_refreshed at hwq
      split at hwq
      · cases hwq
        have hc := countP_erase_add st.wq.is_write_op st.parked req hmem
        have hl := length_erase_add st.parked req hmem
        unfold WorkerPool.consistent at hinv ⊢
        obtain ⟨h1, h2, h3, h4⟩ := hinv
        have hw : AioImageRequestWQ.is_write_op
            { st.wq with failed := st.wq.failed ++ [(req.aio_comp, r)] } =
            st.wq.is_write_op := rfl
        simp only [hw]
        exact ⟨by omega, h2, by omega, h4⟩
      · obtain ⟨wq2, hwq2, hst2⟩ := Option.map_eq_some'.mp hwq
        rw [← hst2]
        exact consistent_of_same_counts
          { st with wq := wq2, parked := st.parked.erase req }
          { wq2 with m_refresh_in_progress := false, signals := wq2.signals + 1 }
          ⟨rfl, rfl, rfl, rfl, rfl, rfl⟩ rfl
          ((consistent_of_process st wq2 req hwq2 hinv).2 hmem)
    · exact Option.noConfusion h

/-- The accounting invariant holds in every state a run of the work queue reaches. -/
theorem run_consistent (calls : List WorkerCall) :
    ∀ st st1 : WorkerPool, st.consistent → WorkerPool.run st calls = some st1 →
      st1.consistent := by
  induction calls with
  | nil =>
    intro st st1 hinv h
    simp only [WorkerPool.run, Option.some.injEq] at h
    exact h ▸ hinv
  | cons c rest ih =>
    intro st st1 hinv h
    simp only [WorkerPool.run] at h
    obtain ⟨a, ha, hr⟩ := Option.bind_eq_some.mp h
    exact ih a st1 (step_consistent st a c ha hinv) hr

/-- In a consistent state a write-class request that is with a worker or parked is counted
in both write counters, and a request is in flight. -/
theorem consistent_held (st : WorkerPool) (hinv : st.consistent) (req : AioImageRequest)
    (hmem : req ∈ st.dequeued ∨ req ∈ st.parked) :
    (st.wq.is_write_op req = true →
      0 < st.wq.m_queued_writes ∧ 0 < st.wq.m_in_progress_writes) ∧
    0 < st.wq.m_in_flight_ops ∧
    (st.wq.m_shutdown = true → st.wq.m_on_shutdown.isSome = true) := by
  obtain ⟨h1, h2, h3, h4⟩ := hinv
  have hlen : 0 < st.dequeued.length + st.parked.length := by
    rcases hmem with hm | hm
    · have := List.length_pos_of_mem hm
      omega
    · have := List.length_pos_of_mem hm
      omega
  have hn : 0 < st.wq.m_in_flight_ops := by omega
  refine ⟨fun hw => ?_, hn, fun hs => h4 hs hn⟩
  have hcount : 0 < st.dequeued.countP st.wq.is_write_op +
      st.parked.countP st.wq.is_write_op := by
    rcases hmem with hm | hm
    · have := List.countP_pos_iff.mpr ⟨req, hm, hw⟩
      omega
    · have := List.countP_pos_iff.mpr ⟨req, hm, hw⟩
      omega
  constructor <;> omega

/-- C29: in every state a run of the work queue reaches (requests enter through the
`aio_...` calls and `queue`, leave through `_void_dequeue` to a worker or to a refresh, and
finish through `process`, directly or from `handle_refreshed`), the in-progress-writes count
is at most the queued-writes count; for every write-class request with a worker or parked in
a refresh both counters are positive, so both assertions of `process` hold; `process` of a
dequeued request and `handle_refreshed` of a parked one return, and `process` decrements
both counters by exactly one for a write-class request and leaves them for any other. -/
theorem in_progress_le_queued (image_ctx : ImageCtx) (calls : List WorkerCall)
    (st : WorkerPool) (h : WorkerPool.run (WorkerPool.init image_ctx) calls = some st) :
    st.wq.m_in_progress_writes ≤ st.wq.m_queued_writes ∧
    (∀ req, req ∈ st.dequeued ∨ req ∈ st.parked → st.wq.is_write_op req = true →
      0 < st.wq.m_queued_writes ∧ 0 < st.wq.m_in_progress_writes) ∧
    (∀ req ∈ st.dequeued, ∃ st1, st.step (WorkerCall.process req) = some st1 ∧
      st1.wq.m_queued_writes + (if st.wq.is_write_op req = true then 1 else 0) =
        st.wq.m_queued_writes ∧
      st1.wq.m_in_progress_writes + (if st.wq.is_write_op req = true then 1 else 0) =
        st.wq.m_in_progress_writes) ∧
    (∀ req ∈ st.parked, ∀ r : Int,
      ∃ st1, st.step (WorkerCall.handle_refreshed r req) = some st1 ∧
        (0 ≤ r →
          st1.wq.m_queued_writes + (if st.wq.is_write_op req = true then 1 else 0) =
            st.wq.m_queued_writes ∧
          st1.wq.m_in_progress_writes + (if st.wq.is_write_op req = true then 1 else 0) =
            st.wq.m_in_progress_writes)) := by
  have hinit : (WorkerPool.init image_ctx).consistent := by
    unfold WorkerPool.consistent WorkerPool.init AioImageRequestWQ.init
    simp
  have hinv := run_consistent calls _ st hinit h
  refine ⟨?_, ?_, ?_, ?_⟩
  · have h2 := hinv.2.1
    omega
  · intro req hmem
    exact (consistent_held st hinv req hmem).1
  · intro req hmem
    obtain ⟨hw, hn, hs⟩ := consistent_held st hinv req (Or.inl hmem)
    obtain ⟨wq1, hwq⟩ := process_some st.wq req hw hn hs
    obtain ⟨_, _, _, _, _, hq, hp⟩ := process_counts st.wq wq1 req hwq
    refine ⟨{ st with wq := wq1, dequeued := st.dequeued.erase req }, ?_, hq, hp⟩
    simp only [WorkerPool.step, hmem, if_true, hwq, Option.map_some']
  · intro req hmem r
    obtain ⟨hw, hn, hs⟩ := consistent_held st hinv req (Or.inr hmem)
    obtain ⟨wq1, hwq⟩ := process_some st.wq req hw hn hs
    obtain ⟨_, _, _, _, _, hq, hp⟩ := process_counts st.wq wq1 req hwq
    by_cases hr : r < 0
    · refine ⟨{ st with
          wq := { st.wq with failed := st.wq.failed ++ [(req.aio_comp, r)] }
          parked := st.parked.erase req }, ?_, fun h0 => absurd hr (Int.not_lt.mpr h0)⟩
      simp only [WorkerPool.step, hmem, if_true, AioImageRequestWQ.handle_refreshed, hr,
        Option.map_some']
    · refine ⟨{ st with
          wq := { wq1 with m_refresh_in_progress := false, signals := wq1.signals + 1 }
          parked := st.parked.erase req }, ?_, fun _ => ⟨hq, hp⟩⟩
      simp only [WorkerPool.step, hmem, if_true, AioImageRequestWQ.handle_refreshed, hr,
        if_false, hwq, Option.map_some']

/-- C29, applied: two writes are queued on an image that requires a refresh; the worker
parks the first one in a refresh, the refresh completes with 0 (the write is processed),
the image stops requiring a refresh and the worker dequeues the second write. In the state
reached one write is queued and in progress, and `process` of it returns. -/
theorem in_progress_le_queued_witness :
    ∃ st : WorkerPool,
      WorkerPool.run (WorkerPool.init ⟨true, false, none, true, true⟩)
      [WorkerCall.aio_write 1, WorkerCall.aio_write 2, WorkerCall.dequeue,
        WorkerCall.handle_refreshed 0 ⟨RequestKind.write, 1⟩,
        WorkerCall.set_refresh_required false, WorkerCall.dequeue] = some st ∧
      st.dequeued = [⟨RequestKind.write, 2⟩] ∧
      st.wq.m_in_progress_writes = 1 ∧ st.wq.m_queued_writes = 1 ∧
      st.wq.m_in_progress_writes ≤ st.wq.m_queued_writes ∧
      ∃ st1, st.step (WorkerCall.process ⟨RequestKind.write, 2⟩) = some st1 :=
  have hrun : WorkerPool.run (WorkerPool.init ⟨true, false, none, true, true⟩)
      [WorkerCall.aio_write 1, WorkerCall.aio_write 2, WorkerCall.dequeue,
        WorkerCall.handle_refreshed 0 ⟨RequestKind.write, 1⟩,
        WorkerCall.set_refresh_required false, WorkerCall.dequeue] =
      some
      { wq :=
          { AioImageRequestWQ.init ⟨true, false, none, false, true⟩ with
            m_in_progress_writes := 1, m_queued_writes := 1, m_in_flight_ops := 1
            sent := [⟨RequestKind.write, 1⟩], refreshes := [⟨RequestKind.write, 1⟩]
            signals := 1 },
        dequeued := [⟨RequestKind.write, 2⟩],
        parked := [] } := by decide
  ⟨{ wq :=
          { AioImageRequestWQ.init ⟨true, false, none, false, true⟩ with
            m_in_progress_writes := 1, m_queued_writes := 1, m_in_flight_ops := 1
            sent := [⟨RequestKind.write, 1⟩], refreshes := [⟨RequestKind.write, 1⟩]
            signals := 1 },
        dequeued := [⟨RequestKind.write, 2⟩],
        parked := [] }, hrun, rfl, rfl, rfl,
    (in_progress_le_queued ⟨true, false, none, true, true⟩
      [WorkerCall.aio_write 1, WorkerCall.aio_write 2, WorkerCall.dequeue,
        WorkerCall.handle_refreshed 0 ⟨RequestKind.write, 1⟩,
        WorkerCall.set_refresh_required false, WorkerCall.dequeue]
      { wq :=
          { AioImageRequestWQ.init ⟨true, false, none, false, true⟩ with
            m_in_progress_writes := 1, m_queued_writes := 1, m_in_flight_ops := 1
            sent := [⟨RequestKind.write, 1⟩], refreshes := [⟨RequestKind.write, 1⟩]
            signals := 1 },
        dequeued := [⟨RequestKind.write, 2⟩],
        parked := [] } hrun).1,
    match (in_progress_le_queued ⟨true, false, none, true, true⟩
      [WorkerCall.aio_write 1, WorkerCall.aio_write 2, WorkerCall.dequeue,
        WorkerCall.handle_refreshed 0 ⟨RequestKind.write, 1⟩,
        WorkerCall.set_refresh_required false, WorkerCall.dequeue]
      { wq :=
          { AioImageRequestWQ.init ⟨true, false, none, false, true⟩ with
            m_in_progress_writes := 1, m_queued_writes := 1, m_in_flight_ops := 1
            sent := [⟨RequestKind.write, 1⟩], refreshes := [⟨RequestKind.write, 1⟩]
            signals := 1 },
        dequeued := [⟨RequestKind.write, 2⟩],
        parked := [] } hrun).2.2.1
        ⟨RequestKind.write, 2⟩ (List.mem_singleton.mpr rfl) with
    | ⟨st1, h1, _⟩ => ⟨st1, h1⟩⟩

end librbd

/-! ## Blocker callbacks over runs of the work queue -/

namespace librbd

theorem same_blockers_trans (s s1 s2 : AioImageRequestWQ)
    (h1 : s.same_blockers s1) (h2 : s1.same_blockers s2) : s.same_blockers s2 :=
  ⟨same_blocked_writes_trans s s1 s2 h1.1 h2.1, h2.2.1.trans h1.2.1, h2.2.2.trans h1.2.2⟩

theorem start_in_flight_op_blockers (s : AioImageRequestWQ) (c : Nat) :
    s.same_blockers (s.start_in_flight_op c).2 := by
  refine ⟨start_in_flight_op_same s c, ?_, ?_⟩ <;>
    (unfold AioImageRequestWQ.start_in_flight_op; split <;> rfl)

theorem finish_in_flight_op_blockers (s s1 : AioImageRequestWQ)
    (h : s.finish_in_flight_op = some s1) : s.same_blockers s1 := by
  refine ⟨(finish_in_flight_op_same s s1 h).1, ?_, (finish_in_flight_op_same s s1 h).2⟩
  unfold AioImageRequestWQ.finish_in_flight_op at h
  split at h
  · exact Option.noConfusion h
  · simp only at h
    split at h
    · cases h; rfl
    · split at h
      · exact Option.noConfusion h
      · cases h; rfl

theorem queue_blockers (s : AioImageRequestWQ) (req : AioImageRequest) :
    s.same_blockers (s.queue req) := by
  refine ⟨queue_same s req, ?_, ?_⟩ <;>
    (unfold AioImageRequestWQ.queue; simp only; split <;> split <;> rfl)

/-- The calls `aio_read`, `aio_write`, `aio_discard` and `aio_flush` change nothing for the
blocker callbacks. -/
theorem aio_blockers (s s1 : AioImageRequestWQ) (c : Nat) (req : AioImageRequest)
    (cond : AioImageRequestWQ → Bool)
    (h : (if !(s.start_in_flight_op c).1 then some (s.start_in_flight_op c).2
      else if cond (s.start_in_flight_op c).2 then
        some ((s.start_in_flight_op c).2.queue req)
      else ((s.start_in_flight_op c).2.issue_inline req).finish_in_flight_op) = some s1) :
    s.same_blockers s1 := by
  have h0 := start_in_flight_op_blockers s c
  split at h
  · cases h
    exact h0
  · split at h
    · cases h
      exact same_blockers_trans _ _ _ h0 (queue_blockers _ req)
    · have h1 : AioImageRequestWQ.same_blockers (s.start_in_flight_op c).2
          ((s.start_in_flight_op c).2.issue_inline req) := ⟨⟨rfl, rfl, rfl⟩, rfl, rfl⟩
      exact same_blockers_trans _ _ _ h0
        (same_blockers_trans _ _ _ h1 (finish_in_flight_op_blockers _ s1 h))

theorem shut_down_blockers (s s1 : AioImageRequestWQ) (ctx : Context)
    (h : s.shut_down ctx = some s1) : s.same_blockers s1 := by
  unfold AioImageRequestWQ.shut_down at h
  split at h
  · exact Option.noConfusion h
  · simp only at h
    split at h
    · cases h
      exact ⟨⟨rfl, rfl, rfl⟩, rfl, rfl⟩
    · cases h
      refine ⟨⟨rfl, rfl, ?_⟩, rfl, rfl⟩
      simp [AioImageRequestWQ.blocked_writes_flushes, List.count_append]

/-- The call `block_writes(cb)` completes nothing, hands out no `C_BlockedWrites`, increments
`m_write_blockers` and extends the blocker list by `cb` or by nothing. -/
theorem block_writes_blockers (s : AioImageRequestWQ) (cb : Context) :
    (s.block_writes cb).completed = s.completed ∧
      (s.block_writes cb).blocked_writes_flushes = s.blocked_writes_flushes ∧
      (s.block_writes cb).m_write_blockers = s.m_write_blockers + 1 ∧
      (s.block_writes cb).m_in_progress_writes = s.m_in_progress_writes ∧
      ∃ ext, (s.block_writes cb).m_write_blocker_contexts = s.m_write_blocker_contexts ++ ext := by
  unfold AioImageRequestWQ.block_writes
  simp only
  split
  · exact ⟨rfl, rfl, rfl, rfl, [cb], rfl⟩
  · refine ⟨rfl, ?_, rfl, rfl, [], (List.append_nil _).symm⟩
    simp [AioImageRequestWQ.blocked_writes_flushes, List.count_append]

theorem unblock_writes_blockers (s s1 : AioImageRequestWQ) (h : s.unblock_writes = some s1) :
    s.same_blocked_writes s1 ∧ s1.m_write_blockers + 1 = s.m_write_blockers ∧
      s1.m_in_progress_writes = s.m_in_progress_writes := by
  unfold AioImageRequestWQ.unblock_writes at h
  split at h
  · exact Option.noConfusion h
  · rename_i hb
    simp only at h
    split at h <;> cases h <;>
      exact ⟨⟨rfl, rfl, rfl⟩, Nat.sub_add_cancel (Nat.pos_of_ne_zero hb), rfl⟩

/-- The worker dequeue changes nothing for the blocker callbacks, except that it counts a
write-class request in progress, which it does only while `m_write_blockers` is 0. -/
theorem void_dequeue_blockers (s : AioImageRequestWQ) :
    s.same_blocked_writes s._void_dequeue.2 ∧
      s._void_dequeue.2.m_write_blockers = s.m_write_blockers ∧
      (s._void_dequeue.2.m_in_progress_writes = s.m_in_progress_writes ∨
        (s._void_dequeue.2.m_in_progress_writes = s.m_in_progress_writes + 1 ∧
          s.m_write_blockers = 0)) := by
  refine ⟨void_dequeue_same s, ?_, ?_⟩
  · unfold AioImageRequestWQ._void_dequeue
    split
    · rfl
    · split
      · rfl
      · split
        · rfl
        · simp only
          split <;> split <;> rfl
  · unfold AioImageRequestWQ._void_dequeue
    split
    · exact Or.inl rfl
    · split
      · exact Or.inl rfl
      · split
        · exact Or.inl rfl
        · rename_i peek_item rest _ _ hblocked
          cases hw : s.is_write_op peek_item
          · simp only [Bool.false_eq_true, if_false]
            split <;> exact Or.inl rfl
          · have hb : s.m_write_blockers = 0 := by
              by_contra hne
              exact hblocked (by simp [hw, Nat.pos_of_ne_zero hne])
            simp only [if_true]
            split <;> exact Or.inr ⟨rfl, hb⟩

/-- The call `process(req)` completes nothing, leaves the blocker list and
`m_write_blockers`, does not increase the in-progress-writes count, and hands out one
`C_BlockedWrites` exactly when it drains. -/
theorem process_blockers (s s1 : AioImageRequestWQ) (req : AioImageRequest)
    (h : s.process req = some s1) :
    s1.completed = s.completed ∧
      s1.m_write_blocker_contexts = s.m_write_blocker_contexts ∧
      s1.m_write_blockers = s.m_write_blockers ∧
      s1.m_in_progress_writes ≤ s.m_in_progress_writes ∧
      s1.blocked_writes_flushes = s.blocked_writes_flushes +
        (if (s.is_write_op req && decide (s1.m_in_progress_writes = 0) &&
            !s.m_write_blocker_contexts.isEmpty) = true then 1 else 0) := by
  obtain ⟨h1, h2, h3⟩ := process_blocked_writes s s1 req h
  obtain ⟨_, _, _, _, _, _, hp⟩ := process_counts s s1 req h
  refine ⟨h1, h2, ?_, by omega, ?_⟩
  · unfold AioImageRequestWQ.process at h
    simp only at h
    split at h
    · split at h
      · exact Option.noConfusion h
      · split at h
        · exact Option.noConfusion h
        · split at h
          · exact (finish_in_flight_op_blockers _ s1 h).2.1
          · exact (finish_in_flight_op_blockers _ s1 h).2.1
    · exact (finish_in_flight_op_blockers _ s1 h).2.1
  · rw [h3]
    congr 1
    by_cases hc : s.is_write_op req = true ∧ s1.m_in_progress_writes = 0 ∧
        s.m_write_blocker_contexts ≠ []
    · rw [if_pos hc, if_pos]
      simp [hc.1, hc.2.1, List.isEmpty_iff, hc.2.2]
    · rw [if_neg hc, if_neg]
      intro hb
      apply hc
      simp only [Bool.and_eq_true, decide_eq_true_eq, Bool.not_eq_true',
        List.isEmpty_eq_false] at hb
      exact ⟨hb.1.1, hb.1.2, hb.2⟩

/-- What a step of the worker pool other than `handle_blocked_writes` does for the blocker
callbacks: it completes nothing; it extends the blocker list only together with an
increment of `m_write_blockers`; it hands out one `C_BlockedWrites` exactly when it drains,
which leaves no write in progress; only `unblock_writes` decrements `m_write_blockers`; and
the in-progress-writes count grows only while `m_write_blockers` is 0. -/
theorem pool_step_blockers (p p1 : WorkerPool) (call : WorkerCall)
    (h : p.step call = some p1) (hcall : ∀ r, call ≠ WorkerCall.handle_blocked_writes r) :
    p1.wq.completed = p.wq.completed ∧
    (∃ ext, p1.wq.m_write_blocker_contexts = p.wq.m_write_blocker_contexts ++ ext ∧
      (ext ≠ [] → p1.wq.m_write_blockers = p.wq.m_write_blockers + 1)) ∧
    p1.wq.blocked_writes_flushes =
      p.wq.blocked_writes_flushes + (if call.drains p.wq p1.wq = true then 1 else 0) ∧
    (call.drains p.wq p1.wq = true →
      p1.wq.m_in_progress_writes = 0 ∧ p.wq.m_write_blocker_contexts ≠ [] ∧
      p1.wq.m_write_blockers = p.wq.m_write_blockers) ∧
    (p1.wq.m_write_blockers = p.wq.m_write_blockers ∨
      p1.wq.m_write_blockers = p.wq.m_write_blockers + 1 ∨
      (call = WorkerCall.unblock_writes ∧
        p1.wq.m_write_blockers + 1 = p.wq.m_write_blockers)) ∧
    (p1.wq.m_in_progress_writes ≤ p.wq.m_in_progress_writes ∨ p.wq.m_write_blockers = 0) := by
  have hquiet : ∀ wq1 : AioImageRequestWQ, p.wq.same_blockers wq1 →
      call.drains p.wq wq1 = false →
      wq1.completed = p.wq.completed ∧
      (∃ ext, wq1.m_write_blocker_contexts = p.wq.m_write_blocker_contexts ++ ext ∧
        (ext ≠ [] → wq1.m_write_blockers = p.wq.m_write_blockers + 1)) ∧
      wq1.blocked_writes_flushes =
        p.wq.blocked_writes_flushes + (if call.drains p.wq wq1 = true then 1 else 0) ∧
      (call.drains p.wq wq1 = true →
        wq1.m_in_progress_writes = 0 ∧ p.wq.m_write_blocker_contexts ≠ [] ∧
        wq1.m_write_blockers = p.wq.m_write_blockers) ∧
      (wq1.m_write_blockers = p.wq.m_write_blockers ∨
        wq1.m_write_blockers = p.wq.m_write_blockers + 1 ∨
        (call = WorkerCall.unblock_writes ∧
          wq1.m_write_blockers + 1 = p.wq.m_write_blockers)) ∧
      (wq1.m_in_progress_writes ≤ p.wq.m_in_progress_writes ∨ p.wq.m_write_blockers = 0) := by
    intro wq1 hs hd
    obtain ⟨⟨hc, hl, hf⟩, hb, hp⟩ := hs
    rw [hd]
    exact ⟨hc, ⟨[], by rw [hl, List.append_nil], fun hne => absurd rfl hne⟩, by simpa using hf,
      fun hh => Bool.noConfusion hh, Or.inl hb, Or.inl (Nat.le_of_eq hp)⟩
  have hproc : ∀ (wq2 : AioImageRequestWQ) (req : AioImageRequest),
      p.wq.process req = some wq2 →
      ∀ wq1 : AioImageRequestWQ, wq2.same_blockers wq1 →
      call.drains p.wq wq1 =
        (p.wq.is_write_op req && decide (wq2.m_in_progress_writes = 0) &&
          !p.wq.m_write_blocker_contexts.isEmpty) →
      wq1.completed = p.wq.completed ∧
      (∃ ext, wq1.m_write_blocker_contexts = p.wq.m_write_blocker_contexts ++ ext ∧
        (ext ≠ [] → wq1.m_write_blockers = p.wq.m_write_blockers + 1)) ∧
      wq1.blocked_writes_flushes =
        p.wq.blocked_writes_flushes + (if call.drains p.wq wq1 = true then 1 else 0) ∧
      (call.drains p.wq wq1 = true →
        wq1.m_in_progress_writes = 0 ∧ p.wq.m_write_blocker_contexts ≠ [] ∧
        wq1.m_write_blockers = p.wq.m_write_blockers) ∧
      (wq1.m_write_blockers = p.wq.m_write_blockers ∨
        wq1.m_write_blockers = p.wq.m_write_blockers + 1 ∨
        (call = WorkerCall.unblock_writes ∧
          wq1.m_write_blockers + 1 = p.wq.m_write_blockers)) ∧
      (wq1.m_in_progress_writes ≤ p.wq.m_in_progress_writes ∨ p.wq.m_write_blockers = 0) := by
    intro wq2 req hwq2 wq1 hs hd
    obtain ⟨⟨hc, hl, hf⟩, hb, hp⟩ := hs
    obtain ⟨g1, g2, g3, g4, g5⟩ := process_blockers p.wq wq2 req hwq2
    rw [hd]
    refine ⟨hc.trans g1, ⟨[], by rw [hl, g2, List.append_nil], fun hne => absurd rfl hne⟩,
      hf.trans g5, ?_, Or.inl (hb.trans g3), Or.inl (by rw [hp]; exact g4)⟩
    intro hh
    simp only [Bool.and_eq_true, decide_eq_true_eq, Bool.not_eq_true',
      List.isEmpty_eq_false] at hh
    exact ⟨hp.trans hh.1.2, hh.2, hb.trans g3⟩
  cases call with
  | aio_read c =>
    obtain ⟨wq1, hwq, hst⟩ := Option.map_eq_some'.mp h
    rw [← hst]
    exact hquiet wq1 (aio_blockers p.wq wq1 c ⟨RequestKind.read, c⟩
      (fun s => s.m_image_ctx.non_blocking_aio || s.writes_blocked || !s.writes_empty) hwq) rfl
  | aio_write c =>
    obtain ⟨wq1, hwq, hst⟩ := Option.map_eq_some'.mp h
    rw [← hst]
    exact hquiet wq1 (aio_blockers p.wq wq1 c ⟨RequestKind.write, c⟩
      (fun s => s.m_image_ctx.non_blocking_aio || s.is_journal_required || s.writes_blocked)
      hwq) rfl
  | aio_discard c =>
    obtain ⟨wq1, hwq, hst⟩ := Option.map_eq_some'.mp h
    rw [← hst]
    exact hquiet wq1 (aio_blockers p.wq wq1 c ⟨RequestKind.discard, c⟩
      (fun s => s.m_image_ctx.non_blocking_aio || s.is_journal_required || s.writes_blocked)
      hwq) rfl
  | aio_flush c =>
    obtain ⟨wq1, hwq, hst⟩ := Option.map_eq_some'.mp h
    rw [← hst]
    exact hquiet wq1 (aio_blockers p.wq wq1 c ⟨RequestKind.flush, c⟩
      (fun s => s.m_image_ctx.non_blocking_aio || s.is_journal_required || s.writes_blocked ||
        !s.writes_empty) hwq) rfl
  | shut_down on_shutdown =>
    obtain ⟨wq1, hwq, hst⟩ := Option.map_eq_some'.mp h
    rw [← hst]
    exact hquiet wq1 (shut_down_blockers p.wq wq1 on_shutdown hwq) rfl
  | block_writes on_blocked =>
    simp only [WorkerPool.step, Option.some.injEq] at h
    rw [← h]
    obtain ⟨g1, g2, g3, g4, ext, g5⟩ := block_writes_blockers p.wq on_blocked
    exact ⟨g1, ⟨ext, g5, fun _ => g3⟩, by simpa [WorkerCall.drains] using g2,
      fun hh => Bool.noConfusion hh, Or.inr (Or.inl g3), Or.inl (Nat.le_of_eq g4)⟩
  | unblock_writes =>
    obtain ⟨wq1, hwq, hst⟩ := Option.map_eq_some'.mp h
    rw [← hst]
    obtain ⟨⟨hc, hl, hf⟩, hb, hp⟩ := unblock_writes_blockers p.wq wq1 hwq
    exact ⟨hc, ⟨[], by rw [hl, List.append_nil], fun hne => absurd rfl hne⟩,
      by simpa [WorkerCall.drains] using hf, fun hh => Bool.noConfusion hh,
      Or.inr (Or.inr ⟨rfl, hb⟩), Or.inl (Nat.le_of_eq hp)⟩
  | handle_blocked_writes r => exact absurd rfl (hcall r)
  | set_refresh_required required =>
    simp only [WorkerPool.step, Option.some.injEq] at h
    rw [← h]
    exact hquiet _ ⟨⟨rfl, rfl, rfl⟩, rfl, rfl⟩ rfl
  | dequeue =>
    simp only [WorkerPool.step] at h
    obtain ⟨⟨hc, hl, hf⟩, hb, hp⟩ := void_dequeue_blockers p.wq
    have hview : p1.wq = p.wq._void_dequeue.2 := by
      rcases hvd : p.wq._void_dequeue with ⟨o, wq⟩
      rw [hvd] at h
      cases o with
      | none =>
        simp only [Option.some.injEq] at h
        rw [← h]
      | some item =>
        simp only [Option.some.injEq] at h
        rw [← h]
    rw [hview]
    refine ⟨hc, ⟨[], by rw [hl, List.append_nil], fun hne => absurd rfl hne⟩,
      by simpa [WorkerCall.drains] using hf, fun hh => Bool.noConfusion hh, Or.inl hb, ?_⟩
    rcases hp with hp | ⟨_, hz⟩
    · exact Or.inl (Nat.le_of_eq hp)
    · exact Or.inr hz
  | process req =>
    simp only [WorkerPool.step] at h
    split at h
    · obtain ⟨wq1, hwq, hst⟩ := Option.map_eq_some'.mp h
      rw [← hst]
      exact hproc wq1 req hwq wq1 ⟨⟨rfl, rfl, rfl⟩, rfl, rfl⟩ rfl
    · exact Option.noConfusion h
  | handle_refreshed r req =>
    simp only [WorkerPool.step] at h
    split at h
    · obtain ⟨wq1, hwq, hst⟩ := Option.map_eq_some'.mp h
      rw [← hst]
      unfold AioImageRequestWQ.handle_refreshed at hwq
      split at hwq
      · rename_i hr
        cases hwq
        refine hquiet _ ⟨⟨rfl, rfl, rfl⟩, rfl, rfl⟩ ?_
        simp [WorkerCall.drains, Int.not_le.mpr hr]
      · rename_i hr
        obtain ⟨wq2, hwq2, hst2⟩ := Option.map_eq_some'.mp hwq
        rw [← hst2]
        refine hproc wq2 req hwq2 _ ⟨⟨rfl, rfl, rfl⟩, rfl, rfl⟩ ?_
        simp [WorkerCall.drains, Int.not_lt.mp hr]
    · exact Option.noConfusion h

theorem blocker_step_other (st st1 : BlockerPool) (call : WorkerCall)
    (hcall : ∀ r, call ≠ WorkerCall.handle_blocked_writes r)
    (h : st.step call = some st1) :
    ∃ p1 : WorkerPool, st.pool.step call = some p1 ∧
      st1 =
        { pool := p1,
          handled := st.handled,
          queued :=
            st.queued ++
              p1.wq.m_write_blocker_contexts.drop st.pool.wq.m_write_blocker_contexts.length,
          drained := st.drained + (if call.drains st.pool.wq p1.wq then 1 else 0) } := by
  cases call <;>
    first
    | exact absurd rfl (hcall _)
    | (simp only [BlockerPool.step] at h
       obtain ⟨p1, hp, hs⟩ := Option.map_eq_some'.mp h
       exact ⟨p1, hp, hs.symm⟩)

theorem blocker_step_handle (st st1 : BlockerPool) (r : Int)
    (h : st.step (WorkerCall.handle_blocked_writes r) = some st1) :
    st.handled < st.pool.wq.blocked_writes_flushes ∧
      st1 =
        { st with
          pool := { st.pool with wq := st.pool.wq.handle_blocked_writes r },
          handled := st.handled + 1 } := by
  simp only [BlockerPool.step] at h
  split at h
  · rename_i hg
    simp only [Option.some.injEq] at h
    exact ⟨hg, h.symm⟩
  · exact Option.noConfusion h

/-- Every step keeps the bookkeeping invariant of the blocker callbacks. -/
theorem blocker_step_consistent (st st1 : BlockerPool) (call : WorkerCall)
    (h : st.step call = some st1) (hinv : st.consistent) : st1.consistent := by
  obtain ⟨h1, h2, h3, h4⟩ := hinv
  by_cases hcall : ∀ r, call ≠ WorkerCall.handle_blocked_writes r
  · obtain ⟨p1, hp, hs⟩ := blocker_step_other st st1 call hcall h
    obtain ⟨g1, ⟨ext, g2, _⟩, g3, _, _, _⟩ := pool_step_blockers st.pool p1 call hp hcall
    rw [hs]
    unfold BlockerPool.consistent
    simp only
    refine ⟨?_, ?_, ?_, ?_⟩
    · rw [g1, g2, List.drop_left, List.map_append, List.map_append, ← List.append_assoc, h1]
    · rw [g3, h2]
    · omega
    · intro h0
      rw [g1]
      exact h4 h0
  · have hex : ∃ r, call = WorkerCall.handle_blocked_writes r := by
      by_contra hne
      exact hcall (fun r hr => hne ⟨r, hr⟩)
    obtain ⟨r, hr⟩ := hex
    subst hr
    obtain ⟨hg, hs⟩ := blocker_step_handle st st1 r h
    rw [hs]
    unfold BlockerPool.consistent
    simp only
    refine ⟨?_, h2, ?_, ?_⟩
    · simp only [AioImageRequestWQ.handle_blocked_writes, List.map_nil, List.append_nil]
      exact h1
    · rw [h2] at hg
      omega
    · intro h0
      exact absurd h0 (Nat.succ_ne_zero _)

/-- Every step keeps `drained_while_blocked`, provided an `unblock_writes` step does not
bring `m_write_blockers` to 0 while a blocker callback is queued or a `C_BlockedWrites` has
not run yet. -/
theorem blocker_step_drained (st st1 : BlockerPool) (call : WorkerCall)
    (h : st.step call = some st1)
    (hd : call = WorkerCall.unblock_writes →
      1 < st.pool.wq.m_write_blockers ∨
        (st.pool.wq.m_write_blocker_contexts = [] ∧
          st.handled = st.pool.wq.blocked_writes_flushes))
    (hinv : st.drained_while_blocked) : st1.drained_while_blocked := by
  obtain ⟨hJ, hK⟩ := hinv
  by_cases hcall : ∀ r, call ≠ WorkerCall.handle_blocked_writes r
  · obtain ⟨p1, hp, hs⟩ := blocker_step_other st st1 call hcall h
    obtain ⟨_, ⟨ext, g2, g2b⟩, g3, g4, g5, g6⟩ :=
      pool_step_blockers st.pool p1 call hp hcall
    rw [hs]
    unfold BlockerPool.drained_while_blocked
    simp only
    by_cases hdr : call.drains st.pool.wq p1.wq = true
    · obtain ⟨d1, d2, d3⟩ := g4 hdr
      refine ⟨fun _ => ?_, fun _ => d1⟩
      rw [d3]
      exact hJ (Or.inl d2)
    · rw [if_neg hdr, Nat.add_zero] at g3
      refine ⟨?_, ?_⟩
      · intro hprem
        rcases g5 with hb | hb | ⟨hu, hb⟩
        · by_cases hext : ext = []
          · rw [hext, List.append_nil] at g2
            rw [g2, g3] at hprem
            rw [hb]
            exact hJ hprem
          · rw [g2b hext]
            exact Nat.succ_pos _
        · rw [hb]
          exact Nat.succ_pos _
        · have hext : ext = [] := by
            by_contra hne
            have := g2b hne
            omega
          rw [hext, List.append_nil] at g2
          rw [g2, g3] at hprem
          rcases hd hu with hgt | ⟨hc0, hh0⟩
          · omega
          · rcases hprem with hp1 | hp1
            · exact absurd hc0 hp1
            · omega
      · intro hprem
        rw [g3] at hprem
        have hp0 := hK hprem
        have hb0 := hJ (Or.inr hprem)
        rcases g6 with hle | hz
        · omega
        · omega
  · have hex : ∃ r, call = WorkerCall.handle_blocked_writes r := by
      by_contra hne
      exact hcall (fun r hr => hne ⟨r, hr⟩)
    obtain ⟨r, hr⟩ := hex
    subst hr
    obtain ⟨hg, hs⟩ := blocker_step_handle st st1 r h
    rw [hs]
    unfold BlockerPool.drained_while_blocked
    simp only
    have hf : (st.pool.wq.handle_blocked_writes r).blocked_writes_flushes =
        st.pool.wq.blocked_writes_flushes := rfl
    have hb : (st.pool.wq.handle_blocked_writes r).m_write_blockers =
        st.pool.wq.m_write_blockers := rfl
    have hp : (st.pool.wq.handle_blocked_writes r).m_in_progress_writes =
        st.pool.wq.m_in_progress_writes := rfl
    rw [hf, hb, hp]
    exact ⟨fun _ => hJ (Or.inr hg), fun hprem => hK (by omega)⟩

theorem blocker_run_consistent (calls : List WorkerCall) :
    ∀ st st1 : BlockerPool, st.consistent → BlockerPool.run st calls = some st1 →
      st1.consistent := by
  induction calls with
  | nil =>
    intro st st1 hinv h
    simp only [BlockerPool.run, Option.some.injEq] at h
    exact h ▸ hinv
  | cons c rest ih =>
    intro st st1 hinv h
    simp only [BlockerPool.run] at h
    obtain ⟨a, ha, hr⟩ := Option.bind_eq_some.mp h
    exact ih a st1 (blocker_step_consistent st a c ha hinv) hr

theorem blocker_run_drained (calls : List WorkerCall) :
    ∀ st st1 : BlockerPool, st.drained_while_blocked →
      BlockerPool.unblocks_after_drain st calls = true →
      BlockerPool.run st calls = some st1 → st1.drained_while_blocked := by
  induction calls with
  | nil =>
    intro st st1 hinv _ h
    simp only [BlockerPool.run, Option.some.injEq] at h
    exact h ▸ hinv
  | cons c rest ih =>
    intro st st1 hinv hdis h
    simp only [BlockerPool.run] at h
    obtain ⟨a, ha, hr⟩ := Option.bind_eq_some.mp h
    simp only [BlockerPool.unblocks_after_drain, ha, Bool.and_eq_true] at hdis
    refine ih a st1 (blocker_step_drained st a c ha ?_ hinv) hdis.2 hr
    intro hu
    subst hu
    simpa using hdis.1

/-- What `block_writes(cb)` does in any state of the queue. -/
theorem block_writes_view (s : AioImageRequestWQ) (cb : Context) :
    (s.block_writes cb).m_write_blockers = s.m_write_blockers + 1 ∧
      (s.block_writes cb).completed = s.completed ∧
      (s.m_in_progress_writes = 0 ∧ s.m_write_blocker_contexts = [] →
        (s.block_writes cb).flushes = s.flushes ++ [FlushCallback.context cb] ∧
        (s.block_writes cb).m_write_blocker_contexts = []) ∧
      (¬ (s.m_in_progress_writes = 0 ∧ s.m_write_blocker_contexts = []) →
        (s.block_writes cb).flushes = s.flushes ∧
        (s.block_writes cb).m_write_blocker_contexts = s.m_write_blocker_contexts ++ [cb]) := by
  have hview := (block_writes_drain s cb ⟨RequestKind.read, 0⟩ 0 0).1
  exact ⟨hview.1, hview.2.1, hview.2.2.2.1, hview.2.2.2.2⟩

/-- C18, as stated, fails: a queued callback can be completed while a write is in progress.
On an image with non-blocking I/O: `aio_write(1)`; the worker dequeues write 1;
`block_writes(5)` queues callback 5; `process` of write 1 brings the in-progress-writes count
to 0 and hands a `C_BlockedWrites` to the image flush; before that flush completes,
`unblock_writes()`, `aio_write(2)`, the worker dequeues write 2 (count 1) and
`block_writes(6)` queues callback 6. Then the flush completes: `handle_blocked_writes`
completes callbacks 5 and 6 with write 2 in progress, and the count has not dropped to 0
since callback 6 was queued. -/
theorem blocker_callbacks_counterexample :
    (BlockerPool.run (BlockerPool.init ⟨true, false, none, false, true⟩)
        [WorkerCall.aio_write 1, WorkerCall.dequeue, WorkerCall.block_writes 5,
          WorkerCall.process ⟨RequestKind.write, 1⟩, WorkerCall.unblock_writes,
          WorkerCall.aio_write 2, WorkerCall.dequeue, WorkerCall.block_writes 6]).map
      (fun st => (st.pool.wq.m_in_progress_writes, st.pool.dequeued,
        st.pool.wq.m_write_blocker_contexts, st.pool.wq.completed, st.drained, st.handled)) =
      some (1, [⟨RequestKind.write, 2⟩], [5, 6], [], 1, 0) ∧
    (BlockerPool.run (BlockerPool.init ⟨true, false, none, false, true⟩)
        [WorkerCall.aio_write 1, WorkerCall.dequeue, WorkerCall.block_writes 5,
          WorkerCall.process ⟨RequestKind.write, 1⟩, WorkerCall.unblock_writes,
          WorkerCall.aio_write 2, WorkerCall.dequeue, WorkerCall.block_writes 6,
          WorkerCall.handle_blocked_writes 0]).map
      (fun st => (st.pool.wq.m_in_progress_writes, st.pool.dequeued,
        st.pool.wq.m_write_blocker_contexts, st.pool.wq.completed, st.drained, st.handled)) =
      some (1, [⟨RequestKind.write, 2⟩], [], [(5, 0), (6, 0)], 1, 1) :=
  ⟨rfl, rfl⟩

/-- C18, amended: in every state reached by a run of the work queue in which
`handle_blocked_writes` runs only as the completion of a `C_BlockedWrites`:
`block_writes(cb)` increments `m_write_blockers` by one, completes nothing, and hands `cb` to
the image flush at once if and only if no write is in progress and no blocker callback is
queued, and otherwise appends `cb` to the blocker list; the callbacks completed so far,
followed by the ones still queued, are exactly the callbacks queued by `block_writes`, in
that order, each with result 0; a run of `handle_blocked_writes` completes all callbacks
queued at that time and is possible only if an earlier `process` brought the in-progress
count to 0 with callbacks queued and its `C_BlockedWrites` has not run yet (so nothing is
completed before the first such `process`); and when no `unblock_writes` brings
`m_write_blockers` to 0 while a callback is queued or a `C_BlockedWrites` has not run, no
write is in progress whenever `handle_blocked_writes` runs. -/
theorem blocker_callbacks_after_drain (image_ctx : ImageCtx) (calls : List WorkerCall)
    (st : BlockerPool)
    (h : BlockerPool.run (BlockerPool.init image_ctx) calls = some st) :
    (∀ cb : Context,
      (st.pool.wq.block_writes cb).m_write_blockers = st.pool.wq.m_write_blockers + 1 ∧
      (st.pool.wq.block_writes cb).completed = st.pool.wq.completed ∧
      (st.pool.wq.m_in_progress_writes = 0 ∧ st.pool.wq.m_write_blocker_contexts = [] →
        (st.pool.wq.block_writes cb).flushes =
          st.pool.wq.flushes ++ [FlushCallback.context cb] ∧
        (st.pool.wq.block_writes cb).m_write_blocker_contexts = []) ∧
      (¬ (st.pool.wq.m_in_progress_writes = 0 ∧ st.pool.wq.m_write_blocker_contexts = []) →
        (st.pool.wq.block_writes cb).flushes = st.pool.wq.flushes ∧
        (st.pool.wq.block_writes cb).m_write_blocker_contexts =
          st.pool.wq.m_write_blocker_contexts ++ [cb])) ∧
    st.pool.wq.completed ++
        st.pool.wq.m_write_blocker_contexts.map (fun ctx => (ctx, (0 : Int))) =
      st.queued.map (fun ctx => (ctx, (0 : Int))) ∧
    st.pool.wq.blocked_writes_flushes = st.drained ∧ st.handled ≤ st.drained ∧
    (st.handled = 0 → st.pool.wq.completed = []) ∧
    (∀ (r : Int) (st1 : BlockerPool),
      st.step (WorkerCall.handle_blocked_writes r) = some st1 →
        st.handled < st.drained ∧
        st1.pool.wq.completed =
          st.pool.wq.completed ++
            st.pool.wq.m_write_blocker_contexts.map (fun ctx => (ctx, (0 : Int))) ∧
        st1.pool.wq.m_write_blocker_contexts = [] ∧
        (BlockerPool.unblocks_after_drain (BlockerPool.init image_ctx) calls = true →
          st.pool.wq.m_in_progress_writes = 0)) := by
  have hinit : (BlockerPool.init image_ctx).consistent := by
    unfold BlockerPool.consistent BlockerPool.init WorkerPool.init AioImageRequestWQ.init
      AioImageRequestWQ.blocked_writes_flushes
    simp
  have hinit2 : (BlockerPool.init image_ctx).drained_while_blocked := by
    unfold BlockerPool.drained_while_blocked BlockerPool.init WorkerPool.init
      AioImageRequestWQ.init AioImageRequestWQ.blocked_writes_flushes
    simp
  obtain ⟨h1, h2, h3, h4⟩ := blocker_run_consistent calls _ st hinit h
  refine ⟨fun cb => block_writes_view st.pool.wq cb, h1, h2, h3, h4, ?_⟩
  intro r st1 hstep
  obtain ⟨hg, hs⟩ := blocker_step_handle st st1 r hstep
  rw [hs]
  refine ⟨h2 ▸ hg, rfl, rfl, fun hdis => ?_⟩
  exact (blocker_run_drained calls _ st hinit2 hdis h).2 hg

/-- C18, amended, applied: `aio_write(1)`, the worker dequeues write 1, `block_writes(5)`
queues callback 5 and `process` of write 1 drains. In the state reached no write is in
progress, and `handle_blocked_writes` completes callback 5 with 0. -/
theorem blocker_callbacks_after_drain_witness :
    ∃ st st1 : BlockerPool,
      BlockerPool.run (BlockerPool.init ⟨true, false, none, false, true⟩)
      [WorkerCall.aio_write 1, WorkerCall.dequeue, WorkerCall.block_writes 5,
        WorkerCall.process ⟨RequestKind.write, 1⟩] = some st ∧
      st.pool.wq.m_write_blocker_contexts = [5] ∧ st.pool.wq.completed = [] ∧
      st.step (WorkerCall.handle_blocked_writes 0) = some st1 ∧
      st.handled < st.drained ∧ st1.pool.wq.completed = [(5, 0)] ∧
      st1.pool.wq.m_write_blocker_contexts = [] ∧ st.pool.wq.m_in_progress_writes = 0 :=
  have hrun : BlockerPool.run (BlockerPool.init ⟨true, false, none, false, true⟩)
      [WorkerCall.aio_write 1, WorkerCall.dequeue, WorkerCall.block_writes 5,
        WorkerCall.process ⟨RequestKind.write, 1⟩] =
      some
      { pool :=
          { wq :=
              { AioImageRequestWQ.init ⟨true, false, none, false, true⟩ with
                m_write_blockers := 1, m_write_blocker_contexts := [5],
                flushes := [FlushCallback.C_BlockedWrites],
                sent := [⟨RequestKind.write, 1⟩] },
            dequeued := [],
            parked := [] },
        handled := 0,
        queued := [5],
        drained := 1 } := by decide
  have hstep : BlockerPool.step
      { pool :=
          { wq :=
              { AioImageRequestWQ.init ⟨true, false, none, false, true⟩ with
                m_write_blockers := 1, m_write_blocker_contexts := [5],
                flushes := [FlushCallback.C_BlockedWrites],
                sent := [⟨RequestKind.write, 1⟩] },
            dequeued := [],
            parked := [] },
        handled := 0,
        queued := [5],
        drained := 1 }
      (WorkerCall.handle_blocked_writes 0) =
      some
        { pool :=
            { wq :=
                { AioImageRequestWQ.init ⟨true, false, none, false, true⟩ with
                  m_write_blockers := 1, flushes := [FlushCallback.C_BlockedWrites],
                  sent := [⟨RequestKind.write, 1⟩], completed := [(5, 0)] },
              dequeued := [],
              parked := [] },
          handled := 1,
          queued := [5],
          drained := 1 } := by decide
  match (blocker_callbacks_after_drain ⟨true, false, none, false, true⟩
      [WorkerCall.aio_write 1, WorkerCall.dequeue, WorkerCall.block_writes 5,
        WorkerCall.process ⟨RequestKind.write, 1⟩]
      { pool :=
          { wq :=
              { AioImageRequestWQ.init ⟨true, false, none, false, true⟩ with
                m_write_blockers := 1, m_write_blocker_contexts := [5],
                flushes := [FlushCallback.C_BlockedWrites],
                sent := [⟨RequestKind.write, 1⟩] },
            dequeued := [],
            parked := [] },
        handled := 0,
        queued := [5],
        drained := 1 } hrun).2.2.2.2.2 0 _ hstep with
  | ⟨hlt, hc, hl, hzero⟩ => ⟨_, _, hrun, rfl, rfl, hstep, hlt, hc, hl, hzero (by decide)⟩

end librbd
